import Mathlib

/-!
# Session capture / validate / restore protocol of the OS.js session manager

A shallow embedding of

* `src/shared/session-protocol.js`  (manifest factory, validator, pure transforms),
* `src/client/session-manager.js`   (serializer registry, capture, restore),
* `src/server/session-service.js`   (store and read-only inspector),
* `src/server/session-provider.js`  (the import route),

followed by theorems about the embedded definitions.

## Conventions of the embedding

* JavaScript values are the inductive type `JsVal`.  An object is the list of its
  own enumerable string-keyed properties in the order `Object.entries` enumerates
  them; inherited (prototype) properties are not modelled.  Numbers are integers.
  Strings are Lean strings (sequences of code points).
* A statement that may throw returns `Except JsErr _`; `try { .. } catch { log }`
  is the explicit `match` on that result.
* `await` is sequential composition: the code has a single caller and no
  interleaving is modelled.
* External collaborators (VFS backend, settings store, serializers, clock) are
  parameters.  Every collaborator call made by restore is appended to a trace.
  Looking a service up (`osjs.make(..)`) is taken to succeed.
* Values are immutable: an object stored in two places is two equal values, so
  a later assignment through one of them is not seen through the other.
-/

set_option autoImplicit false

namespace OsjsSession

/-! ## JavaScript values -/

/-- JavaScript values as far as the session code inspects them. -/
inductive JsVal where
  | undefined
  | null
  | bool (b : Bool)
  | num (n : Int)
  | str (s : String)
  | fn (id : Nat)
  | arr (items : List JsVal)
  | obj (props : List (String × JsVal))
  deriving Repr, Inhabited

/-- Exceptions: the `TypeError` the language raises itself, and `new Error(msg)`
(also used for whatever a collaborator throws). -/
inductive JsErr where
  | typeError (msg : String)
  | error (msg : String)
  deriving Repr, DecidableEq, Inhabited

/-- Outcome of a statement executed for its effect. -/
abbrev Outcome := Except JsErr Unit

/-- First value stored under key `k` in a property list. -/
def lookup (k : String) : List (String × JsVal) → Option JsVal
  | [] => none
  | (k', v) :: rest => if k' = k then some v else lookup k rest

/-- Decimal digits of an array index, most significant first. -/
def parseDigits : List Char → Nat → Option Nat
  | [], acc => some acc
  | c :: cs, acc =>
    if c.isDigit then parseDigits cs (acc * 10 + (c.toNat - 48)) else none

/-- The array index a property key denotes, if it is one: a canonical decimal
numeral (no leading zero) of value at most `2^32 - 2`. -/
def arrayIndex (k : String) : Option Nat :=
  match k.toList with
  | [] => none
  | [c] => if c.isDigit then some (c.toNat - 48) else none
  | c :: cs =>
    if c = '0' then none
    else match parseDigits (c :: cs) 0 with
      | some n => if n ≤ 4294967294 then some n else none
      | none => none

/-- Position of a new key among existing own keys: array indices come first in
ascending numeric order, all other keys follow in creation order. -/
def insertNew (k : String) (v : JsVal) : List (String × JsVal) → List (String × JsVal)
  | [] => [(k, v)]
  | (k', v') :: rest =>
    match arrayIndex k, arrayIndex k' with
    | some n, some n' => if n < n' then (k, v) :: (k', v') :: rest else (k', v') :: insertNew k v rest
    | some _, none => (k, v) :: (k', v') :: rest
    | none, _ => (k', v') :: insertNew k v rest

/-- Replace the value of an existing key, keeping its position. -/
def replaceExisting (k : String) (v : JsVal) : List (String × JsVal) → List (String × JsVal)
  | [] => []
  | (k', v') :: rest => if k' = k then (k, v) :: rest else (k', v') :: replaceExisting k v rest

/-- The assignment `o[k] = v` on the property list of an ordinary object. -/
def setProp (props : List (String × JsVal)) (k : String) (v : JsVal) : List (String × JsVal) :=
  match lookup k props with
  | some _ => replaceExisting k v props
  | none => insertNew k v props

namespace JsVal

/-- `ToBoolean`. -/
def truthy : JsVal → Bool
  | undefined => false
  | null => false
  | bool b => b
  | num n => n != 0
  | str s => s != ""
  | fn _ => true
  | arr _ => true
  | obj _ => true

/-- `typeof v === 'object'` (true of `null`, arrays and objects). -/
def typeofObject : JsVal → Bool
  | null => true
  | arr _ => true
  | obj _ => true
  | _ => false

/-- `typeof v === 'function'`. -/
def typeofFunction : JsVal → Bool
  | fn _ => true
  | _ => false

/-- `Array.isArray(v)`. -/
def isArray : JsVal → Bool
  | arr _ => true
  | _ => false

/-- `v === null`. -/
def isNull : JsVal → Bool
  | null => true
  | _ => false

/-- `v === s` for a string `s`. -/
def strictEqStr (v : JsVal) (s : String) : Bool :=
  match v with
  | str t => t = s
  | _ => false

/-- `v == null`, i.e. `v` is `null` or `undefined`. -/
def nullish : JsVal → Bool
  | undefined => true
  | null => true
  | _ => false

/-- The value of `v[k]` when `v` is neither `null` nor `undefined` (own
properties only; `length` and indices of arrays and strings included). Members
inherited from a prototype are outside the embedding, and a string is read by
code point, which is what JavaScript does for text of the basic plane. -/
def prop (v : JsVal) (k : String) : JsVal :=
  match v with
  | obj props => (lookup k props).getD undefined
  | arr items =>
    if k = "length" then num items.length
    else match arrayIndex k with
      | some i => items.getD i undefined
      | none => undefined
  | str s =>
    if k = "length" then num s.length
    else match arrayIndex k with
      | some i => (s.toList.get? i).elim undefined (fun c => str (String.singleton c))
      | none => undefined
  | _ => undefined

/-- Property read `v.k`: a `TypeError` on `null` and `undefined`. -/
def getProp (v : JsVal) (k : String) : Except JsErr JsVal :=
  if v.nullish then .error (.typeError ("Cannot read properties of null or undefined (reading " ++ k ++ ")"))
  else .ok (v.prop k)

/-- `Object.entries(v)`: a `TypeError` on `null` and `undefined`, the own
enumerable properties otherwise. -/
def entries : JsVal → Except JsErr (List (String × JsVal))
  | undefined => .error (.typeError "Cannot convert undefined or null to object")
  | null => .error (.typeError "Cannot convert undefined or null to object")
  | obj props => .ok props
  | arr items => .ok (items.enum.map fun p => (toString p.1, p.2))
  | str s => .ok (s.toList.enum.map fun p => (toString p.1, str (String.singleton p.2)))
  | _ => .ok []

/-- The values a `for (const x of v)` loop visits: a `TypeError` when `v` is
not iterable. -/
def iterate : JsVal → Except JsErr (List JsVal)
  | arr items => .ok items
  | str s => .ok (s.toList.map fun c => str (String.singleton c))
  | _ => .error (.typeError "value is not iterable")

end JsVal

/-! ## Strings -/

/-- Split a character sequence at every occurrence of `sep`. -/
def splitChars (sep : Char) : List Char → List (List Char)
  | [] => [[]]
  | c :: cs =>
    if c = sep then [] :: splitChars sep cs
    else match splitChars sep cs with
      | [] => [[c]]
      | seg :: rest => (c :: seg) :: rest

/-- `s.split(sep)` for a one-character separator. -/
def jsSplit (s : String) (sep : Char) : List String :=
  (splitChars sep s.toList).map String.mk

/-- `s.startsWith(p)`. -/
def jsStartsWith (s p : String) : Bool :=
  p.toList.isPrefixOf s.toList

/-! ## Protocol (`session-protocol.js`) -/

/-- The constant `SESSION_VERSION`. -/
def SESSION_VERSION : String := "1.0.0"

/-- The `error` string of a failed validation; `unsupportedVersion v` stands for
the message `Unsupported version: ` followed by `v`. -/
inductive ValidationError where
  | invalidManifestObject
  | unsupportedVersion (version : JsVal)
  | invalidProcessesArray
  | invalidVFSObject
  deriving Repr

/-- Result of `validateSessionManifest`: `{valid: true}` or `{valid: false, error}`. -/
inductive ValidationResult where
  | valid
  | invalid (error : ValidationError)
  deriving Repr

/-- Whether a validation result has `valid: true`. -/
def ValidationResult.isValid : ValidationResult → Bool
  | .valid => true
  | .invalid _ => false

/-- `createSessionManifest()`, with the clock reading `now` as a parameter. -/
def createSessionManifest (now : JsVal) : JsVal :=
  .obj [("version", .str SESSION_VERSION), ("timestamp", now), ("vfs", .obj []),
        ("processes", .arr []), ("settings", .obj []), ("metadata", .obj [])]

/-- `validateSessionManifest(manifest)`. -/
def validateSessionManifest (manifest : JsVal) : ValidationResult :=
  if !manifest.truthy || !manifest.typeofObject then
    .invalid .invalidManifestObject
  else if !(manifest.prop "version").strictEqStr SESSION_VERSION then
    .invalid (.unsupportedVersion (manifest.prop "version"))
  else if !(manifest.prop "processes").isArray then
    .invalid .invalidProcessesArray
  else if !(manifest.prop "vfs").typeofObject then
    .invalid .invalidVFSObject
  else
    .valid

/-! ## Serializer registry (`SessionManager.appSerializers`) -/

/-- Contents of the `Map` from app-type tag to serializer, in insertion order. -/
abbrev Registry := List (String × JsVal)

/-- `Map.prototype.set`: an existing key keeps its position, a new key is appended. -/
def mapSet (m : Registry) (k : String) (v : JsVal) : Registry :=
  match lookup k m with
  | some _ => replaceExisting k v m
  | none => m ++ [(k, v)]

/-- `this.appSerializers.get(key)` for an arbitrary key value: the registry only
holds string keys, so every other key misses. -/
def registryGet (reg : Registry) (key : JsVal) : JsVal :=
  match key with
  | .str t => (lookup t reg).getD .undefined
  | _ => .undefined

/-- Message of the error `registerAppSerializer` throws. -/
def invalidSerializerMessage (type : String) : String :=
  "Invalid serializer for type " ++ type ++ ": must have serialize() and deserialize() methods"

/-- `registerAppSerializer(type, serializer)`: the registry afterwards and
whether the call threw. -/
def registerAppSerializer (type : String) (serializer : JsVal) (reg : Registry) :
    Registry × Outcome :=
  match serializer.getProp "serialize" with
  | .error e => (reg, .error e)
  | .ok s =>
    if !s.typeofFunction then (reg, .error (.error (invalidSerializerMessage type)))
    else match serializer.getProp "deserialize" with
      | .error e => (reg, .error e)
      | .ok d =>
        if !d.typeofFunction then (reg, .error (.error (invalidSerializerMessage type)))
        else (mapSet reg type serializer, .ok ())

/-! ## Collaborators of restore -/

/-- A call issued to an external collaborator during restore. -/
inductive Call where
  | mkdir (path : String)
  | writefile (path : String) (content : JsVal)
  | settingsSet (key : String) (value : JsVal)
  | deserialize (serializer : JsVal) (windowState : JsVal) (appState : JsVal)
  deriving Repr

/-- The external collaborators as one handler: the state after the call and
whether the call threw. -/
structure Collaborators (σ : Type) where
  perform : Call → σ → σ × Outcome

/-- Collaborator state together with the trace of calls issued so far. -/
structure World (σ : Type) where
  state : σ
  trace : List Call

/-- Issue one collaborator call, recording it in the trace. -/
def invoke {σ : Type} (env : Collaborators σ) (c : Call) (w : World σ) : World σ × Outcome :=
  ({ state := (env.perform c w.state).1, trace := w.trace ++ [c] }, (env.perform c w.state).2)

/-! ## Restore (`session-manager.js`) -/

/-- The sort key `a[0].split('/').length`. -/
def pathDepth (path : String) : Nat :=
  (jsSplit path '/').length

/-- `Object.entries(vfsSnapshot).sort((a, b) => depthA - depthB)`: the sort is
stable and the comparator is a consistent order, so the result is the stable
ascending arrangement by depth. -/
def sortByDepth (entries : List (String × JsVal)) : List (String × JsVal) :=
  entries.insertionSort (fun a b => pathDepth a.1 ≤ pathDepth b.1)

/-- The depth comparison is total. -/
instance depthLe_total :
    IsTotal (String × JsVal) (fun a b => pathDepth a.1 ≤ pathDepth b.1) :=
  ⟨fun _ _ => Nat.le_total _ _⟩

/-- The depth comparison is transitive. -/
instance depthLe_trans :
    IsTrans (String × JsVal) (fun a b => pathDepth a.1 ≤ pathDepth b.1) :=
  ⟨fun _ _ _ h1 h2 => Nat.le_trans h1 h2⟩

/-- Body of the `try` block of `restoreVFS` for one entry. -/
def restoreEntryBody {σ : Type} (env : Collaborators σ) (path : String) (node : JsVal)
    (w : World σ) : World σ × Outcome :=
  match node.getProp "isDirectory" with
  | .error e => (w, .error e)
  | .ok d =>
    if d.truthy then invoke env (.mkdir path) w
    else if (node.prop "isFile").truthy && !(node.prop "content").isNull then
      invoke env (.writefile path (node.prop "content")) w
    else (w, .ok ())

/-- One iteration of the loop of `restoreVFS`: whatever the body throws is
caught (and logged), the loop goes on. -/
def restoreEntry {σ : Type} (env : Collaborators σ) (w : World σ) (e : String × JsVal) :
    World σ :=
  (restoreEntryBody env e.1 e.2 w).1

/-- `restoreVFS(vfsSnapshot)`. -/
def restoreVFS {σ : Type} (env : Collaborators σ) (vfsSnapshot : JsVal) (w : World σ) :
    World σ × Outcome :=
  match vfsSnapshot.entries with
  | .error e => (w, .error e)
  | .ok es => ((sortByDepth es).foldl (restoreEntry env) w, .ok ())

/-- The loop of `restoreSettings`: a throwing `set` ends the loop and propagates. -/
def restoreSettingsLoop {σ : Type} (env : Collaborators σ) :
    List (String × JsVal) → World σ → World σ × Outcome
  | [], w => (w, .ok ())
  | (k, v) :: rest, w =>
    match invoke env (.settingsSet k v) w with
    | (w', .ok _) => restoreSettingsLoop env rest w'
    | (w', .error e) => (w', .error e)

/-- `restoreSettings(settings)`. -/
def restoreSettings {σ : Type} (env : Collaborators σ) (settings : JsVal) (w : World σ) :
    World σ × Outcome :=
  match settings.entries with
  | .error e => (w, .error e)
  | .ok es => restoreSettingsLoop env es w

/-- Body of the `try` block of `restoreProcesses`: the method call
`serializer.deserialize(osjs, proc.windowState, proc.appState)`. -/
def deserializeBody {σ : Type} (env : Collaborators σ) (serializer proc : JsVal)
    (w : World σ) : World σ × Outcome :=
  if (serializer.prop "deserialize").typeofFunction then
    invoke env (.deserialize serializer (proc.prop "windowState") (proc.prop "appState")) w
  else (w, .error (.typeError "serializer.deserialize is not a function"))

/-- The loop of `restoreProcesses`. Reading `proc.type` is outside the `try`. -/
def restoreProcessesLoop {σ : Type} (env : Collaborators σ) (reg : Registry) :
    List JsVal → World σ → World σ × Outcome
  | [], w => (w, .ok ())
  | proc :: rest, w =>
    match proc.getProp "type" with
    | .error e => (w, .error e)
    | .ok t =>
      if (registryGet reg t).truthy then
        restoreProcessesLoop env reg rest (deserializeBody env (registryGet reg t) proc w).1
      else
        restoreProcessesLoop env reg rest w

/-- `restoreProcesses(processes)`. -/
def restoreProcesses {σ : Type} (env : Collaborators σ) (reg : Registry) (processes : JsVal)
    (w : World σ) : World σ × Outcome :=
  match processes.iterate with
  | .error e => (w, .error e)
  | .ok ps => restoreProcessesLoop env reg ps w

/-- `restoreSession(manifest)`. -/
def restoreSession {σ : Type} (env : Collaborators σ) (reg : Registry) (manifest : JsVal)
    (w : World σ) : World σ × Outcome :=
  match manifest.getProp "vfs" with
  | .error e => (w, .error e)
  | .ok vfs =>
    match restoreVFS env vfs w with
    | (w1, .error e) => (w1, .error e)
    | (w1, .ok _) =>
      match restoreSettings env (manifest.prop "settings") w1 with
      | (w2, .error e) => (w2, .error e)
      | (w2, .ok _) => restoreProcesses env reg (manifest.prop "processes") w2

/-- The `onchange` handler of `uploadSession()`: `parsed` is the result of
`JSON.parse(await file.text())`; the promise resolves with the manifest or
rejects with whatever was thrown. -/
def uploadSession {σ : Type} (env : Collaborators σ) (reg : Registry)
    (parsed : Except JsErr JsVal) (w : World σ) : World σ × Except JsErr JsVal :=
  match parsed with
  | .error e => (w, .error e)
  | .ok manifest =>
    match restoreSession env reg manifest w with
    | (w', .ok _) => (w', .ok manifest)
    | (w', .error e) => (w', .error e)

/-! ## Reading the trace -/

/-- Stage of `restoreSession` a call belongs to: 0 for the VFS (`mkdir`,
`writefile`), 1 for `settings.set`, 2 for `deserialize`. -/
def Call.phase : Call → Nat
  | .mkdir _ => 0
  | .writefile _ _ => 0
  | .settingsSet _ _ => 1
  | .deserialize _ _ _ => 2

/-- The path a VFS call addresses. -/
def Call.path : Call → Option String
  | .mkdir p => some p
  | .writefile p _ => some p
  | _ => none

/-- The collaborator call the loop body of `restoreVFS` reaches for one
snapshot entry, if any: `mkdir` for a node with a truthy `isDirectory`,
`writefile` for a node with a truthy `isFile` and a `content` other than `null`. -/
def entryCall (e : String × JsVal) : Option Call :=
  if e.2.nullish then none
  else if (e.2.prop "isDirectory").truthy then some (.mkdir e.1)
  else if (e.2.prop "isFile").truthy && !(e.2.prop "content").isNull then
    some (.writefile e.1 (e.2.prop "content"))
  else none

/-! ## A reference target for restore

The VFS backend and the settings store are external collaborators. The
reference target below is the simplest one meeting their stated contract:
`mkdir(path)` is idempotent, `writefile(path, content)` overwrites, `set(key,
value)` stores. Any chosen set of calls can be made to fail. -/

/-- What a path of the target filesystem holds. -/
inductive FsNode where
  | directory
  | file (content : JsVal)
  deriving Repr

/-- State of the reference target: its filesystem and its settings. -/
structure Target where
  files : String → Option FsNode
  settings : List (String × JsVal)

/-- The freshly emptied target. -/
def Target.empty : Target :=
  { files := fun _ => none, settings := [] }

/-- Effect of a call that succeeds on the reference target. An existing entry
at the path of a `mkdir` is left as it is. -/
def idealPerform : Call → Target → Target
  | .mkdir p, t =>
    match t.files p with
    | none => { t with files := Function.update t.files p (some .directory) }
    | some _ => t
  | .writefile p c, t => { t with files := Function.update t.files p (some (.file c)) }
  | .settingsSet k v, t => { t with settings := setProp t.settings k v }
  | .deserialize _ _ _, t => t

/-- The reference target in which exactly the calls selected by `fails` throw,
leaving the state as it was. -/
def flakyTarget (fails : Call → Bool) : Collaborators Target where
  perform c t :=
    if fails c then (t, .error (.error "collaborator failure")) else (idealPerform c t, .ok ())

/-- The reference target in which no call fails. -/
def idealTarget : Collaborators Target :=
  flakyTarget (fun _ => false)

/-! ## Sample inputs -/

/-- A file node as capture records it, reduced to the fields restore reads. -/
def sampleFile (content : String) : JsVal :=
  .obj [("isDirectory", .bool false), ("isFile", .bool true), ("content", .str content)]

/-- A directory node as capture records it, reduced to the fields restore reads. -/
def sampleDir : JsVal :=
  .obj [("isDirectory", .bool true), ("isFile", .bool false), ("content", .null)]

/-- A snapshot of ten files. -/
def tenFiles : List (String × JsVal) :=
  [("/f0", sampleFile "c0"), ("/f1", sampleFile "c1"), ("/f2", sampleFile "c2"),
   ("/f3", sampleFile "c3"), ("/f4", sampleFile "c4"), ("/f5", sampleFile "c5"),
   ("/f6", sampleFile "c6"), ("/f7", sampleFile "c7"), ("/f8", sampleFile "c8"),
   ("/f9", sampleFile "c9")]

/-- The failure of exactly the write to `/f3`. -/
def failsF3 : Call → Bool
  | .writefile p _ => p == "/f3"
  | _ => false

/-! ## Store (`session-service.js`) and the import route (`session-provider.js`) -/

/-- `err.message`. -/
def JsErr.message : JsErr → String
  | .typeError msg => msg
  | .error msg => msg

/-- The platform services the store uses, over a disk state `δ` and a type `τ` of
file contents: `path.join`, `JSON.stringify(·, null, 2)`, `JSON.parse`,
`fs.writeFile`, `fs.readFile(·, 'utf8')` and `fs.readdir`. -/
structure Platform (δ τ : Type) where
  join : String → String → String
  stringify : JsVal → Except JsErr τ
  parse : τ → Except JsErr JsVal
  writeFile : String → τ → δ → δ × Outcome
  readFile : String → δ → Except JsErr τ
  readdir : String → δ → Except JsErr (List String)

/-- State of a `SessionService`: its directory, the disk, and `currentSession`
(`null` until a session is saved or loaded). -/
structure SessionService (δ : Type) where
  sessionsDir : String
  disk : δ
  currentSession : JsVal

/-- The service as constructed: `currentSession = null`. -/
def SessionService.initial {δ : Type} (sessionsDir : String) (disk : δ) : SessionService δ :=
  { sessionsDir := sessionsDir, disk := disk, currentSession := .null }

/-- `saveSession(sessionId, manifest)`: the state afterwards and the returned
`{sessionId, path}` or the exception thrown. -/
def saveSession {δ τ : Type} (pf : Platform δ τ) (sessionId : String) (manifest : JsVal)
    (svc : SessionService δ) : SessionService δ × Except JsErr JsVal :=
  match pf.stringify manifest with
  | .error e => (svc, .error e)
  | .ok data =>
    match pf.writeFile (pf.join svc.sessionsDir (sessionId ++ ".json")) data svc.disk with
    | (disk', .error e) => ({ svc with disk := disk' }, .error e)
    | (disk', .ok _) =>
      ({ svc with disk := disk', currentSession := manifest },
        .ok (.obj [("sessionId", .str sessionId),
                   ("path", .str (pf.join svc.sessionsDir (sessionId ++ ".json")))]))

/-- An HTTP response: status code and JSON body. -/
structure Response where
  status : Nat
  body : JsVal

/-- The object literal `{...base, ...v}` continued from the properties `base`. -/
def objSpread (base : List (String × JsVal)) (v : JsVal) : List (String × JsVal) :=
  match v.entries with
  | .error _ => base
  | .ok es => es.foldl (fun acc kv => setProp acc kv.1 kv.2) base

/-- Handler of `POST /api/session/import`; `now` is the reading of `Date.now()`
and `body` is `req.body`. -/
def importRoute {δ τ : Type} (pf : Platform δ τ) (now : Nat) (body : JsVal)
    (svc : SessionService δ) : SessionService δ × Response :=
  match saveSession pf ("session-" ++ toString now) body svc with
  | (svc', .ok result) =>
    (svc', { status := 200, body := .obj (objSpread [("success", .bool true)] result) })
  | (svc', .error e) =>
    (svc', { status := 500, body := .obj [("error", .str e.message)] })

/-- A platform kept in memory: the disk maps a file path to its contents, and
the text of a document is represented by the value it denotes. -/
def memoryPlatform : Platform (List (String × JsVal)) JsVal where
  join dir file := dir ++ "/" ++ file
  stringify v := .ok v
  parse t := .ok t
  writeFile path data disk := (mapSet disk path data, .ok ())
  readFile path disk :=
    match lookup path disk with
    | some t => .ok t
    | none => .error (.error ("ENOENT: no such file or directory, open " ++ path))
  readdir dir disk :=
    .ok (disk.filterMap fun entry =>
      if jsStartsWith entry.1 (dir ++ "/") then
        some (String.mk (entry.1.toList.drop (dir.length + 1)))
      else none)

/-- A manifest of version `0.0.1` carrying one directory, one setting and no
process. -/
def staleManifest : JsVal :=
  .obj [("version", .str "0.0.1"), ("vfs", .obj [("/a", sampleDir)]),
        ("processes", .arr []), ("settings", .obj [("theme", .str "dark")])]

/-- The same manifest with the supported version. -/
def currentManifest : JsVal :=
  .obj [("version", .str "1.0.0"), ("vfs", .obj [("/a", sampleDir)]),
        ("processes", .arr []), ("settings", .obj [("theme", .str "dark")])]

/-! ## Inspector: `getVFSTree` (`session-service.js`) -/

/-- The segments `path.split('/').filter(Boolean)`. -/
def pathParts (path : String) : List String :=
  (jsSplit path '/').filter (fun s => s != "")

/-- The leaf literal `{type, mime, size, content}` built from a node; reading
`node.isDirectory` throws when the node is `null` or `undefined`. -/
def treeLeaf (node : JsVal) : Except JsErr JsVal :=
  match node.getProp "isDirectory" with
  | .error e => .error e
  | .ok d =>
    .ok (.obj [("type", .str (if d.truthy then "directory" else "file")),
               ("mime", node.prop "mime"), ("size", node.prop "size"),
               ("content", node.prop "content")])

/-- The assignment `target[k] = v` in strict-mode code (a class body), giving
the updated target: a `TypeError` on `null`, `undefined` and on primitives.
Adding a named property to an array or a function is outside the embedding and
reported as an error. -/
def assignProp (target : JsVal) (k : String) (v : JsVal) : Except JsErr JsVal :=
  match target with
  | .obj props => .ok (.obj (setProp props k v))
  | .undefined => .error (.typeError ("Cannot set properties of undefined (setting " ++ k ++ ")"))
  | .null => .error (.typeError ("Cannot set properties of null (setting " ++ k ++ ")"))
  | .bool _ => .error (.typeError ("Cannot create property " ++ k ++ " on boolean"))
  | .num _ => .error (.typeError ("Cannot create property " ++ k ++ " on number"))
  | .str _ => .error (.typeError ("Cannot create property " ++ k ++ " on string"))
  | .arr _ => .error (.error "named property on an array: outside the embedding")
  | .fn _ => .error (.error "named property on a function: outside the embedding")

/-- The inner loop of `getVFSTree` from index `i` on, where `current` is the
object reached so far: the result is that object after the loop. At the last
segment the leaf is stored; before it, `current[part] = current[part] || {}` is
stored and the loop descends into it, so what it does below is seen through
`current[part]`. The read `current[part]` sees own properties only: a segment
that bears the name of a member objects inherit (`objectPrototypeKeys`) is
outside the embedding, and the statements about the tree exclude such
segments. -/
def insertParts (node : JsVal) : List String → JsVal → Except JsErr JsVal
  | [], current => .ok current
  | [part], current =>
    match treeLeaf node with
    | .error e => .error e
    | .ok leaf => assignProp current part leaf
  | part :: next :: rest, current =>
    match assignProp current part
        (if (current.prop part).truthy then current.prop part else .obj []) with
    | .error e => .error e
    | .ok _ =>
      match insertParts node (next :: rest)
          (if (current.prop part).truthy then current.prop part else .obj []) with
      | .error e => .error e
      | .ok child => assignProp current part child

/-- The outer loop of `getVFSTree` over `Object.entries(vfs)`. -/
def treeLoop (rootPath : String) : List (String × JsVal) → JsVal → Except JsErr JsVal
  | [], tree => .ok tree
  | (path, node) :: rest, tree =>
    if jsStartsWith path rootPath || rootPath == "/" then
      match insertParts node (pathParts path) tree with
      | .error e => .error e
      | .ok tree' => treeLoop rootPath rest tree'
    else treeLoop rootPath rest tree

/-- `getVFSTree(rootPath)` (the default `rootPath` is `home:/`): `null` without
an active session. -/
def getVFSTree {δ : Type} (svc : SessionService δ) (rootPath : String) : Except JsErr JsVal :=
  if !svc.currentSession.truthy then .ok .null
  else
    match (svc.currentSession.prop "vfs").entries with
    | .error e => .error e
    | .ok es => treeLoop rootPath es (.obj [])

/-- Follow a sequence of keys down nested objects. -/
def walk : JsVal → List String → Option JsVal
  | v, [] => some v
  | .obj props, k :: ks =>
    match lookup k props with
    | some child => walk child ks
    | none => none
  | _, _ :: _ => none

/-- A file node with the fields the inspector reads. -/
def sampleTextFile (content : String) : JsVal :=
  .obj [("mime", .str "text/plain"), ("size", .num 1), ("isDirectory", .bool false),
        ("isFile", .bool true), ("content", .str content)]

/-- The leaf `getVFSTree` builds for `sampleTextFile content`. -/
def sampleLeaf (content : String) : JsVal :=
  .obj [("type", .str "file"), ("mime", .str "text/plain"), ("size", .num 1),
        ("content", .str content)]

/-- A service whose active manifest has the vfs
`{"home:/a.txt": file, "home:/dir/b.txt": file}`. -/
def treeService : SessionService Unit :=
  { sessionsDir := "sessions", disk := (),
    currentSession :=
      .obj [("version", .str "1.0.0"),
            ("vfs", .obj [("home:/a.txt", sampleTextFile "A"),
                          ("home:/dir/b.txt", sampleTextFile "B")]),
            ("processes", .arr []), ("settings", .obj [])] }

/-- Two segment sequences of which one is an initial part of the other (equal
ones included): the paths lie on one branch of the tree. -/
def Comparable (p q : List String) : Prop :=
  (∃ t, q = p ++ t) ∨ (∃ t, p = q ++ t)

/-! ## Capture (`session-manager.js`) and the protocol transforms it uses -/

/-- An entry of a directory listing as the VFS collaborator returns it. -/
structure Stat where
  path : String
  filename : JsVal
  mime : JsVal
  size : JsVal
  isDirectory : JsVal
  isFile : JsVal
  mtime : JsVal

/-- The value of a parameter declared with a default, `(p = d)`: the default
stands in for an absent argument and for an explicit `undefined`. -/
def JsVal.withDefault (v d : JsVal) : JsVal :=
  match v with
  | .undefined => d
  | _ => v

/-- `serializeVFSNode(stat, content = null)`: a `content` that is absent or
`undefined` is recorded as `null`. -/
def serializeVFSNode (stat : Stat) (content : JsVal := .undefined) : JsVal :=
  .obj [("path", .str stat.path), ("filename", stat.filename), ("mime", stat.mime),
        ("size", stat.size), ("isDirectory", stat.isDirectory), ("isFile", stat.isFile),
        ("mtime", stat.mtime), ("content", content.withDefault .null)]

/-- `serializeWindowState(window)`: a `TypeError` when `window` or
`window.state` is `null` or `undefined`. -/
def serializeWindowState (window : JsVal) : Except JsErr JsVal :=
  match window.getProp "id" with
  | .error e => .error e
  | .ok id =>
    match (window.prop "state").getProp "title" with
    | .error e => .error e
    | .ok title =>
      .ok (.obj [("id", id), ("title", title),
                 ("position", (window.prop "state").prop "position"),
                 ("dimension", (window.prop "state").prop "dimension"),
                 ("maximized", (window.prop "state").prop "maximized"),
                 ("minimized", (window.prop "state").prop "minimized"),
                 ("zIndex", (window.prop "state").prop "zIndex")])

/-- `createProcessDescriptor(type, windowState, appState)`, with the reading
`now` of `Date.now()`. -/
def createProcessDescriptor (type windowState appState now : JsVal) : JsVal :=
  .obj [("type", type), ("windowState", windowState), ("appState", appState),
        ("timestamp", now)]

/-- The VFS collaborator as capture reads it: `readdir(path)` and
`readfile(path, 'text')`. -/
structure VfsSource where
  readdir : String → Except JsErr (List Stat)
  readfile : String → Except JsErr JsVal

/-- The `for` loop of `traverseDirectory` over a listing; `recur` is the
recursive call `traverseDirectory(fullPath)`, which returns the snapshot it
leaves (`none` when the traversal does not come to an end). The outcome tells
whether a `readfile` threw, which ends the loop. -/
def traverseEntries (recur : String → List (String × JsVal) → Option (List (String × JsVal)))
    (vfs : VfsSource) :
    List Stat → List (String × JsVal) → Option (List (String × JsVal) × Outcome)
  | [], snapshot => some (snapshot, .ok ())
  | entry :: rest, snapshot =>
    if entry.isDirectory.truthy then
      match recur entry.path (setProp snapshot entry.path (serializeVFSNode entry)) with
      | none => none
      | some snapshot' => traverseEntries recur vfs rest snapshot'
    else if entry.isFile.truthy then
      match vfs.readfile entry.path with
      | .error e => some (snapshot, .error e)
      | .ok content =>
        traverseEntries recur vfs rest
          (setProp snapshot entry.path (serializeVFSNode entry content))
    else traverseEntries recur vfs rest snapshot

/-- `traverseDirectory(path)` acting on the shared `snapshot`; `fuel` bounds
the nesting of recursive calls. Whatever is thrown inside is caught and logged. -/
def traverseDirectory (vfs : VfsSource) :
    Nat → String → List (String × JsVal) → Option (List (String × JsVal))
  | 0, _, _ => none
  | fuel + 1, path, snapshot =>
    match vfs.readdir path with
    | .error _ => some snapshot
    | .ok entries =>
      match traverseEntries (traverseDirectory vfs fuel) vfs entries snapshot with
      | none => none
      | some (snapshot', _) => some snapshot'

/-- `captureVFSSnapshot(rootPath)` (the default `rootPath` is `home:/`). -/
def captureVFSSnapshot (vfs : VfsSource) (fuel : Nat) (rootPath : String) : Option JsVal :=
  (traverseDirectory vfs fuel rootPath []).map JsVal.obj

/-- `win.attributes?.appType || 'generic'`. -/
def appTypeOf (win : JsVal) : JsVal :=
  if ((if (win.prop "attributes").nullish then JsVal.undefined
       else (win.prop "attributes").prop "appType")).truthy then
    (win.prop "attributes").prop "appType"
  else .str "generic"

/-- The `appState` of one window: `{}` unless a serializer is registered for
its type and `serializer.serialize(win)` returns without throwing. -/
def captureAppState (reg : Registry) (serialize : JsVal → JsVal → Except JsErr JsVal)
    (win : JsVal) : JsVal :=
  if (registryGet reg (appTypeOf win)).truthy then
    if ((registryGet reg (appTypeOf win)).prop "serialize").typeofFunction then
      match serialize (registryGet reg (appTypeOf win)) win with
      | .ok appState => appState
      | .error _ => .obj []
    else .obj []
  else .obj []

/-- The loop of `captureProcesses()`; `index` counts the windows visited and
`dateNow index` is the clock reading at that window. -/
def captureProcessesLoop (reg : Registry) (serialize : JsVal → JsVal → Except JsErr JsVal)
    (dateNow : Nat → JsVal) : Nat → List JsVal → Except JsErr (List JsVal)
  | _, [] => .ok []
  | index, win :: rest =>
    match serializeWindowState win with
    | .error e => .error e
    | .ok windowState =>
      match captureProcessesLoop reg serialize dateNow (index + 1) rest with
      | .error e => .error e
      | .ok descriptors =>
        .ok (createProcessDescriptor (appTypeOf win) windowState
              (captureAppState reg serialize win) (dateNow index) :: descriptors)

/-- What capture reads from its surroundings: the VFS, the open windows, the
behaviour of `serializer.serialize(win)`, `settings.get()`, the clock, and the
length of `JSON.stringify(manifest)`. -/
structure CaptureEnv where
  vfs : VfsSource
  windows : List JsVal
  serialize : JsVal → JsVal → Except JsErr JsVal
  settingsGet : Except JsErr JsVal
  isoNow : JsVal
  dateNow : Nat → JsVal
  stringifyLength : JsVal → Except JsErr JsVal

/-- `captureSettings()`: `await settings.get() || {}`. -/
def captureSettings (env : CaptureEnv) : Except JsErr JsVal :=
  match env.settingsGet with
  | .error e => .error e
  | .ok s => .ok (if s.truthy then s else .obj [])

/-- `captureSession()`: `none` when the VFS traversal does not come to an end
within `fuel` nested calls. -/
def captureSession (env : CaptureEnv) (reg : Registry) (fuel : Nat) :
    Option (Except JsErr JsVal) :=
  match traverseDirectory env.vfs fuel "home:/" [] with
  | none => none
  | some snapshot =>
    some (
      match captureProcessesLoop reg env.serialize env.dateNow 0 env.windows with
      | .error e => .error e
      | .ok processes =>
        match captureSettings env with
        | .error e => .error e
        | .ok settings =>
          match env.stringifyLength
              (.obj [("version", .str SESSION_VERSION), ("timestamp", env.isoNow),
                     ("vfs", .obj snapshot), ("processes", .arr processes),
                     ("settings", settings), ("metadata", .obj [])]) with
          | .error e => .error e
          | .ok captureSize =>
            .ok (.obj [("version", .str SESSION_VERSION), ("timestamp", env.isoNow),
                       ("vfs", .obj snapshot), ("processes", .arr processes),
                       ("settings", settings),
                       ("metadata", .obj [("windowCount", .num processes.length),
                                          ("fileCount", .num snapshot.length),
                                          ("captureSize", captureSize)])]))

/-- A listing entry with the given path and kind and no further metadata. -/
def sampleStat (path : String) (isDirectory : Bool) : Stat :=
  { path := path, filename := .undefined, mime := .undefined, size := .undefined,
    isDirectory := .bool isDirectory, isFile := .bool (!isDirectory), mtime := .undefined }

/-- A source holding `home:/docs/n.txt` (text `hello`) and an unreadable file
`home:/raw.bin`, with one editor window open. -/
def sampleCaptureEnv : CaptureEnv where
  vfs :=
    { readdir := fun path =>
        if path = "home:/" then .ok [sampleStat "home:/docs" true, sampleStat "home:/raw.bin" false]
        else if path = "home:/docs" then .ok [sampleStat "home:/docs/n.txt" false]
        else .error (.error "ENOENT"),
      readfile := fun path =>
        if path = "home:/docs/n.txt" then .ok (.str "hello")
        else .error (.error "EIO") }
  windows :=
    [.obj [("id", .str "w1"), ("state", .obj [("title", .str "Notes")]),
           ("attributes", .obj [("appType", .str "editor")])]]
  serialize := fun _ _ => .ok (.obj [("text", .str "hi")])
  settingsGet := .ok (.obj [("theme", .str "dark")])
  isoNow := .str "2024-01-01T00:00:00.000Z"
  dateNow := fun _ => .num 1704067200000
  stringifyLength := fun _ => .ok (.num 0)

/-- A registry holding a serializer for the type `editor`. -/
def sampleRegistry : Registry :=
  [("editor", .obj [("serialize", .fn 1), ("deserialize", .fn 2)])]

/-- The manifest `captureSession` returns on the sample source. -/
def sampleCaptured : JsVal :=
  match captureSession sampleCaptureEnv sampleRegistry 3 with
  | some (.ok m) => m
  | _ => .undefined

/-- A service whose active manifest has the vfs `{"home:/a": file,
"home:/a/b": file}`: the second path runs through the first. -/
def nestedService : SessionService Unit :=
  { sessionsDir := "sessions", disk := (),
    currentSession :=
      .obj [("version", .str "1.0.0"),
            ("vfs", .obj [("home:/a", sampleTextFile "A"), ("home:/a/b", sampleTextFile "B")]),
            ("processes", .arr []), ("settings", .obj [])] }

/-! ## Store and inspector, continued (`session-service.js`) -/

/-- `loadSession(sessionId)`: the state afterwards and the parsed manifest or
the exception thrown by `fs.readFile` or `JSON.parse`. -/
def loadSession {δ τ : Type} (pf : Platform δ τ) (sessionId : String)
    (svc : SessionService δ) : SessionService δ × Except JsErr JsVal :=
  match pf.readFile (pf.join svc.sessionsDir (sessionId ++ ".json")) svc.disk with
  | .error e => (svc, .error e)
  | .ok data =>
    match pf.parse data with
    | .error e => (svc, .error e)
    | .ok manifest => ({ svc with currentSession := manifest }, .ok manifest)

/-- `a || b`. -/
def JsVal.orElse (a b : JsVal) : JsVal :=
  if a.truthy then a else b

/-- `v?.k`: `undefined` when `v` is `null` or `undefined`. -/
def JsVal.optProp (v : JsVal) (k : String) : JsVal :=
  if v.nullish then .undefined else v.prop k

/-- `Object.keys(v).length`. -/
def keyCount (v : JsVal) : Except JsErr Nat :=
  match v.entries with
  | .error e => .error e
  | .ok es => .ok es.length

/-- An optional string argument counts as given when it is neither absent nor
the empty string (the test `if (arg)`). -/
def givenArg : Option String → Option String
  | some s => if s != "" then some s else none
  | none => none

/-- `inspectSession()`: `null` without an active session. -/
def inspectSession {δ : Type} (svc : SessionService δ) : Except JsErr JsVal :=
  if !svc.currentSession.truthy then .ok .null
  else
    match keyCount ((svc.currentSession.prop "vfs").orElse (.obj [])) with
    | .error e => .error e
    | .ok fileCount =>
      .ok (.obj [("version", svc.currentSession.prop "version"),
                 ("timestamp", svc.currentSession.prop "timestamp"),
                 ("metadata", svc.currentSession.prop "metadata"),
                 ("processCount",
                   ((svc.currentSession.prop "processes").optProp "length").orElse (.num 0)),
                 ("fileCount", .num fileCount),
                 ("processes", (svc.currentSession.prop "processes").orElse (.arr []))])

/-- The record `{path, type, size, mime}` `inspectVFS` lists for one entry. -/
def vfsListingRecord (entry : String × JsVal) : Except JsErr JsVal :=
  match entry.2.getProp "isDirectory" with
  | .error e => .error e
  | .ok d =>
    .ok (.obj [("path", .str entry.1),
               ("type", .str (if d.truthy then "directory" else "file")),
               ("size", entry.2.prop "size"), ("mime", entry.2.prop "mime")])

/-- `array.map(f)` for a callback that may throw. -/
def mapThrowing (f : String × JsVal → Except JsErr JsVal) :
    List (String × JsVal) → Except JsErr (List JsVal)
  | [] => .ok []
  | e :: rest =>
    match f e with
    | .error err => .error err
    | .ok v =>
      match mapThrowing f rest with
      | .error err => .error err
      | .ok vs => .ok (v :: vs)

/-- `inspectVFS(filePath = null)`; `none` stands for an absent or `null`
argument. -/
def inspectVFS {δ : Type} (svc : SessionService δ) (filePath : Option String) :
    Except JsErr JsVal :=
  if !svc.currentSession.truthy then .ok .null
  else
    match givenArg filePath with
    | some p =>
      match (svc.currentSession.prop "vfs").getProp p with
      | .error e => .error e
      | .ok node => .ok (node.orElse .null)
    | none =>
      match (svc.currentSession.prop "vfs").entries with
      | .error e => .error e
      | .ok es =>
        match mapThrowing vfsListingRecord es with
        | .error e => .error e
        | .ok records => .ok (.arr records)

/-- The summary `{type, title, timestamp, hasAppState}` of one descriptor. -/
def processSummary (p : JsVal) : Except JsErr JsVal :=
  match p.getProp "type" with
  | .error e => .error e
  | .ok type =>
    match keyCount ((p.prop "appState").orElse (.obj [])) with
    | .error e => .error e
    | .ok n =>
      .ok (.obj [("type", type), ("title", (p.prop "windowState").optProp "title"),
                 ("timestamp", p.prop "timestamp"), ("hasAppState", .bool (decide (n > 0)))])

/-- `processes.filter(p => p.type === processType)`. -/
def filterByType (processType : String) : List JsVal → Except JsErr (List JsVal)
  | [] => .ok []
  | p :: rest =>
    match p.getProp "type" with
    | .error e => .error e
    | .ok type =>
      match filterByType processType rest with
      | .error e => .error e
      | .ok kept => .ok (if type.strictEqStr processType then p :: kept else kept)

/-- `processes.map(p => summary)`. -/
def summarize : List JsVal → Except JsErr (List JsVal)
  | [] => .ok []
  | p :: rest =>
    match processSummary p with
    | .error e => .error e
    | .ok s =>
      match summarize rest with
      | .error e => .error e
      | .ok ss => .ok (s :: ss)

/-- `inspectProcesses(processType = null)`: `[]` without an active session. A
`processes` value that is not an array has no `filter` or `map` method (an
object carrying a function of that name of its own is outside the embedding). -/
def inspectProcesses {δ : Type} (svc : SessionService δ) (processType : Option String) :
    Except JsErr JsVal :=
  if !svc.currentSession.truthy then .ok (.arr [])
  else
    match (svc.currentSession.prop "processes").orElse (.arr []) with
    | .arr items =>
      match givenArg processType with
      | some t =>
        match filterByType t items with
        | .error e => .error e
        | .ok kept => .ok (.arr kept)
      | none =>
        match summarize items with
        | .error e => .error e
        | .ok ss => .ok (.arr ss)
    | _ =>
      match givenArg processType with
      | some _ => .error (.typeError "processes.filter is not a function")
      | none => .error (.typeError "processes.map is not a function")

/-- The property key a numeric index denotes; `none` stands for `NaN`. -/
def indexKey : Option Int → String
  | some i => toString i
  | none => "NaN"

/-- `getProcessDetail(processIndex)`, the index being an integer or `NaN`. -/
def getProcessDetail {δ : Type} (svc : SessionService δ) (processIndex : Option Int) :
    Except JsErr JsVal :=
  if !svc.currentSession.truthy || !(svc.currentSession.prop "processes").truthy then .ok .null
  else .ok (((svc.currentSession.prop "processes").prop (indexKey processIndex)).orElse .null)

/-- A call on the store, or on one of the inspector methods that only read:
`inspectSession`, `inspectVFS`, `inspectProcesses` and `getProcessDetail`
contain no assignment to anything but their own result. `getVFSTree` is not
among them: its loop assigns into objects it reaches from the active manifest,
which `hGetVFSTree` below follows on a store of objects. -/
inductive StoreOp where
  | saveSession (sessionId : String) (manifest : JsVal)
  | loadSession (sessionId : String)
  | inspectSession
  | inspectVFS (filePath : Option String)
  | inspectProcesses (processType : Option String)
  | getProcessDetail (processIndex : Option Int)

/-- Whether the call is one of the two store transitions. -/
def StoreOp.isTransition : StoreOp → Bool
  | .saveSession _ _ => true
  | .loadSession _ => true
  | _ => false

/-- Perform one call: the state afterwards and what the call returned or threw. -/
def runStoreOp {δ τ : Type} (pf : Platform δ τ) (op : StoreOp) (svc : SessionService δ) :
    SessionService δ × Except JsErr JsVal :=
  match op with
  | .saveSession sessionId manifest => saveSession pf sessionId manifest svc
  | .loadSession sessionId => loadSession pf sessionId svc
  | .inspectSession => (svc, inspectSession svc)
  | .inspectVFS filePath => (svc, inspectVFS svc filePath)
  | .inspectProcesses processType => (svc, inspectProcesses svc processType)
  | .getProcessDetail processIndex => (svc, getProcessDetail svc processIndex)

/-- Perform a sequence of calls, keeping a log of each call with its result,
the most recent first. -/
def runOps {δ τ : Type} (pf : Platform δ τ) :
    List StoreOp → SessionService δ → List (StoreOp × Except JsErr JsVal) →
    SessionService δ × List (StoreOp × Except JsErr JsVal)
  | [], svc, log => (svc, log)
  | op :: rest, svc, log =>
    runOps pf rest (runStoreOp pf op svc).1 ((op, (runStoreOp pf op svc).2) :: log)

/-- In the words of the specification: the active manifest after a log of calls
(most recent first) is the manifest of the most recent successful `saveSession`
(the one passed in) or `loadSession` (the one returned), and none (`null`) when
no such call succeeded. -/
def specActiveManifest : List (StoreOp × Except JsErr JsVal) → JsVal
  | [] => .null
  | (.saveSession _ manifest, .ok _) :: _ => manifest
  | (.loadSession _, .ok manifest) :: _ => manifest
  | _ :: earlier => specActiveManifest earlier

/-- The `deserialize` call the loop body of `restoreProcesses` reaches for one
descriptor, if any: the one on the serializer registered for its type, when
there is one and its `deserialize` is a function. -/
def deserializeCallOf (reg : Registry) (proc : JsVal) : Option Call :=
  if (registryGet reg (proc.prop "type")).truthy &&
      ((registryGet reg (proc.prop "type")).prop "deserialize").typeofFunction then
    some (.deserialize (registryGet reg (proc.prop "type")) (proc.prop "windowState")
      (proc.prop "appState"))
  else none

/-- A manifest with two settings and one editor process. -/
def settingsManifest : JsVal :=
  .obj [("version", .str "1.0.0"), ("vfs", .obj [("/a", sampleDir)]),
        ("processes", .arr [.obj [("type", .str "editor"), ("windowState", .obj []),
                                  ("appState", .obj [])]]),
        ("settings", .obj [("theme", .str "dark"), ("lang", .str "en")])]

/-- The failure of exactly the call `settings.set("theme", ..)`. -/
def failsTheme : Call → Bool
  | .settingsSet k _ => k == "theme"
  | _ => false

/-- A descriptor of the given type with a titled window and one-field state. -/
def sampleProcess (type title : String) : JsVal :=
  .obj [("type", .str type), ("windowState", .obj [("title", .str title)]),
        ("appState", .obj [("text", .str title)]), ("timestamp", .num 0)]

/-- The failure of every `deserialize` call. -/
def failsDeserialize : Call → Bool
  | .deserialize _ _ _ => true
  | _ => false

/-- Two open windows: an editor and a window without an app-type tag. -/
def sampleWindows : List JsVal :=
  [.obj [("id", .str "w1"), ("state", .obj [("title", .str "Notes")]),
         ("attributes", .obj [("appType", .str "editor")])],
   .obj [("id", .str "w2"), ("state", .obj [("title", .str "About")])]]

/-- Nesting rank of the directories of the sample source. -/
def sampleRank (path : String) : Nat :=
  if path = "home:/" then 2 else if path = "home:/docs" then 1 else 0

/-! ## The order in which capture records nodes

A list-valued reading of the traversal: the nodes in the order in which they
are recorded, as the specification describes a pre-order traversal ("for a
directory entry: record a VFSNode with null content, then recurse into it; for
a file entry: read its content and record a VFSNode with that content; sibling
order follows the listing"), with the catch of the code around each listing. -/

/-- The nodes one listing records, in order; `recur` gives the nodes recorded
under a directory. -/
def visitEntries (recur : String → Option (List (String × JsVal))) (vfs : VfsSource) :
    List Stat → Option (List (String × JsVal) × Outcome)
  | [] => some ([], .ok ())
  | entry :: rest =>
    if entry.isDirectory.truthy then
      match recur entry.path with
      | none => none
      | some under =>
        match visitEntries recur vfs rest with
        | none => none
        | some (later, o) => some ((entry.path, serializeVFSNode entry) :: (under ++ later), o)
    else if entry.isFile.truthy then
      match vfs.readfile entry.path with
      | .error e => some ([], .error e)
      | .ok content =>
        match visitEntries recur vfs rest with
        | none => none
        | some (later, o) => some ((entry.path, serializeVFSNode entry content) :: later, o)
    else visitEntries recur vfs rest

/-- The nodes recorded under a directory, in order. -/
def visitDirectory (vfs : VfsSource) : Nat → String → Option (List (String × JsVal))
  | 0, _ => none
  | fuel + 1, path =>
    match vfs.readdir path with
    | .error _ => some []
    | .ok entries =>
      match visitEntries (visitDirectory vfs fuel) vfs entries with
      | none => none
      | some (visited, _) => some visited

/-- Record a sequence of nodes into a snapshot object by `snapshot[path] = node`. -/
def recordAll (snapshot visited : List (String × JsVal)) : List (String × JsVal) :=
  visited.foldl (fun s e => setProp s e.1 e.2) snapshot

/-- A source whose root lists the files `home:/a.txt` and `home:/b.txt`; the
read of `a.txt` fails when `aFails` is set, the read of `b.txt` never does. -/
def siblingSource (aFails : Bool) : VfsSource where
  readdir path :=
    if path = "home:/" then .ok [sampleStat "home:/a.txt" false, sampleStat "home:/b.txt" false]
    else .error (.error "ENOTDIR")
  readfile path :=
    if path = "home:/a.txt" then (if aFails then .error (.error "EIO") else .ok (.str "A"))
    else if path = "home:/b.txt" then .ok (.str "B")
    else .error (.error "ENOENT")

/-- A source whose root lists the directory `home:/d`, which cannot be listed,
and the file `home:/c.txt`. -/
def lockedSource : VfsSource where
  readdir path :=
    if path = "home:/" then .ok [sampleStat "home:/d" true, sampleStat "home:/c.txt" false]
    else .error (.error "EACCES")
  readfile path :=
    if path = "home:/c.txt" then .ok (.str "C") else .error (.error "ENOENT")

/-! ## Store: `listSessions` (`session-service.js`) -/

/-- `s.endsWith(suffix)`. -/
def jsEndsWith (s suffix : String) : Bool :=
  suffix.toList.isSuffixOf s.toList

/-- Replace the first occurrence of `pattern` in a character sequence. -/
def replaceChars (pattern replacement : List Char) : List Char → List Char
  | [] => if pattern = [] then replacement else []
  | c :: cs =>
    if pattern.isPrefixOf (c :: cs) then replacement ++ (c :: cs).drop pattern.length
    else c :: replaceChars pattern replacement cs

/-- `s.replace(pattern, replacement)` for a string pattern: only the first
occurrence is replaced. -/
def jsReplace (s pattern replacement : String) : String :=
  String.mk (replaceChars pattern.toList replacement.toList s.toList)

/-- The loop of `listSessions()` over the file names of the sessions directory. -/
def listSessionsLoop {δ τ : Type} (pf : Platform δ τ) (svc : SessionService δ) :
    List String → Except JsErr (List JsVal)
  | [] => .ok []
  | file :: rest =>
    if jsEndsWith file ".json" then
      match pf.readFile (pf.join svc.sessionsDir file) svc.disk with
      | .error e => .error e
      | .ok data =>
        match pf.parse data with
        | .error e => .error e
        | .ok manifest =>
          match manifest.getProp "timestamp" with
          | .error e => .error e
          | .ok timestamp =>
            match listSessionsLoop pf svc rest with
            | .error e => .error e
            | .ok later =>
              .ok (.obj [("id", .str (jsReplace file ".json" "")), ("timestamp", timestamp),
                         ("metadata", manifest.prop "metadata")] :: later)
    else listSessionsLoop pf svc rest

/-- `listSessions()`. -/
def listSessions {δ τ : Type} (pf : Platform δ τ) (svc : SessionService δ) :
    Except JsErr JsVal :=
  match pf.readdir svc.sessionsDir svc.disk with
  | .error e => .error e
  | .ok files =>
    match listSessionsLoop pf svc files with
    | .error e => .error e
    | .ok sessions => .ok (.arr sessions)

/-- A platform kept in memory in which a file holds either a JSON document,
represented by the value it denotes, or bytes that are not JSON (`none`). -/
def recordPlatform : Platform (List (String × Option JsVal)) (Option JsVal) where
  join dir file := dir ++ "/" ++ file
  stringify v := .ok (some v)
  parse t :=
    match t with
    | some v => .ok v
    | none => .error (.error "SyntaxError: Unexpected token in JSON")
  writeFile path data disk := ((disk.filter fun entry => entry.1 != path) ++ [(path, data)], .ok ())
  readFile path disk :=
    match disk.find? (fun entry => entry.1 == path) with
    | some entry => .ok entry.2
    | none => .error (.error ("ENOENT: no such file or directory, open " ++ path))
  readdir dir disk :=
    .ok (disk.filterMap fun entry =>
      if jsStartsWith entry.1 (dir ++ "/") then
        some (String.mk (entry.1.toList.drop (dir.length + 1)))
      else none)

/-- The file system and JSON laws the store relies on: a file just written
reads back as written, and writing a file leaves the other files as they
were. -/
structure Platform.Lawful {δ τ : Type} (pf : Platform δ τ) : Prop where
  read_written : ∀ path data disk, (pf.writeFile path data disk).2 = .ok () →
    pf.readFile path (pf.writeFile path data disk).1 = .ok data
  read_other : ∀ path other data disk, other ≠ path →
    pf.readFile other (pf.writeFile path data disk).1 = pf.readFile other disk

/-- A service on the record platform with an active manifest and three stored
records: `old`, a JSON document of version `0.0.1`; `bad`, which is not JSON;
and `five`, the JSON document `5`. -/
def recordService : SessionService (List (String × Option JsVal)) :=
  { sessionsDir := "sessions",
    disk := [("sessions/old.json", some staleManifest), ("sessions/bad.json", none),
             ("sessions/five.json", some (.num 5))],
    currentSession := currentManifest }

/-! ## Sample manifests for the inspector -/

/-- A directory node with the fields the inspector reads. -/
def sampleFolder : JsVal :=
  .obj [("mime", .null), ("size", .num 0), ("isDirectory", .bool true),
        ("isFile", .bool false), ("content", .null)]

/-- A service whose active manifest has a directory, a file in it, two
processes with application state and one without. -/
def inspectedService : SessionService Unit :=
  { sessionsDir := "sessions", disk := (),
    currentSession :=
      .obj [("version", .str "1.0.0"), ("timestamp", .str "t0"), ("metadata", .obj []),
            ("vfs", .obj [("home:/docs", sampleFolder),
                          ("home:/docs/a.txt", sampleTextFile "A")]),
            ("processes", .arr [sampleProcess "editor" "A", sampleProcess "paint" "B",
                                .obj [("type", .str "editor"), ("appState", .obj [])]]),
            ("settings", .obj [])] }

/-- The service `treeService` with its vfs restricted to the paths that start
with `home:/dir`. -/
def dirOnlyService : SessionService Unit :=
  { sessionsDir := "sessions", disk := (),
    currentSession :=
      .obj [("version", .str "1.0.0"),
            ("vfs", .obj [("home:/dir/b.txt", sampleTextFile "B")]),
            ("processes", .arr []), ("settings", .obj [])] }

/-- The property names every object inherits from `Object.prototype`; `prop`
reads own properties only, so a read of one of these names on an object that
does not own it is outside the embedding. -/
def objectPrototypeKeys : List String :=
  ["constructor", "__proto__", "hasOwnProperty", "isPrototypeOf", "propertyIsEnumerable",
   "toLocaleString", "toString", "valueOf", "__defineGetter__", "__defineSetter__",
   "__lookupGetter__", "__lookupSetter__"]

/-! ## Vfs orders in which `getVFSTree` keeps the leaves apart -/

/-- The names of the fields of the leaf `getVFSTree` stores for a node. -/
def leafFields : List String := ["type", "mime", "size", "content"]

/-- Condition on the segments `p` of an entry and the segments `q` of an entry
that comes later in the vfs: `q` is not an initial part of `p` (a directory
comes before what lies under it, and the two paths do not have the same
segments), and `q` does not run through a segment named like a leaf field
directly under `p`. -/
def SafeOrder (p q : List String) : Prop :=
  (¬ ∃ t, p = q ++ t) ∧ ∀ f ∈ leafFields, ¬ ∃ t, q = p ++ f :: t

/-- A service whose active manifest is in capture order and holds a directory
`home:/d` with a file named `type` in it. -/
def shadowedService : SessionService Unit :=
  { sessionsDir := "sessions", disk := (),
    currentSession :=
      .obj [("version", .str "1.0.0"),
            ("vfs", .obj [("home:/d", sampleFolder), ("home:/d/type", sampleTextFile "T")]),
            ("processes", .arr []), ("settings", .obj [])] }

/-- A manifest of the current version whose only vfs node and only process
descriptor are `null`. -/
def shallowManifest : JsVal :=
  .obj [("version", .str "1.0.0"), ("vfs", .obj [("home:/a", .null)]),
        ("processes", .arr [.null]), ("settings", .obj [])]

/-- A service with `shallowManifest` active. -/
def shallowService : SessionService Unit :=
  { sessionsDir := "sessions", disk := (), currentSession := shallowManifest }

/-! ## `getVFSTree` on a store of objects (`session-service.js`)

`getVFSTree` above gives the tree the method returns, as a value. The leaf it
builds does not copy `node.mime`, `node.size` and `node.content`: it holds the
very objects of the active manifest, and the loop assigns into what it finds on
its way down. To observe those assignments the same code is run here on a store
in which objects have an address and a property holds a primitive or a
reference. -/

/-- A value as a variable or a property holds it: a primitive or a reference to
an object of the store (the values of a parsed JSON document). -/
inductive HVal where
  | undefined
  | null
  | bool (b : Bool)
  | num (n : Int)
  | str (s : String)
  | ref (address : Nat)

/-- An object of the store: a plain object with its own properties in order, or
an array. -/
inductive HObj where
  | obj (props : List (String × HVal))
  | arr (items : List HVal)

/-- The objects allocated so far, an object's address being its position. -/
abbrev Heap := List HObj

namespace HVal

/-- `ToBoolean`: every object is truthy. -/
def truthy : HVal → Bool
  | undefined => false
  | null => false
  | bool b => b
  | num n => n != 0
  | str s => s != ""
  | ref _ => true

/-- `v == null`. -/
def nullish : HVal → Bool
  | undefined => true
  | null => true
  | _ => false

end HVal

/-- First value stored under key `k` in a property list of the store. -/
def hLookup (k : String) : List (String × HVal) → Option HVal
  | [] => none
  | (k', v) :: rest => if k' = k then some v else hLookup k rest

/-- Position of a new key among existing own keys, as in `insertNew`. -/
def hInsertNew (k : String) (v : HVal) : List (String × HVal) → List (String × HVal)
  | [] => [(k, v)]
  | (k', v') :: rest =>
    match arrayIndex k, arrayIndex k' with
    | some n, some n' =>
      if n < n' then (k, v) :: (k', v') :: rest else (k', v') :: hInsertNew k v rest
    | some _, none => (k, v) :: (k', v') :: rest
    | none, _ => (k', v') :: hInsertNew k v rest

/-- Replace the value of an existing key, keeping its position. -/
def hReplaceExisting (k : String) (v : HVal) : List (String × HVal) → List (String × HVal)
  | [] => []
  | (k', v') :: rest =>
    if k' = k then (k, v) :: rest else (k', v') :: hReplaceExisting k v rest

/-- The assignment `o[k] = v` on the property list of an ordinary object. -/
def hSetProp (props : List (String × HVal)) (k : String) (v : HVal) : List (String × HVal) :=
  match hLookup k props with
  | some _ => hReplaceExisting k v props
  | none => hInsertNew k v props

/-- The value of `v[k]` for a `v` that is neither `null` nor `undefined`, own
properties only (`length` and indices of arrays and strings included, a string
being read by code point as in `JsVal.prop`). -/
def hRead (heap : Heap) (v : HVal) (k : String) : HVal :=
  match v with
  | .ref address =>
    match heap[address]? with
    | some (.obj props) => (hLookup k props).getD .undefined
    | some (.arr items) =>
      if k = "length" then .num items.length
      else match arrayIndex k with
        | some i => items.getD i .undefined
        | none => .undefined
    | none => .undefined
  | .str s =>
    if k = "length" then .num s.length
    else match arrayIndex k with
      | some i => (s.toList.get? i).elim .undefined (fun c => .str (String.singleton c))
      | none => .undefined
  | _ => .undefined

/-- A new object: it is placed at the end of the store. -/
def hAlloc (heap : Heap) (o : HObj) : Heap × HVal :=
  (heap ++ [o], .ref heap.length)

/-- The assignment `target[k] = v` in strict-mode code: the property is set in
the object `target` refers to, which every holder of that reference sees; a
`TypeError` on `null`, `undefined` and on primitives. An assignment to a
property of an array is outside the embedding and reported as an error. -/
def hAssign (heap : Heap) (target : HVal) (k : String) (v : HVal) : Heap × Outcome :=
  match target with
  | .ref address =>
    match heap[address]? with
    | some (.obj props) => (heap.set address (.obj (hSetProp props k v)), .ok ())
    | some (.arr _) => (heap, .error (.error "property of an array: outside the embedding"))
    | none => (heap, .error (.error "no object at this address: outside the embedding"))
  | .undefined =>
    (heap, .error (.typeError ("Cannot set properties of undefined (setting " ++ k ++ ")")))
  | .null =>
    (heap, .error (.typeError ("Cannot set properties of null (setting " ++ k ++ ")")))
  | .bool _ => (heap, .error (.typeError ("Cannot create property " ++ k ++ " on boolean")))
  | .num _ => (heap, .error (.typeError ("Cannot create property " ++ k ++ " on number")))
  | .str _ => (heap, .error (.typeError ("Cannot create property " ++ k ++ " on string")))

/-- The leaf literal `{type, mime, size, content}` of a node: `mime`, `size`
and `content` are the node's own values, references included; reading
`node.isDirectory` throws when the node is `null` or `undefined`. -/
def hLeaf (heap : Heap) (node : HVal) : Except JsErr HObj :=
  if node.nullish then
    .error (.typeError "Cannot read properties of null or undefined (reading isDirectory)")
  else
    .ok (.obj [("type", .str (if (hRead heap node "isDirectory").truthy then "directory"
                               else "file")),
               ("mime", hRead heap node "mime"), ("size", hRead heap node "size"),
               ("content", hRead heap node "content")])

/-- The inner loop of `getVFSTree` from index `i` on, `current` being the value
of the variable of that name. A segment that bears the name of a member objects
inherit (`constructor`, `__proto__`, ...) is outside the embedding, which reads
own properties only, and is reported as an error. -/
def hInsertParts (node : HVal) : List String → HVal → Heap → Heap × Outcome
  | [], _, heap => (heap, .ok ())
  | [part], current, heap =>
    if part ∈ objectPrototypeKeys then
      (heap, .error (.error "inherited member name: outside the embedding"))
    else
      match hLeaf heap node with
      | .error e => (heap, .error e)
      | .ok leaf =>
        match hAlloc heap leaf with
        | (heap1, leafRef) => hAssign heap1 current part leafRef
  | part :: next :: rest, current, heap =>
    if part ∈ objectPrototypeKeys then
      (heap, .error (.error "inherited member name: outside the embedding"))
    else if (hRead heap current part).truthy then
      match hAssign heap current part (hRead heap current part) with
      | (heap1, .error e) => (heap1, .error e)
      | (heap1, .ok _) => hInsertParts node (next :: rest) (hRead heap current part) heap1
    else
      match hAlloc heap (.obj []) with
      | (heap1, fresh) =>
        match hAssign heap1 current part fresh with
        | (heap2, .error e) => (heap2, .error e)
        | (heap2, .ok _) => hInsertParts node (next :: rest) fresh heap2

/-- The outer loop of `getVFSTree` over the entries taken at its start. -/
def hTreeLoop (rootPath : String) (tree : HVal) :
    List (String × HVal) → Heap → Heap × Outcome
  | [], heap => (heap, .ok ())
  | (path, node) :: rest, heap =>
    if jsStartsWith path rootPath || rootPath == "/" then
      match hInsertParts node (pathParts path) tree heap with
      | (heap', .error e) => (heap', .error e)
      | (heap', .ok _) => hTreeLoop rootPath tree rest heap'
    else hTreeLoop rootPath tree rest heap

/-- `Object.entries(v)` on the store. -/
def hEntries (heap : Heap) : HVal → Except JsErr (List (String × HVal))
  | .undefined => .error (.typeError "Cannot convert undefined or null to object")
  | .null => .error (.typeError "Cannot convert undefined or null to object")
  | .ref address =>
    match heap[address]? with
    | some (.obj props) => .ok props
    | some (.arr items) => .ok (items.enum.map fun p => (toString p.1, p.2))
    | none => .ok []
  | .str s => .ok (s.toList.enum.map fun p => (toString p.1, .str (String.singleton p.2)))
  | _ => .ok []

/-- `getVFSTree(rootPath)` on the store, `currentSession` being the value of
`this.currentSession`: the store afterwards, and the tree returned or the
exception thrown. -/
def hGetVFSTree (heap : Heap) (currentSession : HVal) (rootPath : String) :
    Heap × Except JsErr HVal :=
  if !currentSession.truthy then (heap, .ok .null)
  else
    match hAlloc heap (.obj []) with
    | (heap1, tree) =>
      match hEntries heap1 (hRead heap1 currentSession "vfs") with
      | .error e => (heap1, .error e)
      | .ok es =>
        match hTreeLoop rootPath tree es heap1 with
        | (heap2, .error e) => (heap2, .error e)
        | (heap2, .ok _) => (heap2, .ok tree)

/-- The value a stored value denotes, objects being read to the given depth. -/
def readBack (heap : Heap) : Nat → HVal → JsVal
  | _, .undefined => .undefined
  | _, .null => .null
  | _, .bool b => .bool b
  | _, .num n => .num n
  | _, .str s => .str s
  | 0, .ref _ => .undefined
  | depth + 1, .ref address =>
    match heap[address]? with
    | some (.obj props) => .obj (props.map fun p => (p.1, readBack heap depth p.2))
    | some (.arr items) => .arr (items.map fun item => readBack heap depth item)
    | none => .undefined

/-- A store holding, at address 0, a manifest as `JSON.parse` builds it: the
file `home:/a`, whose content is the empty JSON object, and the file
`home:/a/content/x`. -/
def sharedHeap : Heap :=
  [.obj [("version", .str "1.0.0"), ("vfs", .ref 1), ("processes", .ref 5),
         ("settings", .ref 6)],
   .obj [("home:/a", .ref 2), ("home:/a/content/x", .ref 4)],
   .obj [("mime", .str "application/json"), ("size", .num 2), ("isDirectory", .bool false),
         ("isFile", .bool true), ("content", .ref 3)],
   .obj [],
   .obj [("mime", .str "text/plain"), ("size", .num 1), ("isDirectory", .bool false),
         ("isFile", .bool true), ("content", .str "X")],
   .arr [],
   .obj []]

/-- The manifest of `sharedHeap`, as a value. -/
def sharedManifest : JsVal :=
  .obj [("version", .str "1.0.0"),
        ("vfs", .obj [("home:/a",
                        .obj [("mime", .str "application/json"), ("size", .num 2),
                              ("isDirectory", .bool false), ("isFile", .bool true),
                              ("content", .obj [])]),
                      ("home:/a/content/x", sampleTextFile "X")]),
        ("processes", .arr []), ("settings", .obj [])]

/-- A source whose root lists the one file `home:/u.txt`, the read of which
resolves to `undefined`. -/
def undefinedSource : VfsSource where
  readdir path :=
    if path = "home:/" then .ok [sampleStat "home:/u.txt" false]
    else .error (.error "ENOTDIR")
  readfile path :=
    if path = "home:/u.txt" then .ok .undefined else .error (.error "ENOENT")

/-! # Properties -/

/-! ### Validation -/

theorem validate_valid_iff (m : JsVal) :
    validateSessionManifest m = .valid ↔
      (m.truthy = true ∧ m.typeofObject = true ∧
        (m.prop "version").strictEqStr SESSION_VERSION = true ∧
        (m.prop "processes").isArray = true ∧ (m.prop "vfs").typeofObject = true) := by
  unfold validateSessionManifest
  constructor
  · intro h
    split at h
    · cases h
    · split at h
      · cases h
      · split at h
        · cases h
        · split at h
          · cases h
          · simp_all
  · rintro ⟨h1, h2, h3, h4, h5⟩
    simp [h1, h2, h3, h4, h5]

theorem strictEqStr_iff (v : JsVal) (s : String) :
    v.strictEqStr s = true ↔ v = .str s := by
  cases v <;> simp [JsVal.strictEqStr]

theorem isArray_iff (v : JsVal) : v.isArray = true ↔ ∃ items, v = .arr items := by
  cases v <;> simp [JsVal.isArray]

theorem validate_invalid_of_not_valid (m : JsVal) (h : validateSessionManifest m ≠ .valid) :
    ∃ reason, validateSessionManifest m = .invalid reason := by
  cases hv : validateSessionManifest m with
  | valid => exact absurd hv h
  | invalid r => exact ⟨r, rfl⟩

/-- C3: `validate` rejects, with a reason, every manifest whose `version` is not
the string `"1.0.0"` and every manifest whose `processes` is not an array; the
two manifests of the specification are rejected with the reasons
`Unsupported version: 0.0.1` and `Invalid processes array`. -/
theorem validate_rejects_version_and_processes :
    (∀ m : JsVal, m.getProp "version" ≠ .ok (.str "1.0.0") →
      ∃ reason, validateSessionManifest m = .invalid reason) ∧
    (∀ m : JsVal, (∀ items, m.getProp "processes" ≠ .ok (.arr items)) →
      ∃ reason, validateSessionManifest m = .invalid reason) ∧
    validateSessionManifest
        (.obj [("version", .str "0.0.1"), ("processes", .arr []), ("vfs", .obj [])])
      = .invalid (.unsupportedVersion (.str "0.0.1")) ∧
    validateSessionManifest
        (.obj [("version", .str "1.0.0"), ("processes", .obj []), ("vfs", .obj [])])
      = .invalid .invalidProcessesArray := by
  refine ⟨?_, ?_, by rfl, by rfl⟩
  · intro m hm
    apply validate_invalid_of_not_valid
    intro hv
    rw [validate_valid_iff] at hv
    obtain ⟨h1, _, h3, _, _⟩ := hv
    apply hm
    rw [strictEqStr_iff] at h3
    have hn : m.nullish = false := by cases m <;> simp_all [JsVal.nullish, JsVal.truthy]
    simp [JsVal.getProp, hn, h3, SESSION_VERSION]
  · intro m hm
    apply validate_invalid_of_not_valid
    intro hv
    rw [validate_valid_iff] at hv
    obtain ⟨h1, _, _, h4, _⟩ := hv
    rw [isArray_iff] at h4
    obtain ⟨items, hi⟩ := h4
    apply hm items
    have hn : m.nullish = false := by cases m <;> simp_all [JsVal.nullish, JsVal.truthy]
    simp [JsVal.getProp, hn, hi]

/-- Witness for C3: a manifest without any `version` and one whose `processes`
is a string are both rejected. -/
theorem validate_rejects_version_and_processes_witness :
    (∃ reason, validateSessionManifest (.obj [("processes", .arr []), ("vfs", .obj [])])
      = .invalid reason) ∧
    (∃ reason, validateSessionManifest
        (.obj [("version", .str "1.0.0"), ("processes", .str "x"), ("vfs", .obj [])])
      = .invalid reason) :=
  ⟨validate_rejects_version_and_processes.1 _ (by simp [JsVal.getProp, JsVal.nullish, JsVal.prop, lookup]),
   validate_rejects_version_and_processes.2.1 _ (by
     intro items
     simp [JsVal.getProp, JsVal.nullish, JsVal.prop, lookup])⟩

/-- C4: `validate` accepts a manifest whose `vfs` is `null`, and one whose `vfs`
is an array: `typeof null` and `typeof []` are both `'object'`, so the check
`typeof manifest.vfs !== 'object'` lets them through, although neither is a
path-to-node mapping. -/
theorem validate_accepts_null_vfs :
    validateSessionManifest
        (.obj [("version", .str "1.0.0"), ("processes", .arr []), ("vfs", .null)]) = .valid ∧
    validateSessionManifest
        (.obj [("version", .str "1.0.0"), ("processes", .arr []), ("vfs", .arr [])]) = .valid ∧
    validateSessionManifest .null = .invalid .invalidManifestObject :=
  ⟨by rfl, by rfl, by rfl⟩

/-! ### Serializer registry -/

theorem typeofFunction_iff (v : JsVal) : v.typeofFunction = true ↔ ∃ id, v = .fn id := by
  cases v <;> simp [JsVal.typeofFunction]

theorem getProp_of_not_nullish (v : JsVal) (k : String) (h : v.nullish = false) :
    v.getProp k = .ok (v.prop k) := by
  simp [JsVal.getProp, h]

theorem prop_of_nullish (v : JsVal) (k : String) (h : v.nullish = true) :
    v.prop k = .undefined := by
  cases v <;> simp_all [JsVal.nullish, JsVal.prop]

theorem registerAppSerializer_ok (type : String) (serializer : JsVal) (reg : Registry)
    (hs : (serializer.prop "serialize").typeofFunction = true)
    (hd : (serializer.prop "deserialize").typeofFunction = true) :
    registerAppSerializer type serializer reg = (mapSet reg type serializer, .ok ()) := by
  have hn : serializer.nullish = false := by
    cases h : serializer.nullish
    · rfl
    · rw [prop_of_nullish _ _ h] at hs
      simp [JsVal.typeofFunction] at hs
  simp [registerAppSerializer, getProp_of_not_nullish _ _ hn, hs, hd]

theorem registerAppSerializer_fails (type : String) (serializer : JsVal) (reg : Registry)
    (h : ((serializer.prop "serialize").typeofFunction &&
          (serializer.prop "deserialize").typeofFunction) = false) :
    (∃ e, registerAppSerializer type serializer reg = (reg, .error e)) ∧
    (serializer.nullish = false →
      registerAppSerializer type serializer reg
        = (reg, .error (.error (invalidSerializerMessage type)))) := by
  cases hn : serializer.nullish
  · have key : registerAppSerializer type serializer reg
        = (reg, .error (.error (invalidSerializerMessage type))) := by
      simp only [registerAppSerializer, getProp_of_not_nullish _ _ hn]
      cases hs : (serializer.prop "serialize").typeofFunction
      · simp
      · cases hd : (serializer.prop "deserialize").typeofFunction
        · simp
        · simp [hs, hd] at h
    exact ⟨⟨_, key⟩, fun _ => key⟩
  · refine ⟨?_, fun h' => by cases h'⟩
    simp only [registerAppSerializer, JsVal.getProp, hn]
    exact ⟨_, rfl⟩

/-- C10: `register(type, serializer)` throws and leaves the registry as it was
whenever `serializer.serialize` or `serializer.deserialize` is not a function
(for a serializer that is an object the error is the `Invalid serializer ...`
error); it completes, storing the serializer under `type`, exactly when both
are functions. In particular `register("x", {serialize: fn})` throws. -/
theorem register_requires_both_capabilities (type : String) (serializer : JsVal)
    (reg : Registry) :
    (((serializer.prop "serialize").typeofFunction &&
        (serializer.prop "deserialize").typeofFunction) = false →
      (∃ e, registerAppSerializer type serializer reg = (reg, .error e)) ∧
      (serializer.nullish = false →
        registerAppSerializer type serializer reg
          = (reg, .error (.error (invalidSerializerMessage type))))) ∧
    ((registerAppSerializer type serializer reg).2 = .ok () ↔
      ((serializer.prop "serialize").typeofFunction &&
        (serializer.prop "deserialize").typeofFunction) = true) ∧
    (((serializer.prop "serialize").typeofFunction &&
        (serializer.prop "deserialize").typeofFunction) = true →
      registerAppSerializer type serializer reg = (mapSet reg type serializer, .ok ())) := by
  refine ⟨registerAppSerializer_fails type serializer reg, ?_, ?_⟩
  · constructor
    · intro hok
      cases hb : ((serializer.prop "serialize").typeofFunction &&
          (serializer.prop "deserialize").typeofFunction)
      · obtain ⟨e, he⟩ := (registerAppSerializer_fails type serializer reg hb).1
        rw [he] at hok
        cases hok
      · rfl
    · intro hb
      simp only [Bool.and_eq_true] at hb
      rw [registerAppSerializer_ok type serializer reg hb.1 hb.2]
  · intro hb
    simp only [Bool.and_eq_true] at hb
    exact registerAppSerializer_ok type serializer reg hb.1 hb.2

/-- Witness for C10: `register("x", {serialize: fn})` on a registry holding one
serializer throws the `Invalid serializer` error and leaves the registry as it
was. -/
theorem register_requires_both_capabilities_witness :
    registerAppSerializer "x" (.obj [("serialize", .fn 0)])
        [("editor", .obj [("serialize", .fn 1), ("deserialize", .fn 2)])]
      = ([("editor", .obj [("serialize", .fn 1), ("deserialize", .fn 2)])],
          .error (.error (invalidSerializerMessage "x"))) :=
  ((register_requires_both_capabilities "x" (.obj [("serialize", .fn 0)])
      [("editor", .obj [("serialize", .fn 1), ("deserialize", .fn 2)])]).1 (by rfl)).2 (by rfl)

/-! ### restoreVFS: the calls it issues -/

/-- State effect of a call whose outcome is discarded. -/
theorem restoreEntry_eq {σ : Type} (env : Collaborators σ) (w : World σ) (e : String × JsVal) :
    restoreEntry env w e =
      match entryCall e with
      | none => w
      | some c => (invoke env c w).1 := by
  unfold restoreEntry restoreEntryBody entryCall JsVal.getProp
  cases hn : e.2.nullish
  · simp only [Bool.false_eq_true, if_false]
    cases hd : (e.2.prop "isDirectory").truthy
    · simp only [Bool.false_eq_true, if_false]
      cases hf : ((e.2.prop "isFile").truthy && !(e.2.prop "content").isNull) <;> simp
    · simp
  · simp

theorem restoreEntry_trace {σ : Type} (env : Collaborators σ) (w : World σ)
    (e : String × JsVal) :
    (restoreEntry env w e).trace = w.trace ++ (entryCall e).toList := by
  rw [restoreEntry_eq]
  cases entryCall e <;> simp [invoke]

theorem foldl_restoreEntry_trace {σ : Type} (env : Collaborators σ) (es : List (String × JsVal))
    (w : World σ) :
    (es.foldl (restoreEntry env) w).trace = w.trace ++ es.filterMap entryCall := by
  induction es generalizing w with
  | nil => simp
  | cons e es ih =>
    rw [List.foldl_cons, ih, restoreEntry_trace]
    cases h : entryCall e <;> simp [List.filterMap_cons, h]

theorem sortByDepth_perm (es : List (String × JsVal)) : (sortByDepth es).Perm es :=
  List.perm_insertionSort _ es

theorem sortByDepth_sorted (es : List (String × JsVal)) :
    (sortByDepth es).Pairwise (fun a b => pathDepth a.1 ≤ pathDepth b.1) :=
  List.sorted_insertionSort _ es

theorem restoreVFS_obj {σ : Type} (env : Collaborators σ) (props : List (String × JsVal))
    (w : World σ) :
    restoreVFS env (.obj props) w = ((sortByDepth props).foldl (restoreEntry env) w, .ok ()) := by
  rfl

/-! ### restoreVFS on the reference target -/

theorem foldl_restoreEntry_state {σ : Type} (env : Collaborators σ)
    (es : List (String × JsVal)) (w : World σ) :
    (es.foldl (restoreEntry env) w).state
      = (es.filterMap entryCall).foldl (fun s c => (env.perform c s).1) w.state := by
  induction es generalizing w with
  | nil => simp
  | cons e es ih =>
    rw [List.foldl_cons, ih, restoreEntry_eq]
    cases h : entryCall e <;> simp [List.filterMap_cons, h, invoke]

theorem entryCall_path (e : String × JsVal) (c : Call) (h : entryCall e = some c) :
    c.path = some e.1 := by
  unfold entryCall at h
  split at h
  · cases h
  · split at h
    · cases h; rfl
    · split at h
      · cases h; rfl
      · cases h

theorem flaky_files_other (fails : Call → Bool) (c : Call) (t : Target) (q : String)
    (h : c.path ≠ some q) : ((flakyTarget fails).perform c t).1.files q = t.files q := by
  unfold flakyTarget
  simp only
  split
  · rfl
  · cases c with
    | mkdir p =>
      have hp : q ≠ p := fun hq => h (by simp [Call.path, hq])
      simp only [idealPerform]
      split
      · simp [Function.update, hp]
      · rfl
    | writefile p c =>
      have hp : q ≠ p := fun hq => h (by simp [Call.path, hq])
      simp [idealPerform, Function.update, hp]
    | settingsSet k v => rfl
    | deserialize s ws as => rfl

theorem flaky_foldl_files_other (fails : Call → Bool) (cs : List Call) (t : Target) (q : String)
    (h : ∀ c ∈ cs, c.path ≠ some q) :
    (cs.foldl (fun s c => ((flakyTarget fails).perform c s).1) t).files q = t.files q := by
  induction cs generalizing t with
  | nil => rfl
  | cons c cs ih =>
    rw [List.foldl_cons, ih _ (fun c' hc' => h c' (List.mem_cons_of_mem _ hc'))]
    exact flaky_files_other fails c t q (h c (List.mem_cons_self _ _))

theorem entryCalls_path_ne (es : List (String × JsVal)) (q : String)
    (h : q ∉ es.map Prod.fst) : ∀ c ∈ es.filterMap entryCall, c.path ≠ some q := by
  intro c hc hq
  rw [List.mem_filterMap] at hc
  obtain ⟨e, he, hec⟩ := hc
  rw [entryCall_path e c hec] at hq
  apply h
  rw [List.mem_map]
  exact ⟨e, he, by simpa using hq⟩

theorem flaky_write_lands (fails : Call → Bool) (es : List (String × JsVal)) (t : Target)
    (p : String) (node content : JsVal)
    (hnd : (es.map Prod.fst).Nodup) (hmem : (p, node) ∈ es)
    (hcall : entryCall (p, node) = some (.writefile p content))
    (hok : fails (.writefile p content) = false) :
    ((es.filterMap entryCall).foldl (fun s c => ((flakyTarget fails).perform c s).1) t).files p
      = some (.file content) := by
  induction es generalizing t with
  | nil => cases hmem
  | cons e es ih =>
    rw [List.map_cons, List.nodup_cons] at hnd
    rcases List.mem_cons.1 hmem with heq | hin
    · subst heq
      rw [List.filterMap_cons, hcall, List.foldl_cons,
        flaky_foldl_files_other fails _ _ p (entryCalls_path_ne es p hnd.1)]
      simp [flakyTarget, hok, idealPerform]
    · have hne : e.1 ≠ p := by
        intro h
        apply hnd.1
        rw [List.mem_map]
        exact ⟨(p, node), hin, h.symm⟩
      cases hc : entryCall e with
      | none => rw [List.filterMap_cons, hc]; exact ih t hnd.2 hin
      | some c => rw [List.filterMap_cons, hc, List.foldl_cons]; exact ih _ hnd.2 hin

theorem sortByDepth_keys_nodup (es : List (String × JsVal)) (h : (es.map Prod.fst).Nodup) :
    ((sortByDepth es).map Prod.fst).Nodup :=
  ((sortByDepth_perm es).map Prod.fst).nodup_iff.2 h

/-- C7: whatever collaborator calls fail, `restoreVFS` of a snapshot object
completes without raising, and the calls it issues are exactly the calls of the
entries in depth order, a rearrangement of one call per entry that has one; on
the reference target in which an arbitrary set of calls fails, every file whose
own write does not fail ends up written. -/
theorem restoreVFS_tolerates_failures :
    (∀ (σ : Type) (env : Collaborators σ) (props : List (String × JsVal)) (w : World σ),
      (restoreVFS env (.obj props) w).2 = .ok () ∧
      (restoreVFS env (.obj props) w).1.trace
        = w.trace ++ (sortByDepth props).filterMap entryCall ∧
      ((sortByDepth props).filterMap entryCall).Perm (props.filterMap entryCall)) ∧
    (∀ (fails : Call → Bool) (props : List (String × JsVal)) (w : World Target)
        (p : String) (node content : JsVal),
      (props.map Prod.fst).Nodup → (p, node) ∈ props →
      entryCall (p, node) = some (.writefile p content) →
      fails (.writefile p content) = false →
      (restoreVFS (flakyTarget fails) (.obj props) w).1.state.files p
        = some (.file content)) := by
  refine ⟨?_, ?_⟩
  · intro σ env props w
    refine ⟨rfl, ?_, (sortByDepth_perm props).filterMap _⟩
    rw [restoreVFS_obj, foldl_restoreEntry_trace]
  · intro fails props w p node content hnd hmem hcall hok
    rw [restoreVFS_obj, foldl_restoreEntry_state]
    exact flaky_write_lands fails (sortByDepth props) w.state p node content
      (sortByDepth_keys_nodup props hnd) ((sortByDepth_perm props).mem_iff.2 hmem) hcall hok

/-- Witness for C7: of ten file writes the one to `/f3` fails; the call
completes, `/f3` stays absent and the other nine files are written. -/
theorem restoreVFS_tolerates_failures_witness :
    (restoreVFS (flakyTarget failsF3) (.obj tenFiles) ⟨Target.empty, []⟩).2 = .ok () ∧
    (restoreVFS (flakyTarget failsF3) (.obj tenFiles) ⟨Target.empty, []⟩).1.state.files "/f3"
      = none ∧
    ((restoreVFS (flakyTarget failsF3) (.obj tenFiles) ⟨Target.empty, []⟩).1.state.files "/f0"
      = some (.file (.str "c0")) ∧
     (restoreVFS (flakyTarget failsF3) (.obj tenFiles) ⟨Target.empty, []⟩).1.state.files "/f1"
      = some (.file (.str "c1")) ∧
     (restoreVFS (flakyTarget failsF3) (.obj tenFiles) ⟨Target.empty, []⟩).1.state.files "/f2"
      = some (.file (.str "c2")) ∧
     (restoreVFS (flakyTarget failsF3) (.obj tenFiles) ⟨Target.empty, []⟩).1.state.files "/f4"
      = some (.file (.str "c4")) ∧
     (restoreVFS (flakyTarget failsF3) (.obj tenFiles) ⟨Target.empty, []⟩).1.state.files "/f5"
      = some (.file (.str "c5")) ∧
     (restoreVFS (flakyTarget failsF3) (.obj tenFiles) ⟨Target.empty, []⟩).1.state.files "/f6"
      = some (.file (.str "c6")) ∧
     (restoreVFS (flakyTarget failsF3) (.obj tenFiles) ⟨Target.empty, []⟩).1.state.files "/f7"
      = some (.file (.str "c7")) ∧
     (restoreVFS (flakyTarget failsF3) (.obj tenFiles) ⟨Target.empty, []⟩).1.state.files "/f8"
      = some (.file (.str "c8")) ∧
     (restoreVFS (flakyTarget failsF3) (.obj tenFiles) ⟨Target.empty, []⟩).1.state.files "/f9"
      = some (.file (.str "c9"))) := by
  have hnd : (tenFiles.map Prod.fst).Nodup := by decide
  refine ⟨(restoreVFS_tolerates_failures.1 Target (flakyTarget failsF3) tenFiles _).1, by rfl,
    ?_, ?_, ?_, ?_, ?_, ?_, ?_, ?_, ?_⟩
  · exact restoreVFS_tolerates_failures.2 failsF3 tenFiles _ "/f0" (sampleFile "c0") _ hnd
      (by simp [tenFiles]) (by rfl) (by rfl)
  · exact restoreVFS_tolerates_failures.2 failsF3 tenFiles _ "/f1" (sampleFile "c1") _ hnd
      (by simp [tenFiles]) (by rfl) (by rfl)
  · exact restoreVFS_tolerates_failures.2 failsF3 tenFiles _ "/f2" (sampleFile "c2") _ hnd
      (by simp [tenFiles]) (by rfl) (by rfl)
  · exact restoreVFS_tolerates_failures.2 failsF3 tenFiles _ "/f4" (sampleFile "c4") _ hnd
      (by simp [tenFiles]) (by rfl) (by rfl)
  · exact restoreVFS_tolerates_failures.2 failsF3 tenFiles _ "/f5" (sampleFile "c5") _ hnd
      (by simp [tenFiles]) (by rfl) (by rfl)
  · exact restoreVFS_tolerates_failures.2 failsF3 tenFiles _ "/f6" (sampleFile "c6") _ hnd
      (by simp [tenFiles]) (by rfl) (by rfl)
  · exact restoreVFS_tolerates_failures.2 failsF3 tenFiles _ "/f7" (sampleFile "c7") _ hnd
      (by simp [tenFiles]) (by rfl) (by rfl)
  · exact restoreVFS_tolerates_failures.2 failsF3 tenFiles _ "/f8" (sampleFile "c8") _ hnd
      (by simp [tenFiles]) (by rfl) (by rfl)
  · exact restoreVFS_tolerates_failures.2 failsF3 tenFiles _ "/f9" (sampleFile "c9") _ hnd
      (by simp [tenFiles]) (by rfl) (by rfl)

/-! ### restoreVFS: directories before their descendants -/

theorem splitChars_length (sep : Char) (l : List Char) :
    (splitChars sep l).length = l.count sep + 1 := by
  induction l with
  | nil => rfl
  | cons c cs ih =>
    unfold splitChars
    by_cases h : c = sep
    · simp [h, ih]
    · have hc : (c == sep) = false := by simpa using h
      simp only [h, if_false, List.count_cons, hc, Bool.false_eq_true, add_zero]
      rw [← ih]
      cases hs : splitChars sep cs with
      | nil => rw [hs] at ih; simp at ih
      | cons seg rest => simp

theorem pathDepth_eq (p : String) : pathDepth p = p.toList.count '/' + 1 := by
  simp [pathDepth, jsSplit, splitChars_length]

theorem pathDepth_child (d r : String) : pathDepth d < pathDepth (d ++ "/" ++ r) := by
  rw [pathDepth_eq, pathDepth_eq]
  have h : (d ++ "/" ++ r).toList = d.toList ++ ('/' :: r.toList) := by
    simp [String.toList, String.data_append]
  rw [h, List.count_append, List.count_cons]
  simp

/-- C2: whatever the order of the snapshot's entries, for a directory entry `d`
and an entry `e` whose path is `d`'s path, then `/`, then a remainder,
`restoreVFS` issues `mkdir` for `d` with no call at `e`'s path before it, and
the call of `e`, when it has one, comes after. -/
theorem restoreVFS_directory_before_descendant {σ : Type} (env : Collaborators σ)
    (props : List (String × JsVal)) (w : World σ) (d e : String × JsVal) (r : String)
    (hd : d ∈ props) (hdir : (d.2.prop "isDirectory").truthy = true)
    (he : e ∈ props) (hpath : e.1 = d.1 ++ "/" ++ r) :
    ∃ pre post,
      (restoreVFS env (.obj props) w).1.trace = w.trace ++ pre ++ Call.mkdir d.1 :: post ∧
      (∀ c ∈ pre, c.path ≠ some e.1) ∧
      (∀ c, entryCall e = some c → c ∈ post) := by
  have hnn : d.2.nullish = false := by
    cases h : d.2.nullish
    · rfl
    · rw [prop_of_nullish _ _ h] at hdir
      simp [JsVal.truthy] at hdir
  have hcall : entryCall d = some (.mkdir d.1) := by
    simp [entryCall, hnn, hdir]
  have hlt : pathDepth d.1 < pathDepth e.1 := hpath ▸ pathDepth_child d.1 r
  obtain ⟨s, t, hst⟩ := List.append_of_mem ((sortByDepth_perm props).mem_iff.2 hd)
  have hsorted := sortByDepth_sorted props
  rw [hst, List.pairwise_append] at hsorted
  have hpre : ∀ c ∈ s.filterMap entryCall, c.path ≠ some e.1 := by
    intro c hc hp
    rw [List.mem_filterMap] at hc
    obtain ⟨x, hx, hxc⟩ := hc
    rw [entryCall_path x c hxc] at hp
    have hle := hsorted.2.2 x hx d (List.mem_cons_self _ _)
    have hxe : x.1 = e.1 := by simpa using hp
    rw [hxe] at hle
    omega
  refine ⟨s.filterMap entryCall, t.filterMap entryCall, ?_, hpre, ?_⟩
  · rw [restoreVFS_obj, foldl_restoreEntry_trace, hst, List.filterMap_append,
      List.filterMap_cons, hcall, List.append_assoc]
  · intro c hc
    have hmem : c ∈ (sortByDepth props).filterMap entryCall :=
      List.mem_filterMap.2 ⟨e, (sortByDepth_perm props).mem_iff.2 he, hc⟩
    rw [hst, List.filterMap_append, List.filterMap_cons, hcall, List.mem_append,
      List.mem_cons] at hmem
    rcases hmem with h | h | h
    · exact absurd (entryCall_path e c hc) (hpre c h)
    · have hp := entryCall_path e c hc
      rw [h] at hp
      simp only [Call.path, Option.some.injEq] at hp
      rw [← hp] at hlt
      omega
    · exact h

/-- Witness for C2: for the snapshot `{"/a/b": file, "/a": directory}`, in that
order, the calls are `mkdir /a` and then `writefile /a/b`. -/
theorem restoreVFS_directory_before_descendant_witness :
    (restoreVFS idealTarget (.obj [("/a/b", sampleFile "x"), ("/a", sampleDir)])
        ⟨Target.empty, []⟩).1.trace
      = [Call.mkdir "/a", Call.writefile "/a/b" (.str "x")] ∧
    ∃ pre post,
      (restoreVFS idealTarget (.obj [("/a/b", sampleFile "x"), ("/a", sampleDir)])
          ⟨Target.empty, []⟩).1.trace = [] ++ pre ++ Call.mkdir "/a" :: post ∧
      (∀ c ∈ pre, c.path ≠ some "/a/b") ∧
      (∀ c, entryCall ("/a/b", sampleFile "x") = some c → c ∈ post) :=
  ⟨by rfl,
   restoreVFS_directory_before_descendant idealTarget
     [("/a/b", sampleFile "x"), ("/a", sampleDir)] ⟨Target.empty, []⟩
     ("/a", sampleDir) ("/a/b", sampleFile "x") "b" (by simp) (by rfl) (by simp) (by rfl)⟩

/-! ### restoreSession: VFS, then settings, then processes -/

theorem entryCall_phase (e : String × JsVal) (c : Call) (h : entryCall e = some c) :
    c.phase = 0 := by
  unfold entryCall at h
  split at h
  · cases h
  · split at h
    · cases h; rfl
    · split at h
      · cases h; rfl
      · cases h

theorem restoreVFS_calls {σ : Type} (env : Collaborators σ) (v : JsVal) (w : World σ) :
    ∃ l, (restoreVFS env v w).1.trace = w.trace ++ l ∧ ∀ c ∈ l, c.phase = 0 := by
  unfold restoreVFS
  cases hv : v.entries with
  | error e => exact ⟨[], by simp, by simp⟩
  | ok es =>
    refine ⟨(sortByDepth es).filterMap entryCall, foldl_restoreEntry_trace env _ w, ?_⟩
    intro c hc
    obtain ⟨e, _, hec⟩ := List.mem_filterMap.1 hc
    exact entryCall_phase e c hec

theorem restoreSettingsLoop_calls {σ : Type} (env : Collaborators σ)
    (es : List (String × JsVal)) (w : World σ) :
    ∃ l, (restoreSettingsLoop env es w).1.trace = w.trace ++ l ∧ ∀ c ∈ l, c.phase = 1 := by
  induction es generalizing w with
  | nil => exact ⟨[], by simp [restoreSettingsLoop], by simp⟩
  | cons e es ih =>
    obtain ⟨k, v⟩ := e
    unfold restoreSettingsLoop
    cases ho : (env.perform (.settingsSet k v) w.state).2 with
    | error err =>
      refine ⟨[.settingsSet k v], ?_, by simp [Call.phase]⟩
      simp [invoke, ho]
    | ok u =>
      obtain ⟨l, hl, hph⟩ := ih { state := (env.perform (.settingsSet k v) w.state).1,
                                  trace := w.trace ++ [.settingsSet k v] }
      refine ⟨.settingsSet k v :: l, ?_, ?_⟩
      · simp only [invoke, ho]
        rw [hl]
        simp
      · intro c hc
        rcases List.mem_cons.1 hc with h | h
        · rw [h]; rfl
        · exact hph c h

theorem restoreSettings_calls {σ : Type} (env : Collaborators σ) (v : JsVal) (w : World σ) :
    ∃ l, (restoreSettings env v w).1.trace = w.trace ++ l ∧ ∀ c ∈ l, c.phase = 1 := by
  unfold restoreSettings
  cases hv : v.entries with
  | error e => exact ⟨[], by simp, by simp⟩
  | ok es => exact restoreSettingsLoop_calls env es w

theorem deserializeBody_calls {σ : Type} (env : Collaborators σ) (serializer proc : JsVal)
    (w : World σ) :
    ∃ l, (deserializeBody env serializer proc w).1.trace = w.trace ++ l ∧
      ∀ c ∈ l, c.phase = 2 := by
  unfold deserializeBody
  split
  · exact ⟨[.deserialize serializer (proc.prop "windowState") (proc.prop "appState")],
      by simp [invoke], by simp [Call.phase]⟩
  · exact ⟨[], by simp, by simp⟩

theorem restoreProcessesLoop_calls {σ : Type} (env : Collaborators σ) (reg : Registry)
    (ps : List JsVal) (w : World σ) :
    ∃ l, (restoreProcessesLoop env reg ps w).1.trace = w.trace ++ l ∧
      ∀ c ∈ l, c.phase = 2 := by
  induction ps generalizing w with
  | nil => exact ⟨[], by simp [restoreProcessesLoop], by simp⟩
  | cons proc ps ih =>
    unfold restoreProcessesLoop
    cases ht : proc.getProp "type" with
    | error e => exact ⟨[], by simp, by simp⟩
    | ok t =>
      simp only
      split
      · obtain ⟨l1, h1, p1⟩ := deserializeBody_calls env (registryGet reg t) proc w
        obtain ⟨l2, h2, p2⟩ := ih (deserializeBody env (registryGet reg t) proc w).1
        refine ⟨l1 ++ l2, ?_, ?_⟩
        · rw [h2, h1, List.append_assoc]
        · intro c hc
          rcases List.mem_append.1 hc with h | h
          · exact p1 c h
          · exact p2 c h
      · exact ih w

theorem restoreProcesses_calls {σ : Type} (env : Collaborators σ) (reg : Registry)
    (v : JsVal) (w : World σ) :
    ∃ l, (restoreProcesses env reg v w).1.trace = w.trace ++ l ∧ ∀ c ∈ l, c.phase = 2 := by
  unfold restoreProcesses
  cases hv : v.iterate with
  | error e => exact ⟨[], by simp, by simp⟩
  | ok ps => exact restoreProcessesLoop_calls env reg ps w

theorem phases_pairwise (l0 l1 l2 : List Call) (h0 : ∀ c ∈ l0, c.phase = 0)
    (h1 : ∀ c ∈ l1, c.phase = 1) (h2 : ∀ c ∈ l2, c.phase = 2) :
    (l0 ++ l1 ++ l2).Pairwise (fun a b => a.phase ≤ b.phase) := by
  have hconst : ∀ (l : List Call) (k : Nat), (∀ c ∈ l, c.phase = k) →
      l.Pairwise (fun a b => a.phase ≤ b.phase) := by
    intro l k hk
    rw [List.pairwise_iff_forall_sublist]
    intro a b hab
    have ha := hk a (hab.subset (by simp))
    have hb := hk b (hab.subset (by simp))
    omega
  rw [List.pairwise_append, List.pairwise_append]
  refine ⟨⟨hconst l0 0 h0, hconst l1 1 h1, ?_⟩, hconst l2 2 h2, ?_⟩
  · intro a ha b hb
    rw [h0 a ha, h1 b hb]
    omega
  · intro a ha b hb
    rw [h2 b hb]
    rcases List.mem_append.1 ha with h | h
    · rw [h0 a h]; omega
    · rw [h1 a h]; omega

/-- C9: the collaborator calls `restoreSession` issues are the VFS calls
(`mkdir`, `writefile`), followed by the `settings.set` calls, followed by the
`deserialize` calls: in its trace no call of a later stage precedes a call of
an earlier stage. -/
theorem restoreSession_stage_order {σ : Type} (env : Collaborators σ) (reg : Registry)
    (manifest : JsVal) (w : World σ) :
    ∃ vfsCalls settingsCalls processCalls,
      (restoreSession env reg manifest w).1.trace
        = w.trace ++ (vfsCalls ++ settingsCalls ++ processCalls) ∧
      (∀ c ∈ vfsCalls, c.phase = 0) ∧ (∀ c ∈ settingsCalls, c.phase = 1) ∧
      (∀ c ∈ processCalls, c.phase = 2) ∧
      (vfsCalls ++ settingsCalls ++ processCalls).Pairwise (fun a b => a.phase ≤ b.phase) := by
  have nil_phase : ∀ k : Nat, ∀ c ∈ ([] : List Call), c.phase = k := by simp
  unfold restoreSession
  cases hm : manifest.getProp "vfs" with
  | error e =>
    exact ⟨[], [], [], by simp, nil_phase 0, nil_phase 1, nil_phase 2, by simp⟩
  | ok vfs =>
    simp only
    obtain ⟨l0, h0, p0⟩ := restoreVFS_calls env vfs w
    cases hv : restoreVFS env vfs w with
    | mk w1 o1 =>
      rw [hv] at h0
      cases o1 with
      | error e =>
        exact ⟨l0, [], [], by simpa using h0, p0, nil_phase 1, nil_phase 2,
          phases_pairwise l0 [] [] p0 (nil_phase 1) (nil_phase 2)⟩
      | ok u =>
        simp only
        obtain ⟨l1, h1, p1⟩ := restoreSettings_calls env (manifest.prop "settings") w1
        cases hs : restoreSettings env (manifest.prop "settings") w1 with
        | mk w2 o2 =>
          rw [hs] at h1
          cases o2 with
          | error e =>
            refine ⟨l0, l1, [], ?_, p0, p1, nil_phase 2,
              phases_pairwise l0 l1 [] p0 p1 (nil_phase 2)⟩
            simp only at h0 h1 ⊢
            rw [h1, h0]
            simp
          | ok u2 =>
            simp only
            obtain ⟨l2, h2, p2⟩ :=
              restoreProcesses_calls env reg (manifest.prop "processes") w2
            refine ⟨l0, l1, l2, ?_, p0, p1, p2, phases_pairwise l0 l1 l2 p0 p1 p2⟩
            simp only at h0 h1
            rw [h2, h1, h0]
            simp

/-! ### Restore and import do not validate -/

/-- C5 fails as stated: the manifest of version `0.0.1` is rejected by
`validate`, yet `restoreSession` applies it (a `mkdir` and a `settings.set` are
issued and the call completes), `uploadSession` resolves with it, and the route
`POST /api/session/import` stores it and makes it the active manifest. -/
theorem invalid_manifest_is_applied :
    validateSessionManifest staleManifest = .invalid (.unsupportedVersion (.str "0.0.1")) ∧
    (restoreSession idealTarget [] staleManifest ⟨Target.empty, []⟩).2 = .ok () ∧
    (restoreSession idealTarget [] staleManifest ⟨Target.empty, []⟩).1.trace
      = [Call.mkdir "/a", Call.settingsSet "theme" (.str "dark")] ∧
    (uploadSession idealTarget [] (.ok staleManifest) ⟨Target.empty, []⟩).2
      = .ok staleManifest ∧
    (importRoute memoryPlatform 7 staleManifest (SessionService.initial "sessions" [])).2.status
      = 200 ∧
    (importRoute memoryPlatform 7 staleManifest
        (SessionService.initial "sessions" [])).1.currentSession = staleManifest :=
  ⟨by rfl, by rfl, by rfl, by rfl, by rfl, by rfl⟩

theorem saveSession_of_written {δ τ : Type} (pf : Platform δ τ) (sessionId : String)
    (manifest : JsVal) (svc : SessionService δ) (data : τ)
    (hs : pf.stringify manifest = .ok data)
    (hw : (pf.writeFile (pf.join svc.sessionsDir (sessionId ++ ".json")) data svc.disk).2
      = .ok ()) :
    saveSession pf sessionId manifest svc
      = ({ svc with
            disk := (pf.writeFile (pf.join svc.sessionsDir (sessionId ++ ".json")) data
              svc.disk).1,
            currentSession := manifest },
          .ok (.obj [("sessionId", .str sessionId),
                     ("path", .str (pf.join svc.sessionsDir (sessionId ++ ".json")))])) := by
  unfold saveSession
  rw [hs]
  simp only
  cases hr : pf.writeFile (pf.join svc.sessionsDir (sessionId ++ ".json")) data svc.disk with
  | mk disk' o =>
    rw [hr] at hw
    simp only at hw
    subst hw
    rfl

/-- C5 as amended: restore and import never consult `validate`. `restoreSession`
reads only the `vfs`, `settings` and `processes` of the manifest, so it treats a
rejected manifest exactly like an accepted one with the same three fields;
`uploadSession` changes the world exactly as `restoreSession` does and resolves
with the manifest when it completes; `saveSession`, and with it the import
route, makes the given manifest the active one whenever it can be written. -/
theorem restore_and_import_apply_without_validating :
    (∀ (σ : Type) (env : Collaborators σ) (reg : Registry) (m m' : JsVal) (w : World σ),
      m.getProp "vfs" = m'.getProp "vfs" → m.prop "settings" = m'.prop "settings" →
      m.prop "processes" = m'.prop "processes" →
      restoreSession env reg m w = restoreSession env reg m' w) ∧
    (∀ (σ : Type) (env : Collaborators σ) (reg : Registry) (m : JsVal) (w : World σ),
      (uploadSession env reg (.ok m) w).1 = (restoreSession env reg m w).1 ∧
      ((restoreSession env reg m w).2 = .ok () →
        (uploadSession env reg (.ok m) w).2 = .ok m)) ∧
    (∀ (δ τ : Type) (pf : Platform δ τ) (sessionId : String) (m : JsVal)
        (svc : SessionService δ) (data : τ),
      pf.stringify m = .ok data →
      (pf.writeFile (pf.join svc.sessionsDir (sessionId ++ ".json")) data svc.disk).2 = .ok () →
      (saveSession pf sessionId m svc).1.currentSession = m) ∧
    (∀ (δ τ : Type) (pf : Platform δ τ) (now : Nat) (m : JsVal)
        (svc : SessionService δ) (data : τ),
      pf.stringify m = .ok data →
      (pf.writeFile (pf.join svc.sessionsDir ("session-" ++ toString now ++ ".json")) data
        svc.disk).2 = .ok () →
      (importRoute pf now m svc).1.currentSession = m ∧
      (importRoute pf now m svc).2.status = 200) := by
  refine ⟨?_, ?_, ?_, ?_⟩
  · intro σ env reg m m' w hv hs hp
    unfold restoreSession
    rw [hv, hs, hp]
  · intro σ env reg m w
    simp only [uploadSession]
    rcases hr : restoreSession env reg m w with ⟨w', e | u⟩
    · exact ⟨rfl, fun h => by cases h⟩
    · exact ⟨rfl, fun _ => rfl⟩
  · intro δ τ pf sessionId m svc data hs hw
    rw [saveSession_of_written pf sessionId m svc data hs hw]
  · intro δ τ pf now m svc data hs hw
    unfold importRoute
    rw [saveSession_of_written pf _ m svc data hs hw]
    exact ⟨rfl, rfl⟩

/-- Witness for C5 as amended: the manifest of version `0.0.1`, which `validate`
rejects, is restored exactly like its twin of version `1.0.0`, which `validate`
accepts, and the import route makes it the active manifest. -/
theorem restore_and_import_apply_without_validating_witness :
    validateSessionManifest staleManifest ≠ .valid ∧
    validateSessionManifest currentManifest = .valid ∧
    restoreSession idealTarget [] staleManifest ⟨Target.empty, []⟩
      = restoreSession idealTarget [] currentManifest ⟨Target.empty, []⟩ ∧
    (importRoute memoryPlatform 7 staleManifest
        (SessionService.initial "sessions" [])).1.currentSession = staleManifest :=
  ⟨by simp [validateSessionManifest, staleManifest, JsVal.truthy, JsVal.typeofObject,
      JsVal.prop, lookup, JsVal.strictEqStr, SESSION_VERSION],
   by rfl,
   restore_and_import_apply_without_validating.1 Target idealTarget [] staleManifest
     currentManifest ⟨Target.empty, []⟩ (by rfl) (by rfl) (by rfl),
   (restore_and_import_apply_without_validating.2.2.2 _ _ memoryPlatform 7 staleManifest
     (SessionService.initial "sessions" []) staleManifest (by rfl) (by rfl)).1⟩

/-! ### restoreVFS: applying a snapshot twice -/

theorem entryCalls_pairwise_path (es : List (String × JsVal))
    (h : (es.map Prod.fst).Nodup) :
    (es.filterMap entryCall).Pairwise (fun c d => c.path ≠ d.path) := by
  induction es with
  | nil => simp
  | cons e es ih =>
    rw [List.map_cons, List.nodup_cons] at h
    cases hc : entryCall e with
    | none => rw [List.filterMap_cons, hc]; exact ih h.2
    | some c =>
      rw [List.filterMap_cons, hc, List.pairwise_cons]
      refine ⟨?_, ih h.2⟩
      intro d hd
      rw [entryCall_path e c hc]
      exact fun heq => entryCalls_path_ne es e.1 h.1 d hd heq.symm

theorem entryCalls_phase (es : List (String × JsVal)) :
    ∀ c ∈ es.filterMap entryCall, c.phase = 0 := by
  intro c hc
  obtain ⟨e, _, hec⟩ := List.mem_filterMap.1 hc
  exact entryCall_phase e c hec

theorem run_comm {σ : Type} (env : Collaborators σ)
    (hcomm : ∀ (c d : Call) (s : σ), c.path ≠ d.path → c.phase = 0 → d.phase = 0 →
      (env.perform c (env.perform d s).1).1 = (env.perform d (env.perform c s).1).1)
    (c : Call) (hc : c.phase = 0) (cs : List Call) (hph : ∀ d ∈ cs, d.phase = 0)
    (hne : ∀ d ∈ cs, c.path ≠ d.path) (s : σ) :
    (env.perform c (cs.foldl (fun s c => (env.perform c s).1) s)).1
      = cs.foldl (fun s c => (env.perform c s).1) (env.perform c s).1 := by
  induction cs generalizing s with
  | nil => rfl
  | cons d cs ih =>
    rw [List.foldl_cons, List.foldl_cons,
      ih (fun x hx => hph x (List.mem_cons_of_mem _ hx))
        (fun x hx => hne x (List.mem_cons_of_mem _ hx)),
      hcomm c d s (hne d (List.mem_cons_self _ _)) hc (hph d (List.mem_cons_self _ _))]

theorem run_twice {σ : Type} (env : Collaborators σ)
    (hidem : ∀ (c : Call) (s : σ), c.phase = 0 →
      (env.perform c (env.perform c s).1).1 = (env.perform c s).1)
    (hcomm : ∀ (c d : Call) (s : σ), c.path ≠ d.path → c.phase = 0 → d.phase = 0 →
      (env.perform c (env.perform d s).1).1 = (env.perform d (env.perform c s).1).1)
    (cs : List Call) (hph : ∀ d ∈ cs, d.phase = 0)
    (hpw : cs.Pairwise (fun c d => c.path ≠ d.path)) (s : σ) :
    cs.foldl (fun s c => (env.perform c s).1) (cs.foldl (fun s c => (env.perform c s).1) s)
      = cs.foldl (fun s c => (env.perform c s).1) s := by
  induction cs generalizing s with
  | nil => rfl
  | cons c cs ih =>
    rw [List.pairwise_cons] at hpw
    have hc := hph c (List.mem_cons_self _ _)
    have hph' : ∀ d ∈ cs, d.phase = 0 := fun x hx => hph x (List.mem_cons_of_mem _ hx)
    rw [List.foldl_cons, List.foldl_cons, run_comm env hcomm c hc cs hph' hpw.1,
      hidem c s hc, ih hph' hpw.2]

theorem restoreVFS_twice_of_laws {σ : Type} (env : Collaborators σ)
    (props : List (String × JsVal)) (w : World σ)
    (hkeys : (props.map Prod.fst).Nodup)
    (hidem : ∀ (c : Call) (s : σ), c.phase = 0 →
      (env.perform c (env.perform c s).1).1 = (env.perform c s).1)
    (hcomm : ∀ (c d : Call) (s : σ), c.path ≠ d.path → c.phase = 0 → d.phase = 0 →
      (env.perform c (env.perform d s).1).1 = (env.perform d (env.perform c s).1).1) :
    (restoreVFS env (.obj props) (restoreVFS env (.obj props) w).1).1.state
      = (restoreVFS env (.obj props) w).1.state := by
  simp only [restoreVFS_obj, foldl_restoreEntry_state]
  exact run_twice env hidem hcomm _ (entryCalls_phase _)
    (entryCalls_pairwise_path _ (sortByDepth_keys_nodup props hkeys)) w.state

theorem Target.eq_of {t u : Target} (hf : ∀ q, t.files q = u.files q)
    (hs : t.settings = u.settings) : t = u := by
  cases t with
  | mk tf ts =>
    cases u with
    | mk uf us =>
      simp only at hf hs
      have : tf = uf := funext hf
      subst this
      subst hs
      rfl

theorem flaky_settings_unchanged (fails : Call → Bool) (c : Call) (t : Target)
    (hc : c.phase = 0) : ((flakyTarget fails).perform c t).1.settings = t.settings := by
  unfold flakyTarget
  simp only
  split
  · rfl
  · cases c with
    | mkdir p => simp only [idealPerform]; split <;> rfl
    | writefile p c => rfl
    | settingsSet k v => simp [Call.phase] at hc
    | deserialize s ws as => rfl

/-- What a VFS call leaves at its own path on the reference target, as a
function of what the path held before. -/
theorem flaky_files_own (fails : Call → Bool) (c : Call) (t : Target) (q : String)
    (hq : c.path = some q) :
    ((flakyTarget fails).perform c t).1.files q =
      if fails c then t.files q
      else match c with
        | .mkdir _ => (match t.files q with | none => some .directory | some x => some x)
        | .writefile _ content => some (.file content)
        | _ => t.files q := by
  unfold flakyTarget
  simp only
  split
  · rfl
  · cases c with
    | mkdir p =>
      simp only [Call.path, Option.some.injEq] at hq
      subst hq
      simp only [idealPerform]
      cases h : t.files p <;> simp [h]
    | writefile p c =>
      simp only [Call.path, Option.some.injEq] at hq
      subst hq
      simp [idealPerform]
    | settingsSet k v => simp [Call.path] at hq
    | deserialize s ws as => simp [Call.path] at hq

theorem flaky_idem (fails : Call → Bool) (c : Call) (t : Target) (hc : c.phase = 0) :
    ((flakyTarget fails).perform c ((flakyTarget fails).perform c t).1).1
      = ((flakyTarget fails).perform c t).1 := by
  apply Target.eq_of
  · intro q
    by_cases hq : c.path = some q
    · rw [flaky_files_own fails c _ q hq, flaky_files_own fails c t q hq]
      cases hf : fails c
      · cases c with
        | mkdir p => cases h : t.files q <;> simp
        | writefile p content => simp
        | settingsSet k v => simp
        | deserialize s ws as => simp
      · simp
    · rw [flaky_files_other fails c _ q hq]
  · rw [flaky_settings_unchanged fails c _ hc]

theorem flaky_comm (fails : Call → Bool) (c d : Call) (t : Target) (hne : c.path ≠ d.path)
    (hc : c.phase = 0) (hd : d.phase = 0) :
    ((flakyTarget fails).perform c ((flakyTarget fails).perform d t).1).1
      = ((flakyTarget fails).perform d ((flakyTarget fails).perform c t).1).1 := by
  apply Target.eq_of
  · intro q
    by_cases hq : c.path = some q
    · have hdq : d.path ≠ some q := fun h => hne (hq.trans h.symm)
      rw [flaky_files_own fails c ((flakyTarget fails).perform d t).1 q hq,
        flaky_files_other fails d ((flakyTarget fails).perform c t).1 q hdq,
        flaky_files_other fails d t q hdq, flaky_files_own fails c t q hq]
    · by_cases hdq : d.path = some q
      · rw [flaky_files_other fails c ((flakyTarget fails).perform d t).1 q hq,
          flaky_files_own fails d ((flakyTarget fails).perform c t).1 q hdq,
          flaky_files_own fails d t q hdq, flaky_files_other fails c t q hq]
      · rw [flaky_files_other fails c ((flakyTarget fails).perform d t).1 q hq,
          flaky_files_other fails d ((flakyTarget fails).perform c t).1 q hdq,
          flaky_files_other fails d t q hdq, flaky_files_other fails c t q hq]
  · rw [flaky_settings_unchanged fails c _ hc, flaky_settings_unchanged fails d _ hd,
      flaky_settings_unchanged fails d _ hd, flaky_settings_unchanged fails c _ hc]

/-- C8: for a snapshot object (its keys are distinct) applying `restoreVFS` twice
leaves the same filesystem as applying it once: on every collaborator whose VFS
calls are idempotent (`mkdir` of an existing directory, `writefile` of the same
content over itself) and independent across different paths, hence on the
reference target from every initial state, whichever of its calls fail. -/
theorem restoreVFS_idempotent :
    (∀ (σ : Type) (env : Collaborators σ) (props : List (String × JsVal)) (w : World σ),
      (props.map Prod.fst).Nodup →
      (∀ (c : Call) (s : σ), c.phase = 0 →
        (env.perform c (env.perform c s).1).1 = (env.perform c s).1) →
      (∀ (c d : Call) (s : σ), c.path ≠ d.path → c.phase = 0 → d.phase = 0 →
        (env.perform c (env.perform d s).1).1 = (env.perform d (env.perform c s).1).1) →
      (restoreVFS env (.obj props) (restoreVFS env (.obj props) w).1).1.state
        = (restoreVFS env (.obj props) w).1.state) ∧
    (∀ (fails : Call → Bool) (props : List (String × JsVal)) (w : World Target),
      (props.map Prod.fst).Nodup →
      (restoreVFS (flakyTarget fails) (.obj props)
          (restoreVFS (flakyTarget fails) (.obj props) w).1).1.state
        = (restoreVFS (flakyTarget fails) (.obj props) w).1.state) :=
  ⟨fun _ env props w hkeys hidem hcomm => restoreVFS_twice_of_laws env props w hkeys hidem hcomm,
   fun fails props w hkeys =>
    restoreVFS_twice_of_laws (flakyTarget fails) props w hkeys
      (fun c s hc => flaky_idem fails c s hc)
      (fun c d s hne hc hd => flaky_comm fails c d s hne hc hd)⟩

/-- Witness for C8: on a target that already holds a file `/a/b` with other
content, restoring `{"/a/b": file, "/a": directory}` twice leaves what restoring
it once leaves, and `/a/b` then holds the snapshot's content. -/
theorem restoreVFS_idempotent_witness :
    (restoreVFS idealTarget (.obj [("/a/b", sampleFile "x"), ("/a", sampleDir)])
        (restoreVFS idealTarget (.obj [("/a/b", sampleFile "x"), ("/a", sampleDir)])
          ⟨idealPerform (.writefile "/a/b" (.str "old")) Target.empty, []⟩).1).1.state
      = (restoreVFS idealTarget (.obj [("/a/b", sampleFile "x"), ("/a", sampleDir)])
          ⟨idealPerform (.writefile "/a/b" (.str "old")) Target.empty, []⟩).1.state ∧
    (restoreVFS idealTarget (.obj [("/a/b", sampleFile "x"), ("/a", sampleDir)])
        ⟨idealPerform (.writefile "/a/b" (.str "old")) Target.empty, []⟩).1.state.files "/a/b"
      = some (.file (.str "x")) :=
  ⟨restoreVFS_idempotent.2 (fun _ => false) [("/a/b", sampleFile "x"), ("/a", sampleDir)]
      ⟨idealPerform (.writefile "/a/b" (.str "old")) Target.empty, []⟩ (by decide),
   by rfl⟩

/-! ### getVFSTree -/

/-- C6 fails as stated: for the vfs `{"home:/a.txt": file, "home:/dir/b.txt":
file}`, `getVFSTree("home:/")` is not `{a.txt: leaf, dir: {b.txt: leaf}}`:
the tree has the single top-level key `home:`, the first segment of every
path, and no key `a.txt` or `dir` at the top. -/
theorem getVFSTree_keeps_root_segment :
    getVFSTree treeService "home:/"
      = .ok (.obj [("home:", .obj [("a.txt", sampleLeaf "A"),
                                    ("dir", .obj [("b.txt", sampleLeaf "B")])])]) ∧
    getVFSTree treeService "home:/"
      ≠ .ok (.obj [("a.txt", sampleLeaf "A"), ("dir", .obj [("b.txt", sampleLeaf "B")])]) := by
  have h : getVFSTree treeService "home:/"
      = .ok (.obj [("home:", .obj [("a.txt", sampleLeaf "A"),
                                    ("dir", .obj [("b.txt", sampleLeaf "B")])])]) := by rfl
  refine ⟨h, ?_⟩
  rw [h]
  simp

theorem lookup_replaceExisting_same (k : String) (v : JsVal) (props : List (String × JsVal))
    (h : lookup k props ≠ none) : lookup k (replaceExisting k v props) = some v := by
  induction props with
  | nil => simp [lookup] at h
  | cons e rest ih =>
    obtain ⟨k', v'⟩ := e
    by_cases hk : k' = k
    · simp [replaceExisting, lookup, hk]
    · simp only [lookup, hk, if_false] at h
      simp [replaceExisting, lookup, hk, ih h]

theorem lookup_replaceExisting_other (k k2 : String) (v : JsVal)
    (props : List (String × JsVal)) (hne : k2 ≠ k) :
    lookup k2 (replaceExisting k v props) = lookup k2 props := by
  induction props with
  | nil => rfl
  | cons e rest ih =>
    obtain ⟨k', v'⟩ := e
    by_cases hk : k' = k
    · have h2 : ¬ k = k2 := fun h => hne h.symm
      have h3 : ¬ k' = k2 := fun h => hne (h.symm.trans hk)
      simp [replaceExisting, lookup, hk, h2]
    · simp only [replaceExisting, hk, if_false, lookup, ih]

theorem lookup_insertNew_same (k : String) (v : JsVal) (props : List (String × JsVal))
    (h : lookup k props = none) : lookup k (insertNew k v props) = some v := by
  induction props with
  | nil => simp [insertNew, lookup]
  | cons e rest ih =>
    obtain ⟨k', v'⟩ := e
    have hk : ¬ k' = k := by
      intro hk
      simp [lookup, hk] at h
    simp only [lookup, hk, if_false] at h
    unfold insertNew
    split
    · split
      · simp [lookup]
      · simp [lookup, hk, ih h]
    · simp [lookup]
    · simp [lookup, hk, ih h]

theorem lookup_insertNew_other (k k2 : String) (v : JsVal) (props : List (String × JsVal))
    (hne : k2 ≠ k) : lookup k2 (insertNew k v props) = lookup k2 props := by
  have h2 : ¬ k = k2 := fun h => hne h.symm
  induction props with
  | nil => simp [insertNew, lookup, h2]
  | cons e rest ih =>
    obtain ⟨k', v'⟩ := e
    unfold insertNew
    split
    · split
      · simp [lookup, h2]
      · simp [lookup, ih]
    · simp [lookup, h2]
    · simp [lookup, ih]

theorem lookup_setProp_same (k : String) (v : JsVal) (props : List (String × JsVal)) :
    lookup k (setProp props k v) = some v := by
  unfold setProp
  cases h : lookup k props with
  | none => exact lookup_insertNew_same k v props h
  | some x => exact lookup_replaceExisting_same k v props (by simp [h])

theorem lookup_setProp_other (k k2 : String) (v : JsVal) (props : List (String × JsVal))
    (hne : k2 ≠ k) : lookup k2 (setProp props k v) = lookup k2 props := by
  unfold setProp
  cases h : lookup k props with
  | none => exact lookup_insertNew_other k k2 v props hne
  | some x => exact lookup_replaceExisting_other k k2 v props hne

theorem walk_setProp_same (k : String) (v : JsVal) (props : List (String × JsVal))
    (ks : List String) : walk (.obj (setProp props k v)) (k :: ks) = walk v ks := by
  simp [walk, lookup_setProp_same]

theorem walk_setProp_other (k k2 : String) (v : JsVal) (props : List (String × JsVal))
    (ks : List String) (hne : k2 ≠ k) :
    walk (.obj (setProp props k v)) (k2 :: ks) = walk (.obj props) (k2 :: ks) := by
  simp [walk, lookup_setProp_other k k2 v props hne]

theorem walk_of_falsy (c : JsVal) (hc : c.truthy = false) (k : String) (ks : List String) :
    walk c (k :: ks) = none := by
  cases c <;> simp_all [JsVal.truthy, walk]

theorem walk_empty_obj (k : String) (ks : List String) : walk (.obj []) (k :: ks) = none := by
  simp [walk, lookup]

theorem walk_nil (v : JsVal) : walk v [] = some v := by
  cases v <;> rfl

theorem not_comparable_cons (k : String) (ks parts : List String)
    (h : ¬ Comparable (k :: ks) (k :: parts)) : ¬ Comparable ks parts := by
  intro hc
  apply h
  rcases hc with ⟨t, ht⟩ | ⟨t, ht⟩
  · exact Or.inl ⟨t, by simp [ht]⟩
  · exact Or.inr ⟨t, by simp [ht]⟩

theorem insertParts_spec (node leaf : JsVal) (hleaf : treeLeaf node = .ok leaf) :
    ∀ (parts : List String) (T : JsVal), parts ≠ [] →
      (∀ p t v, parts = p ++ t → t ≠ [] → walk T p = some v → ∃ pr, v = .obj pr) →
      ∃ pr', insertParts node parts T = .ok (.obj pr') ∧
        walk (.obj pr') parts = some leaf ∧
        (∀ q, ¬ Comparable q parts → walk (.obj pr') q = walk T q) ∧
        (∀ p t, parts = p ++ t → t ≠ [] → ∃ pr, walk (.obj pr') p = some (.obj pr))
  | [], _, h, _ => absurd rfl h
  | [part], T, _, hopen => by
    obtain ⟨props, hT⟩ := hopen [] [part] T rfl (by simp) (walk_nil T)
    subst hT
    refine ⟨setProp props part leaf, ?_, ?_, ?_, ?_⟩
    · simp [insertParts, hleaf, assignProp]
    · rw [walk_setProp_same]; exact walk_nil leaf
    · intro q hq
      cases q with
      | nil => exact absurd (Or.inl ⟨[part], rfl⟩) hq
      | cons k ks =>
        have hk : k ≠ part := by
          intro hk
          apply hq
          exact Or.inr ⟨ks, by simp [hk]⟩
        exact walk_setProp_other part k leaf props ks hk
    · intro p t hp ht
      cases p with
      | nil => exact ⟨_, rfl⟩
      | cons k ks =>
        simp only [List.cons_append, List.cons.injEq] at hp
        exact absurd (List.append_eq_nil.1 hp.2.symm).2 ht
  | part :: next :: rest, T, _, hopen => by
    obtain ⟨props, hT⟩ := hopen [] (part :: next :: rest) T rfl (by simp) (walk_nil T)
    subst hT
    have hchild : ∀ p t v, next :: rest = p ++ t → t ≠ [] →
        walk (if ((JsVal.obj props).prop part).truthy then (JsVal.obj props).prop part
              else .obj []) p = some v → ∃ pr, v = .obj pr := by
      intro p t v hp ht hw
      cases hc : ((JsVal.obj props).prop part).truthy
      · rw [hc] at hw
        simp only [Bool.false_eq_true, if_false] at hw
        cases p with
        | nil => exact ⟨[], by simpa [walk_nil] using hw.symm⟩
        | cons k ks => rw [walk_empty_obj] at hw; cases hw
      · rw [hc] at hw
        simp only [if_true] at hw
        apply hopen (part :: p) t v (by simp [hp]) ht
        simp only [JsVal.prop] at hw hc
        cases hl : lookup part props with
        | none => rw [hl] at hc; simp [JsVal.truthy] at hc
        | some c =>
          rw [hl] at hw
          simpa [walk, hl] using hw
    obtain ⟨pr', hins, hself, hother, hpre⟩ :=
      insertParts_spec node leaf hleaf (next :: rest) _ (by simp) hchild
    refine ⟨setProp props part (.obj pr'), ?_, ?_, ?_, ?_⟩
    · simp [insertParts, hins, assignProp]
    · rw [walk_setProp_same]; exact hself
    · intro q hq
      cases q with
      | nil => exact absurd (Or.inl ⟨part :: next :: rest, rfl⟩) hq
      | cons k ks =>
        by_cases hk : k = part
        · subst hk
          rw [walk_setProp_same, hother ks (not_comparable_cons k ks (next :: rest) hq)]
          cases ks with
          | nil => exact absurd (Or.inl ⟨next :: rest, rfl⟩) hq
          | cons k2 ks2 =>
            cases hc : ((JsVal.obj props).prop k).truthy
            · simp only [Bool.false_eq_true, if_false]
              rw [walk_empty_obj]
              simp only [JsVal.prop] at hc
              cases hl : lookup k props with
              | none => simp [walk, hl]
              | some c =>
                rw [hl] at hc
                simp only [walk, hl]
                exact (walk_of_falsy c hc k2 ks2).symm
            · simp only [if_true]
              simp only [JsVal.prop] at hc ⊢
              cases hl : lookup k props with
              | none => rw [hl] at hc; simp [JsVal.truthy] at hc
              | some c => simp [walk, hl]
        · exact walk_setProp_other part k (.obj pr') props ks hk
    · intro p t hp ht
      cases p with
      | nil => exact ⟨_, rfl⟩
      | cons k ks =>
        simp only [List.cons_append, List.cons.injEq] at hp
        obtain ⟨hk, hrest⟩ := hp
        subst hk
        rw [walk_setProp_same]
        exact hpre ks t hrest ht

theorem comparable_symm (p q : List String) (h : Comparable p q) : Comparable q p :=
  h.elim Or.inr Or.inl

theorem treeLeaf_of_not_nullish (node : JsVal) (h : node.nullish = false) :
    ∃ leaf, treeLeaf node = .ok leaf := by
  simp [treeLeaf, JsVal.getProp, h]

theorem treeLoop_spec (rootPath : String) :
    ∀ (es : List (String × JsVal)) (props : List (String × JsVal)) (Q : List (List String)),
      (∀ p v, walk (.obj props) p = some v →
        (∃ pr, v = .obj pr) ∨ ∃ q ∈ Q, ∃ t, p = q ++ t) →
      (∀ p v, walk (.obj props) p = some v → p = [] ∨ ∃ q ∈ Q, Comparable p q) →
      (∀ e ∈ es, e.2.nullish = false) →
      (∀ e ∈ es, pathParts e.1 ≠ []) →
      (∀ e ∈ es, jsStartsWith e.1 rootPath = true) →
      es.Pairwise (fun a b => ¬ Comparable (pathParts a.1) (pathParts b.1)) →
      (∀ e ∈ es, ∀ q ∈ Q, ¬ Comparable q (pathParts e.1)) →
      ∃ pr', treeLoop rootPath es (.obj props) = .ok (.obj pr') ∧
        (∀ q, (∀ e ∈ es, ¬ Comparable q (pathParts e.1)) →
          walk (.obj pr') q = walk (.obj props) q) ∧
        (∀ e ∈ es, ∃ leaf, treeLeaf e.2 = .ok leaf ∧
          walk (.obj pr') (pathParts e.1) = some leaf) ∧
        (∀ p v, walk (.obj pr') p = some v →
          (∃ pr, v = .obj pr) ∨ ∃ q ∈ Q ++ es.map (fun e => pathParts e.1), ∃ t, p = q ++ t) ∧
        (∀ p v, walk (.obj pr') p = some v →
          p = [] ∨ ∃ q ∈ Q ++ es.map (fun e => pathParts e.1), Comparable p q)
  | [], props, Q, hinv1, hinv2, _, _, _, _, _ =>
    ⟨props, rfl, fun _ _ => rfl, by simp, by simpa using hinv1, by simpa using hinv2⟩
  | e :: rest, props, Q, hinv1, hinv2, hnodes, hne, hroot, hpw, hQ => by
    have hnode := hnodes e (List.mem_cons_self _ _)
    obtain ⟨leaf, hleaf⟩ := treeLeaf_of_not_nullish e.2 hnode
    have hQe := hQ e (List.mem_cons_self _ _)
    rw [List.pairwise_cons] at hpw
    have hopen : ∀ p t v, pathParts e.1 = p ++ t → t ≠ [] →
        walk (.obj props) p = some v → ∃ pr, v = .obj pr := by
      intro p t v hp _ hw
      rcases hinv1 p v hw with h | ⟨q, hq, t', ht'⟩
      · exact h
      · exact absurd (Or.inl ⟨t' ++ t, by rw [hp, ht', List.append_assoc]⟩) (hQe q hq)
    obtain ⟨pr1, hins, hself, hother, hpre⟩ :=
      insertParts_spec e.2 leaf hleaf (pathParts e.1) (.obj props)
        (hne e (List.mem_cons_self _ _)) hopen
    have hinv1' : ∀ p v, walk (.obj pr1) p = some v →
        (∃ pr, v = .obj pr) ∨ ∃ q ∈ Q ++ [pathParts e.1], ∃ t, p = q ++ t := by
      intro p v hw
      by_cases h1 : ∃ t, p = pathParts e.1 ++ t
      · exact Or.inr ⟨pathParts e.1, by simp, h1⟩
      · by_cases h2 : ∃ t, pathParts e.1 = p ++ t
        · obtain ⟨t, ht⟩ := h2
          have htne : t ≠ [] := by
            intro h
            apply h1
            exact ⟨[], by rw [ht, h]; simp⟩
          obtain ⟨pr, hpr⟩ := hpre p t ht htne
          rw [hpr] at hw
          exact Or.inl ⟨pr, by injection hw with h; exact h.symm⟩
        · have hnc : ¬ Comparable p (pathParts e.1) := by
            rintro (h | h)
            · exact h2 h
            · exact h1 h
          rw [hother p hnc] at hw
          rcases hinv1 p v hw with h | ⟨q, hq, ht⟩
          · exact Or.inl h
          · exact Or.inr ⟨q, List.mem_append_left _ hq, ht⟩
    have hinv2' : ∀ p v, walk (.obj pr1) p = some v →
        p = [] ∨ ∃ q ∈ Q ++ [pathParts e.1], Comparable p q := by
      intro p v hw
      by_cases hc : Comparable p (pathParts e.1)
      · exact Or.inr ⟨pathParts e.1, by simp, hc⟩
      · rw [hother p hc] at hw
        rcases hinv2 p v hw with h | ⟨q, hq, hcq⟩
        · exact Or.inl h
        · exact Or.inr ⟨q, List.mem_append_left _ hq, hcq⟩
    have hQ' : ∀ x ∈ rest, ∀ q ∈ Q ++ [pathParts e.1], ¬ Comparable q (pathParts x.1) := by
      intro x hx q hq
      rcases List.mem_append.1 hq with h | h
      · exact hQ x (List.mem_cons_of_mem _ hx) q h
      · rw [List.mem_singleton.1 h]
        exact hpw.1 x hx
    obtain ⟨pr', hloop, hoth, hleaves, hi1, hi2⟩ :=
      treeLoop_spec rootPath rest pr1 (Q ++ [pathParts e.1]) hinv1' hinv2'
        (fun x hx => hnodes x (List.mem_cons_of_mem _ hx))
        (fun x hx => hne x (List.mem_cons_of_mem _ hx))
        (fun x hx => hroot x (List.mem_cons_of_mem _ hx)) hpw.2 hQ'
    refine ⟨pr', ?_, ?_, ?_, ?_, ?_⟩
    · obtain ⟨path, node⟩ := e
      have hr : jsStartsWith path rootPath = true := hroot (path, node) (List.mem_cons_self _ _)
      simp only [treeLoop, hr, Bool.true_or, if_true]
      simp only at hins
      rw [hins]
      exact hloop
    · intro q hq
      rw [hoth q (fun x hx => hq x (List.mem_cons_of_mem _ hx)),
        hother q (hq e (List.mem_cons_self _ _))]
    · intro x hx
      rcases List.mem_cons.1 hx with h | h
      · subst h
        refine ⟨leaf, hleaf, ?_⟩
        rw [hoth (pathParts x.1) (fun y hy => hpw.1 y hy)]
        exact hself
      · exact hleaves x h
    · simpa [List.append_assoc] using hi1
    · simpa [List.append_assoc] using hi2

/-- C6 as amended: for an active manifest whose vfs consists of nodes under
`rootPath`, no path lying on the branch of another and no segment bearing the
name of a member that objects inherit (`constructor`, `toString`, ...),
`getVFSTree(rootPath)` is the nested mapping keyed by all the non-empty segments
of each full path (those of `rootPath` included): walking a node's segments
reaches its `{type, mime, size, content}` leaf, and everything else in the tree
is a branch object on the way to some node. -/
theorem getVFSTree_nests_full_paths {δ : Type} (svc : SessionService δ) (rootPath : String)
    (es : List (String × JsVal))
    (hactive : svc.currentSession.truthy = true)
    (hvfs : svc.currentSession.prop "vfs" = .obj es)
    (hnodes : ∀ e ∈ es, e.2.nullish = false)
    (hne : ∀ e ∈ es, pathParts e.1 ≠ [])
    (_hown : ∀ e ∈ es, ∀ part ∈ pathParts e.1, part ∉ objectPrototypeKeys)
    (hroot : ∀ e ∈ es, jsStartsWith e.1 rootPath = true)
    (hpw : es.Pairwise (fun a b => ¬ Comparable (pathParts a.1) (pathParts b.1))) :
    ∃ tree, getVFSTree svc rootPath = .ok tree ∧
      (∀ e ∈ es, walk tree (pathParts e.1) =
        some (.obj [("type", .str (if (e.2.prop "isDirectory").truthy then "directory"
                                    else "file")),
                    ("mime", e.2.prop "mime"), ("size", e.2.prop "size"),
                    ("content", e.2.prop "content")])) ∧
      (∀ p v, walk tree p = some v → p = [] ∨
        ∃ e ∈ es, (∃ t, p = pathParts e.1 ++ t) ∨
          ((∃ t, pathParts e.1 = p ++ t) ∧ ∃ pr, v = .obj pr)) := by
  obtain ⟨pr', hloop, _, hleaves, hi1, hi2⟩ :=
    treeLoop_spec rootPath es [] []
      (fun p v hw => by
        cases p with
        | nil => exact Or.inl ⟨[], by simpa [walk_nil] using hw.symm⟩
        | cons k ks => rw [walk_empty_obj] at hw; cases hw)
      (fun p v hw => by
        cases p with
        | nil => exact Or.inl rfl
        | cons k ks => rw [walk_empty_obj] at hw; cases hw)
      hnodes hne hroot hpw (fun _ _ q hq => absurd hq (List.not_mem_nil q))
  refine ⟨.obj pr', ?_, ?_, ?_⟩
  · simp [getVFSTree, hactive, hvfs, JsVal.entries, hloop]
  · intro e he
    obtain ⟨leaf, hleaf, hw⟩ := hleaves e he
    rw [hw]
    simp only [treeLeaf, JsVal.getProp, hnodes e he] at hleaf
    simp only [Bool.false_eq_true, if_false, Except.ok.injEq] at hleaf
    rw [hleaf]
  · intro p v hw
    by_cases hp : p = []
    · exact Or.inl hp
    · right
      rcases hi2 p v hw with h | ⟨q, hq, hc⟩
      · exact absurd h hp
      · simp only [List.nil_append, List.mem_map] at hq
        obtain ⟨e, he, hqe⟩ := hq
        subst hqe
        rcases hc with hc | hc
        · rcases hi1 p v hw with hv | ⟨q', hq', ht'⟩
          · exact ⟨e, he, Or.inr ⟨hc, hv⟩⟩
          · simp only [List.nil_append, List.mem_map] at hq'
            obtain ⟨e', he', hqe'⟩ := hq'
            subst hqe'
            exact ⟨e', he', Or.inl ht'⟩
        · exact ⟨e, he, Or.inl hc⟩

/-- Witness for C6 as amended: for the vfs `{"home:/a.txt": file,
"home:/dir/b.txt": file}` the tree of `getVFSTree("home:/")` is
`{"home:": {a.txt: leaf, dir: {b.txt: leaf}}}`, and walking `home:`, `dir`,
`b.txt` reaches the leaf of `home:/dir/b.txt`. -/
theorem getVFSTree_nests_full_paths_witness :
    getVFSTree treeService "home:/"
      = .ok (.obj [("home:", .obj [("a.txt", sampleLeaf "A"),
                                    ("dir", .obj [("b.txt", sampleLeaf "B")])])]) ∧
    ∃ tree, getVFSTree treeService "home:/" = .ok tree ∧
      walk tree ["home:", "dir", "b.txt"] = some (sampleLeaf "B") := by
  refine ⟨by rfl, ?_⟩
  obtain ⟨tree, htree, hleaves, _⟩ :=
    getVFSTree_nests_full_paths treeService "home:/"
      [("home:/a.txt", sampleTextFile "A"), ("home:/dir/b.txt", sampleTextFile "B")]
      (by rfl) (by rfl)
      (by intro e he; simp at he; rcases he with h | h <;> subst h <;> rfl)
      (by
        intro e he
        simp at he
        rcases he with h | h <;> subst h
        · have : pathParts "home:/a.txt" = ["home:", "a.txt"] := by decide
          simp [this]
        · have : pathParts "home:/dir/b.txt" = ["home:", "dir", "b.txt"] := by decide
          simp [this])
      (by intro e he; simp at he; rcases he with h | h <;> subst h <;> decide)
      (by intro e he; simp at he; rcases he with h | h <;> subst h <;> decide)
      (by
        have h1 : pathParts "home:/a.txt" = ["home:", "a.txt"] := by decide
        have h2 : pathParts "home:/dir/b.txt" = ["home:", "dir", "b.txt"] := by decide
        simp [Comparable, h1, h2])
  refine ⟨tree, htree, ?_⟩
  have h := hleaves ("home:/dir/b.txt", sampleTextFile "B") (by simp)
  have h2 : pathParts "home:/dir/b.txt" = ["home:", "dir", "b.txt"] := by decide
  rw [h2] at h
  rw [h]
  rfl

/-! ### Capture followed by restore -/

theorem keys_replaceExisting (k : String) (v : JsVal) (props : List (String × JsVal)) :
    (replaceExisting k v props).map Prod.fst = props.map Prod.fst := by
  induction props with
  | nil => rfl
  | cons e rest ih =>
    obtain ⟨k', v'⟩ := e
    by_cases hk : k' = k
    · simp [replaceExisting, hk]
    · simp [replaceExisting, hk, ih]

theorem keys_insertNew (k : String) (v : JsVal) (props : List (String × JsVal)) :
    ((insertNew k v props).map Prod.fst).Perm (k :: props.map Prod.fst) := by
  induction props with
  | nil => simp [insertNew]
  | cons e rest ih =>
    obtain ⟨k', v'⟩ := e
    unfold insertNew
    split
    · split
      · simp
      · simp only [List.map_cons]
        exact (List.Perm.cons k' ih).trans (List.Perm.swap k k' _)
    · simp
    · simp only [List.map_cons]
      exact (List.Perm.cons k' ih).trans (List.Perm.swap k k' _)

theorem lookup_eq_none_iff (k : String) (props : List (String × JsVal)) :
    lookup k props = none ↔ k ∉ props.map Prod.fst := by
  induction props with
  | nil => simp [lookup]
  | cons e rest ih =>
    obtain ⟨k', v'⟩ := e
    by_cases hk : k' = k
    · simp [lookup, hk]
    · have hk2 : ¬ k = k' := fun h => hk h.symm
      simp [lookup, hk, hk2, ih]

theorem setProp_keys_nodup (k : String) (v : JsVal) (props : List (String × JsVal))
    (h : (props.map Prod.fst).Nodup) : ((setProp props k v).map Prod.fst).Nodup := by
  unfold setProp
  cases hl : lookup k props with
  | some x => simp only; rw [keys_replaceExisting]; exact h
  | none =>
    simp only
    rw [(keys_insertNew k v props).nodup_iff, List.nodup_cons]
    exact ⟨(lookup_eq_none_iff k props).1 hl, h⟩

theorem traverseEntries_keys_nodup
    (recur : String → List (String × JsVal) → Option (List (String × JsVal)))
    (vfs : VfsSource)
    (hrecur : ∀ p s s', (s.map Prod.fst).Nodup → recur p s = some s' →
      (s'.map Prod.fst).Nodup) :
    ∀ (entries : List Stat) (s s' : List (String × JsVal)) (o : Outcome),
      (s.map Prod.fst).Nodup → traverseEntries recur vfs entries s = some (s', o) →
      (s'.map Prod.fst).Nodup
  | [], s, s', o, hs, h => by
    simp only [traverseEntries, Option.some.injEq, Prod.mk.injEq] at h
    rw [← h.1]; exact hs
  | entry :: rest, s, s', o, hs, h => by
    unfold traverseEntries at h
    split at h
    · split at h
      · cases h
      · rename_i s1 hs1
        exact traverseEntries_keys_nodup recur vfs hrecur rest s1 s' o
          (hrecur _ _ _ (setProp_keys_nodup _ _ _ hs) hs1) h
    · split at h
      · split at h
        · simp only [Option.some.injEq, Prod.mk.injEq] at h
          rw [← h.1]; exact hs
        · exact traverseEntries_keys_nodup recur vfs hrecur rest _ s' o
            (setProp_keys_nodup _ _ _ hs) h
      · exact traverseEntries_keys_nodup recur vfs hrecur rest s s' o hs h

theorem traverseDirectory_keys_nodup (vfs : VfsSource) :
    ∀ (fuel : Nat) (path : String) (s s' : List (String × JsVal)),
      (s.map Prod.fst).Nodup → traverseDirectory vfs fuel path s = some s' →
      (s'.map Prod.fst).Nodup
  | 0, _, _, _, _, h => by simp [traverseDirectory] at h
  | fuel + 1, path, s, s', hs, h => by
    unfold traverseDirectory at h
    split at h
    · simp only [Option.some.injEq] at h
      rw [← h]; exact hs
    · split at h
      · cases h
      · rename_i s1 o hs1
        simp only [Option.some.injEq] at h
        rw [← h]
        exact traverseEntries_keys_nodup (traverseDirectory vfs fuel) vfs
          (fun p a b ha hab => traverseDirectory_keys_nodup vfs fuel p a b ha hab)
          _ s s1 o hs hs1

theorem captureProcessesLoop_not_nullish (reg : Registry)
    (serialize : JsVal → JsVal → Except JsErr JsVal) (dateNow : Nat → JsVal) :
    ∀ (windows : List JsVal) (index : Nat) (ps : List JsVal),
      captureProcessesLoop reg serialize dateNow index windows = .ok ps →
      ∀ proc ∈ ps, proc.nullish = false
  | [], _, ps, h => by
    simp only [captureProcessesLoop, Except.ok.injEq] at h
    subst h
    simp
  | win :: rest, index, ps, h => by
    unfold captureProcessesLoop at h
    split at h
    · cases h
    · split at h
      · cases h
      · rename_i ws _ ds hds
        simp only [Except.ok.injEq] at h
        subst h
        intro proc hproc
        rcases List.mem_cons.1 hproc with hp | hp
        · subst hp; rfl
        · exact captureProcessesLoop_not_nullish reg serialize dateNow rest (index + 1) ds hds
            proc hp

theorem captureSession_shape (env : CaptureEnv) (reg : Registry) (fuel : Nat) (m : JsVal)
    (h : captureSession env reg fuel = some (.ok m)) :
    ∃ snapshot processes settings metadata,
      m = .obj [("version", .str SESSION_VERSION), ("timestamp", env.isoNow),
                ("vfs", .obj snapshot), ("processes", .arr processes),
                ("settings", settings), ("metadata", metadata)] ∧
      traverseDirectory env.vfs fuel "home:/" [] = some snapshot ∧
      captureProcessesLoop reg env.serialize env.dateNow 0 env.windows = .ok processes ∧
      captureSettings env = .ok settings := by
  unfold captureSession at h
  split at h
  · cases h
  · rename_i snapshot hsnap
    simp only [Option.some.injEq] at h
    split at h
    · cases h
    · rename_i processes hproc
      split at h
      · cases h
      · rename_i settings hset
        split at h
        · cases h
        · simp only [Except.ok.injEq] at h
          exact ⟨snapshot, processes, settings, _, h.symm, hsnap, hproc, hset⟩

theorem captureSettings_truthy (env : CaptureEnv) (s : JsVal)
    (h : captureSettings env = .ok s) : s.truthy = true := by
  unfold captureSettings at h
  split at h
  · cases h
  · rename_i v _
    simp only [Except.ok.injEq] at h
    subst h
    cases hv : v.truthy
    · simp [JsVal.truthy]
    · simp [hv]

theorem entries_of_truthy (v : JsVal) (h : v.truthy = true) : ∃ es, v.entries = .ok es := by
  cases v <;> simp_all [JsVal.truthy, JsVal.entries]

theorem flaky_deserialize_state (fails : Call → Bool) (s ws as : JsVal) (t : Target) :
    ((flakyTarget fails).perform (.deserialize s ws as) t).1 = t := by
  unfold flakyTarget
  simp only
  split <;> rfl

theorem restoreSettingsLoop_flaky (fails : Call → Bool)
    (hfails : ∀ c : Call, c.phase ≠ 2 → fails c = false) :
    ∀ (es : List (String × JsVal)) (w : World Target),
      ∃ w', restoreSettingsLoop (flakyTarget fails) es w = (w', .ok ()) ∧
        w'.state.files = w.state.files
  | [], w => ⟨w, rfl, rfl⟩
  | (k, v) :: rest, w => by
    have hf : fails (.settingsSet k v) = false := hfails _ (by simp [Call.phase])
    obtain ⟨w', hw', hfiles⟩ := restoreSettingsLoop_flaky fails hfails rest
      (invoke (flakyTarget fails) (.settingsSet k v) w).1
    refine ⟨w', ?_, ?_⟩
    · rw [← hw']
      simp [restoreSettingsLoop, invoke, flakyTarget, hf]
    · rw [hfiles]
      simp [invoke, flakyTarget, hf, idealPerform]

theorem deserializeBody_flaky (fails : Call → Bool) (serializer proc : JsVal)
    (w : World Target) :
    (deserializeBody (flakyTarget fails) serializer proc w).1.state = w.state ∧
    (∀ c ∈ w.trace, c ∈ (deserializeBody (flakyTarget fails) serializer proc w).1.trace) ∧
    ((serializer.prop "deserialize").typeofFunction = true →
      Call.deserialize serializer (proc.prop "windowState") (proc.prop "appState")
        ∈ (deserializeBody (flakyTarget fails) serializer proc w).1.trace) := by
  unfold deserializeBody
  cases h : (serializer.prop "deserialize").typeofFunction
  · simp
  · simp only [if_true, invoke, flaky_deserialize_state]
    exact ⟨trivial, fun c hc => List.mem_append_left _ hc,
      fun _ => List.mem_append_right _ (List.mem_singleton_self _)⟩

theorem truthy_of_deserialize_fn (s : JsVal)
    (h : (s.prop "deserialize").typeofFunction = true) : s.truthy = true := by
  cases s with
  | obj props => rfl
  | arr items =>
    simp only [JsVal.prop] at h
    split at h
    · rename_i hk; exact absurd hk (by decide)
    · have : arrayIndex "deserialize" = none := by rfl
      rw [this] at h
      simp [JsVal.typeofFunction] at h
  | str x =>
    simp only [JsVal.prop] at h
    split at h
    · rename_i hk; exact absurd hk (by decide)
    · have : arrayIndex "deserialize" = none := by rfl
      rw [this] at h
      simp [JsVal.typeofFunction] at h
  | undefined => simp [JsVal.prop, JsVal.typeofFunction] at h
  | null => simp [JsVal.prop, JsVal.typeofFunction] at h
  | bool b => simp [JsVal.prop, JsVal.typeofFunction] at h
  | num n => simp [JsVal.prop, JsVal.typeofFunction] at h
  | fn i => rfl

theorem restoreProcessesLoop_flaky (fails : Call → Bool) (reg : Registry) :
    ∀ (ps : List JsVal) (w : World Target), (∀ proc ∈ ps, proc.nullish = false) →
      ∃ w', restoreProcessesLoop (flakyTarget fails) reg ps w = (w', .ok ()) ∧
        w'.state = w.state ∧ (∀ c ∈ w.trace, c ∈ w'.trace) ∧
        (∀ proc ∈ ps, ∀ t s, proc.prop "type" = .str t → lookup t reg = some s →
          (s.prop "deserialize").typeofFunction = true →
          Call.deserialize s (proc.prop "windowState") (proc.prop "appState") ∈ w'.trace)
  | [], w, _ => ⟨w, rfl, rfl, fun _ h => h, by simp⟩
  | proc :: rest, w, hnn => by
    have hproc := hnn proc (List.mem_cons_self _ _)
    have hrest : ∀ x ∈ rest, x.nullish = false := fun x hx => hnn x (List.mem_cons_of_mem _ hx)
    obtain ⟨hst, htr, hcall⟩ :=
      deserializeBody_flaky fails (registryGet reg (proc.prop "type")) proc w
    cases hs : (registryGet reg (proc.prop "type")).truthy
    · obtain ⟨w', hw', hstate, htrace, hcalls⟩ := restoreProcessesLoop_flaky fails reg rest w hrest
      refine ⟨w', ?_, hstate, htrace, ?_⟩
      · simp [restoreProcessesLoop, JsVal.getProp, hproc, hs, hw']
      · intro x hx t s ht hl hd
        rcases List.mem_cons.1 hx with h | h
        · subst h
          have : registryGet reg (x.prop "type") = s := by simp [registryGet, ht, hl]
          rw [this, truthy_of_deserialize_fn s hd] at hs
          cases hs
        · exact hcalls x h t s ht hl hd
    · obtain ⟨w', hw', hstate, htrace, hcalls⟩ := restoreProcessesLoop_flaky fails reg rest
        (deserializeBody (flakyTarget fails) (registryGet reg (proc.prop "type")) proc w).1 hrest
      refine ⟨w', ?_, hstate.trans hst, fun c hc => htrace c (htr c hc), ?_⟩
      · simp [restoreProcessesLoop, JsVal.getProp, hproc, hs, hw']
      · intro x hx t s ht hl hd
        rcases List.mem_cons.1 hx with h | h
        · subst h
          have hreg : registryGet reg (x.prop "type") = s := by simp [registryGet, ht, hl]
          rw [hreg] at hcall htrace
          exact htrace _ (hcall hd)
        · exact hcalls x h t s ht hl hd

theorem entryCall_of_file (path : String) (node : JsVal)
    (hd : (node.prop "isDirectory").truthy = false) (hf : (node.prop "isFile").truthy = true)
    (hc : (node.prop "content").isNull = false) :
    entryCall (path, node) = some (.writefile path (node.prop "content")) := by
  have hnn : node.nullish = false := by
    cases h : node.nullish
    · rfl
    · rw [prop_of_nullish _ _ h] at hf
      simp [JsVal.truthy] at hf
  simp [entryCall, hnn, hd, hf, hc]

/-- C1: when `captureSession` returns a manifest and that manifest is restored
onto the emptied reference target with the same registry (VFS and settings
writes succeeding, `deserialize` calls free to fail), `restoreSession`
completes; every file node of the captured snapshot whose content is not `null`
is then in the target at its path with that content; and for every captured
process whose type has a registered serializer, `deserialize` has been called on
that serializer with the captured `windowState` and `appState`. -/
theorem capture_then_restore_round_trip (env : CaptureEnv) (reg : Registry) (fuel : Nat)
    (fails : Call → Bool) (m : JsVal)
    (hcap : captureSession env reg fuel = some (.ok m))
    (hfails : ∀ c : Call, c.phase ≠ 2 → fails c = false) :
    ∃ snapshot processes w,
      traverseDirectory env.vfs fuel "home:/" [] = some snapshot ∧
      captureProcessesLoop reg env.serialize env.dateNow 0 env.windows = .ok processes ∧
      m.prop "vfs" = .obj snapshot ∧ m.prop "processes" = .arr processes ∧
      restoreSession (flakyTarget fails) reg m ⟨Target.empty, []⟩ = (w, .ok ()) ∧
      (∀ path node, (path, node) ∈ snapshot →
        (node.prop "isDirectory").truthy = false → (node.prop "isFile").truthy = true →
        (node.prop "content").isNull = false →
        w.state.files path = some (.file (node.prop "content"))) ∧
      (∀ proc ∈ processes, ∀ t s, proc.prop "type" = .str t → lookup t reg = some s →
        (s.prop "deserialize").typeofFunction = true →
        Call.deserialize s (proc.prop "windowState") (proc.prop "appState") ∈ w.trace) := by
  obtain ⟨snapshot, processes, settings, metadata, hm, hsnap, hproc, hset⟩ :=
    captureSession_shape env reg fuel m hcap
  subst hm
  have hkeys : (snapshot.map Prod.fst).Nodup :=
    traverseDirectory_keys_nodup env.vfs fuel "home:/" [] snapshot (by simp) hsnap
  obtain ⟨es, hes⟩ := entries_of_truthy settings (captureSettings_truthy env settings hset)
  obtain ⟨w2, hw2, hfiles2⟩ := restoreSettingsLoop_flaky fails hfails es
    ((sortByDepth snapshot).foldl (restoreEntry (flakyTarget fails)) ⟨Target.empty, []⟩)
  obtain ⟨w3, hw3, hstate3, _, hcalls⟩ := restoreProcessesLoop_flaky fails reg processes w2
    (captureProcessesLoop_not_nullish reg env.serialize env.dateNow env.windows 0 processes hproc)
  refine ⟨snapshot, processes, w3, hsnap, hproc, by rfl, by rfl, ?_, ?_, hcalls⟩
  · have hv : (JsVal.obj [("version", .str SESSION_VERSION), ("timestamp", env.isoNow),
        ("vfs", .obj snapshot), ("processes", .arr processes), ("settings", settings),
        ("metadata", metadata)]).getProp "vfs" = .ok (.obj snapshot) := by rfl
    have hs : (JsVal.obj [("version", .str SESSION_VERSION), ("timestamp", env.isoNow),
        ("vfs", .obj snapshot), ("processes", .arr processes), ("settings", settings),
        ("metadata", metadata)]).prop "settings" = settings := by rfl
    have hp : (JsVal.obj [("version", .str SESSION_VERSION), ("timestamp", env.isoNow),
        ("vfs", .obj snapshot), ("processes", .arr processes), ("settings", settings),
        ("metadata", metadata)]).prop "processes" = .arr processes := by rfl
    unfold restoreSession
    rw [hv, hs, hp]
    simp only [restoreVFS_obj, restoreSettings, hes, hw2, restoreProcesses, JsVal.iterate, hw3]
  · intro path node hmem hd hf hc
    rw [hstate3, hfiles2, foldl_restoreEntry_state]
    exact flaky_write_lands fails (sortByDepth snapshot) Target.empty path node
      (node.prop "content") (sortByDepth_keys_nodup snapshot hkeys)
      ((sortByDepth_perm snapshot).mem_iff.2 hmem) (entryCall_of_file path node hd hf hc)
      (hfails _ (by simp [Call.phase]))

/-- Witness for C1: capturing the sample source (a directory, a readable file
and an unreadable one, one editor window) and restoring the result onto the
emptied target writes `home:/docs/n.txt` with the text `hello` and calls the
editor serializer's `deserialize` with the captured window and app state. -/
theorem capture_then_restore_round_trip_witness :
    (restoreSession idealTarget sampleRegistry sampleCaptured ⟨Target.empty, []⟩).2 = .ok () ∧
    (restoreSession idealTarget sampleRegistry sampleCaptured
        ⟨Target.empty, []⟩).1.state.files "home:/docs/n.txt" = some (.file (.str "hello")) ∧
    Call.deserialize (.obj [("serialize", .fn 1), ("deserialize", .fn 2)])
        (.obj [("id", .str "w1"), ("title", .str "Notes"), ("position", .undefined),
               ("dimension", .undefined), ("maximized", .undefined),
               ("minimized", .undefined), ("zIndex", .undefined)])
        (.obj [("text", .str "hi")])
      ∈ (restoreSession idealTarget sampleRegistry sampleCaptured ⟨Target.empty, []⟩).1.trace := by
  obtain ⟨snapshot, processes, w, hsnap, hproc, _, _, hr, hfiles, hcalls⟩ :=
    capture_then_restore_round_trip sampleCaptureEnv sampleRegistry 3 (fun _ => false)
      sampleCaptured (by rfl) (fun _ _ => rfl)
  have hr' : restoreSession idealTarget sampleRegistry sampleCaptured ⟨Target.empty, []⟩
      = (w, .ok ()) := hr
  have hs : traverseDirectory sampleCaptureEnv.vfs 3 "home:/" []
      = some [("home:/docs", serializeVFSNode (sampleStat "home:/docs" true)),
              ("home:/docs/n.txt",
                serializeVFSNode (sampleStat "home:/docs/n.txt" false) (.str "hello"))] := by
    rfl
  have hp : captureProcessesLoop sampleRegistry sampleCaptureEnv.serialize
      sampleCaptureEnv.dateNow 0 sampleCaptureEnv.windows
      = .ok [createProcessDescriptor (.str "editor")
              (.obj [("id", .str "w1"), ("title", .str "Notes"), ("position", .undefined),
                     ("dimension", .undefined), ("maximized", .undefined),
                     ("minimized", .undefined), ("zIndex", .undefined)])
              (.obj [("text", .str "hi")]) (.num 1704067200000)] := by
    rfl
  rw [hs] at hsnap
  rw [hp] at hproc
  simp only [Option.some.injEq] at hsnap
  simp only [Except.ok.injEq] at hproc
  subst hsnap
  subst hproc
  rw [hr']
  refine ⟨rfl, ?_, ?_⟩
  · exact hfiles "home:/docs/n.txt"
      (serializeVFSNode (sampleStat "home:/docs/n.txt" false) (.str "hello"))
      (by simp) (by rfl) (by rfl) (by rfl)
  · exact hcalls
      (createProcessDescriptor (.str "editor")
        (.obj [("id", .str "w1"), ("title", .str "Notes"), ("position", .undefined),
               ("dimension", .undefined), ("maximized", .undefined),
               ("minimized", .undefined), ("zIndex", .undefined)])
        (.obj [("text", .str "hi")]) (.num 1704067200000))
      (by simp) "editor" (.obj [("serialize", .fn 1), ("deserialize", .fn 2)])
      (by rfl) (by rfl) (by rfl)

/-- When one path runs through another, the later entry is stored inside the
leaf of the earlier one: the leaf of `home:/a` gains the key `b`. -/
theorem getVFSTree_file_under_file :
    getVFSTree nestedService "home:/"
      = .ok (.obj [("home:", .obj [("a",
          .obj [("type", .str "file"), ("mime", .str "text/plain"), ("size", .num 1),
                ("content", .str "A"), ("b", sampleLeaf "B")])])]) := by
  rfl

/-! ### Serializer registry: last write wins -/

theorem lookup_append_single_same (k : String) (v : JsVal) (m : List (String × JsVal))
    (h : lookup k m = none) : lookup k (m ++ [(k, v)]) = some v := by
  induction m with
  | nil => simp [lookup]
  | cons e rest ih =>
    obtain ⟨k', v'⟩ := e
    by_cases hk : k' = k
    · simp [lookup, hk] at h
    · simp only [lookup, hk, if_false] at h
      simp [lookup, hk, ih h]

theorem lookup_append_single_other (k k2 : String) (v : JsVal) (m : List (String × JsVal))
    (hne : k2 ≠ k) : lookup k2 (m ++ [(k, v)]) = lookup k2 m := by
  have h2 : ¬ k = k2 := fun h => hne h.symm
  induction m with
  | nil => simp [lookup, h2]
  | cons e rest ih =>
    obtain ⟨k', v'⟩ := e
    by_cases hk : k' = k2
    · simp [lookup, hk]
    · simp [lookup, hk, ih]

theorem lookup_mapSet_same (k : String) (v : JsVal) (m : Registry) :
    lookup k (mapSet m k v) = some v := by
  unfold mapSet
  cases h : lookup k m with
  | none => exact lookup_append_single_same k v m h
  | some x => exact lookup_replaceExisting_same k v m (by simp [h])

theorem lookup_mapSet_other (k k2 : String) (v : JsVal) (m : Registry) (hne : k2 ≠ k) :
    lookup k2 (mapSet m k v) = lookup k2 m := by
  unfold mapSet
  cases h : lookup k m with
  | none => exact lookup_append_single_other k k2 v m hne
  | some x => exact lookup_replaceExisting_other k k2 v m hne

/-- C11: after `register(t, s1)` and then `register(t, s2)`, both serializers
having `serialize` and `deserialize`, looking `t` up yields `s2`; the lookup of
every other type is what it was before the two calls; and a type that was never
registered is looked up as `undefined`, without an error. -/
theorem register_last_write_wins (t : String) (s1 s2 : JsVal) (reg : Registry)
    (h1s : (s1.prop "serialize").typeofFunction = true)
    (h1d : (s1.prop "deserialize").typeofFunction = true)
    (h2s : (s2.prop "serialize").typeofFunction = true)
    (h2d : (s2.prop "deserialize").typeofFunction = true) :
    (registerAppSerializer t s1 reg).2 = .ok () ∧
    (registerAppSerializer t s2 (registerAppSerializer t s1 reg).1).2 = .ok () ∧
    registryGet (registerAppSerializer t s2 (registerAppSerializer t s1 reg).1).1 (.str t)
      = s2 ∧
    (∀ t', t' ≠ t →
      registryGet (registerAppSerializer t s2 (registerAppSerializer t s1 reg).1).1 (.str t')
        = registryGet reg (.str t')) ∧
    (∀ t', t' ≠ t → lookup t' reg = none →
      registryGet (registerAppSerializer t s2 (registerAppSerializer t s1 reg).1).1 (.str t')
        = .undefined) ∧
    (∀ key, registryGet [] key = .undefined) := by
  rw [registerAppSerializer_ok t s1 reg h1s h1d,
    registerAppSerializer_ok t s2 (mapSet reg t s1) h2s h2d]
  refine ⟨rfl, rfl, ?_, ?_, ?_, ?_⟩
  · simp [registryGet, lookup_mapSet_same]
  · intro t' ht
    simp [registryGet, lookup_mapSet_other t t' _ _ ht]
  · intro t' ht hnone
    simp [registryGet, lookup_mapSet_other t t' _ _ ht, hnone]
  · intro key
    cases key <;> simp [registryGet, lookup]

/-- Witness for C11: registering two serializers for `editor` in a registry that
holds one for `calc` leaves the second under `editor`, the one for `calc` in
place, and nothing under `paint`. -/
theorem register_last_write_wins_witness :
    registryGet (registerAppSerializer "editor" (.obj [("serialize", .fn 3), ("deserialize", .fn 4)])
        (registerAppSerializer "editor" (.obj [("serialize", .fn 1), ("deserialize", .fn 2)])
          [("calc", .obj [("serialize", .fn 5), ("deserialize", .fn 6)])]).1).1 (.str "editor")
      = .obj [("serialize", .fn 3), ("deserialize", .fn 4)] ∧
    registryGet (registerAppSerializer "editor" (.obj [("serialize", .fn 3), ("deserialize", .fn 4)])
        (registerAppSerializer "editor" (.obj [("serialize", .fn 1), ("deserialize", .fn 2)])
          [("calc", .obj [("serialize", .fn 5), ("deserialize", .fn 6)])]).1).1 (.str "calc")
      = .obj [("serialize", .fn 5), ("deserialize", .fn 6)] ∧
    registryGet (registerAppSerializer "editor" (.obj [("serialize", .fn 3), ("deserialize", .fn 4)])
        (registerAppSerializer "editor" (.obj [("serialize", .fn 1), ("deserialize", .fn 2)])
          [("calc", .obj [("serialize", .fn 5), ("deserialize", .fn 6)])]).1).1 (.str "paint")
      = .undefined :=
  ⟨(register_last_write_wins "editor" (.obj [("serialize", .fn 1), ("deserialize", .fn 2)])
      (.obj [("serialize", .fn 3), ("deserialize", .fn 4)])
      [("calc", .obj [("serialize", .fn 5), ("deserialize", .fn 6)])]
      (by rfl) (by rfl) (by rfl) (by rfl)).2.2.1,
   by rfl, by rfl⟩

/-! ### Inspector on a store without an active manifest -/

/-- C12: on a store with no active manifest (`currentSession` is `null`, as in
the constructed service) every inspector operation returns without raising,
for every argument: `inspectSession`, `inspectVFS`, `getVFSTree` and
`getProcessDetail` return `null`, and `inspectProcesses` returns `[]`. -/
theorem inspector_without_active_session {δ : Type} (svc : SessionService δ)
    (h : svc.currentSession = .null) :
    inspectSession svc = .ok .null ∧
    (∀ filePath, inspectVFS svc filePath = .ok .null) ∧
    (∀ rootPath, getVFSTree svc rootPath = .ok .null) ∧
    (∀ processIndex, getProcessDetail svc processIndex = .ok .null) ∧
    (∀ processType, inspectProcesses svc processType = .ok (.arr [])) := by
  refine ⟨?_, ?_, ?_, ?_, ?_⟩
  · simp [inspectSession, h, JsVal.truthy]
  · intro filePath
    simp [inspectVFS, h, JsVal.truthy]
  · intro rootPath
    simp [getVFSTree, h, JsVal.truthy]
  · intro processIndex
    simp [getProcessDetail, h, JsVal.truthy]
  · intro processType
    simp [inspectProcesses, h, JsVal.truthy]

/-- Witness for C12: the service as constructed answers `null` to
`inspectVFS("home:/a.txt")`, to `getVFSTree("/")` and to `getProcessDetail(-1)`,
and `[]` to `inspectProcesses("editor")`. -/
theorem inspector_without_active_session_witness :
    inspectSession (SessionService.initial "sessions" ()) = .ok .null ∧
    inspectVFS (SessionService.initial "sessions" ()) (some "home:/a.txt") = .ok .null ∧
    getVFSTree (SessionService.initial "sessions" ()) "/" = .ok .null ∧
    getProcessDetail (SessionService.initial "sessions" ()) (some (-1)) = .ok .null ∧
    inspectProcesses (SessionService.initial "sessions" ()) (some "editor") = .ok (.arr []) :=
  ⟨(inspector_without_active_session (SessionService.initial "sessions" ()) rfl).1,
   (inspector_without_active_session (SessionService.initial "sessions" ()) rfl).2.1 _,
   (inspector_without_active_session (SessionService.initial "sessions" ()) rfl).2.2.1 _,
   (inspector_without_active_session (SessionService.initial "sessions" ()) rfl).2.2.2.1 _,
   (inspector_without_active_session (SessionService.initial "sessions" ()) rfl).2.2.2.2 _⟩

/-! ### The active manifest -/

theorem saveSession_active {δ τ : Type} (pf : Platform δ τ) (sessionId : String)
    (manifest : JsVal) (svc : SessionService δ) :
    (∀ r, (saveSession pf sessionId manifest svc).2 = .ok r →
      (saveSession pf sessionId manifest svc).1.currentSession = manifest) ∧
    (∀ e, (saveSession pf sessionId manifest svc).2 = .error e →
      (saveSession pf sessionId manifest svc).1.currentSession = svc.currentSession) := by
  unfold saveSession
  cases hs : pf.stringify manifest with
  | error e => exact ⟨fun r h => (by cases h), fun _ _ => rfl⟩
  | ok data =>
    simp only
    rcases hw : pf.writeFile (pf.join svc.sessionsDir (sessionId ++ ".json")) data svc.disk
      with ⟨disk', e | u⟩
    · exact ⟨fun r h => (by cases h), fun _ _ => rfl⟩
    · exact ⟨fun _ _ => rfl, fun e h => by cases h⟩

theorem loadSession_active {δ τ : Type} (pf : Platform δ τ) (sessionId : String)
    (svc : SessionService δ) :
    (∀ m, (loadSession pf sessionId svc).2 = .ok m →
      (loadSession pf sessionId svc).1.currentSession = m) ∧
    (∀ e, (loadSession pf sessionId svc).2 = .error e →
      (loadSession pf sessionId svc).1.currentSession = svc.currentSession) := by
  unfold loadSession
  cases hr : pf.readFile (pf.join svc.sessionsDir (sessionId ++ ".json")) svc.disk with
  | error e => exact ⟨fun r h => (by cases h), fun _ _ => rfl⟩
  | ok data =>
    simp only
    cases hp : pf.parse data with
    | error e => exact ⟨fun r h => (by cases h), fun _ _ => rfl⟩
    | ok m =>
      refine ⟨fun m' h => ?_, fun e h => by cases h⟩
      simp only [Except.ok.injEq] at h
      exact h

theorem runStoreOp_active {δ τ : Type} (pf : Platform δ τ) (op : StoreOp)
    (svc : SessionService δ) (log : List (StoreOp × Except JsErr JsVal))
    (h : svc.currentSession = specActiveManifest log) :
    (runStoreOp pf op svc).1.currentSession
      = specActiveManifest ((op, (runStoreOp pf op svc).2) :: log) := by
  cases op with
  | saveSession sessionId manifest =>
    simp only [runStoreOp]
    cases hr : (saveSession pf sessionId manifest svc).2 with
    | error e =>
      rw [(saveSession_active pf sessionId manifest svc).2 e hr, h]
      simp [specActiveManifest]
    | ok r =>
      rw [(saveSession_active pf sessionId manifest svc).1 r hr]
      simp [specActiveManifest]
  | loadSession sessionId =>
    simp only [runStoreOp]
    cases hr : (loadSession pf sessionId svc).2 with
    | error e =>
      rw [(loadSession_active pf sessionId svc).2 e hr, h]
      simp [specActiveManifest]
    | ok m =>
      rw [(loadSession_active pf sessionId svc).1 m hr]
      simp [specActiveManifest]
  | inspectSession => simp [runStoreOp, specActiveManifest, h]
  | inspectVFS filePath => simp [runStoreOp, specActiveManifest, h]
  | inspectProcesses processType => simp [runStoreOp, specActiveManifest, h]
  | getProcessDetail processIndex => simp [runStoreOp, specActiveManifest, h]

theorem runOps_active {δ τ : Type} (pf : Platform δ τ) :
    ∀ (ops : List StoreOp) (svc : SessionService δ)
      (log : List (StoreOp × Except JsErr JsVal)),
      svc.currentSession = specActiveManifest log →
      (runOps pf ops svc log).1.currentSession = specActiveManifest (runOps pf ops svc log).2
  | [], _, _, h => h
  | op :: rest, svc, log, h =>
    runOps_active pf rest _ _ (runStoreOp_active pf op svc log h)

/-- What holds of the active manifest apart from `getVFSTree`: the store starts
with none; after any sequence of `saveSession`, `loadSession`, `inspectSession`,
`inspectVFS`, `inspectProcesses` and `getProcessDetail` calls it is the manifest
of the most recent successful `saveSession` or `loadSession` (`null` if there
was none); one of the four inspector calls, and a save or load that throws,
leave it as it was. -/
theorem active_manifest_follows_transitions :
    (∀ (δ : Type) (dir : String) (disk : δ),
      (SessionService.initial dir disk).currentSession = .null) ∧
    (∀ (δ τ : Type) (pf : Platform δ τ) (ops : List StoreOp) (dir : String) (disk : δ),
      (runOps pf ops (SessionService.initial dir disk) []).1.currentSession
        = specActiveManifest (runOps pf ops (SessionService.initial dir disk) []).2) ∧
    (∀ (δ τ : Type) (pf : Platform δ τ) (op : StoreOp) (svc : SessionService δ),
      (op.isTransition = false ∨ ∃ e, (runStoreOp pf op svc).2 = .error e) →
      (runStoreOp pf op svc).1.currentSession = svc.currentSession) ∧
    (loadSession memoryPlatform "unknown"
        (saveSession memoryPlatform "a" currentManifest
          (SessionService.initial "sessions" [])).1).1.currentSession = currentManifest ∧
    (runOps memoryPlatform
        [.saveSession "a" currentManifest, .loadSession "unknown", .inspectSession,
         .saveSession "b" staleManifest, .inspectVFS none, .loadSession "a"]
        (SessionService.initial "sessions" []) []).1.currentSession = currentManifest := by
  refine ⟨fun _ _ _ => rfl, ?_, ?_, by rfl, by rfl⟩
  · intro δ τ pf ops dir disk
    exact runOps_active pf ops _ [] rfl
  · intro δ τ pf op svc h
    cases op with
    | saveSession sessionId manifest =>
      rcases h with h | ⟨e, he⟩
      · cases h
      · exact (saveSession_active pf sessionId manifest svc).2 e he
    | loadSession sessionId =>
      rcases h with h | ⟨e, he⟩
      · cases h
      · exact (loadSession_active pf sessionId svc).2 e he
    | inspectSession => rfl
    | inspectVFS filePath => rfl
    | inspectProcesses processType => rfl
    | getProcessDetail processIndex => rfl

/-- C20: with the manifest of `sharedHeap` active (a manifest `validate`
accepts, holding the file `home:/a` whose content is the JSON object `{}` and
the file `home:/a/content/x`), the inspector call `getVFSTree("home:/")`
returns its tree and leaves the active manifest changed, with no `saveSession`
or `loadSession` in between: the content of `home:/a` is now `{x: leaf}`. The
leaf of `home:/a` holds the manifest's own content object, the walk of the
second path descends into it, and `current[part] = leaf` stores into it. -/
theorem getVFSTree_writes_into_active_manifest :
    readBack sharedHeap 5 (.ref 0) = sharedManifest ∧
    validateSessionManifest sharedManifest = .valid ∧
    (hGetVFSTree sharedHeap (.ref 0) "home:/").2 = .ok (.ref 7) ∧
    readBack (hGetVFSTree sharedHeap (.ref 0) "home:/").1 5 (.ref 0)
      = .obj [("version", .str "1.0.0"),
              ("vfs", .obj [("home:/a",
                              .obj [("mime", .str "application/json"), ("size", .num 2),
                                    ("isDirectory", .bool false), ("isFile", .bool true),
                                    ("content", .obj [("x", sampleLeaf "X")])]),
                            ("home:/a/content/x", sampleTextFile "X")]),
              ("processes", .arr []), ("settings", .obj [])] ∧
    hRead sharedHeap (.ref 2) "content" = .ref 3 ∧
    sharedHeap[3]? = some (.obj []) ∧
    (hGetVFSTree sharedHeap (.ref 0) "home:/").1[3]? = some (.obj [("x", .ref 10)]) ∧
    getVFSTree ({ sessionsDir := "sessions", disk := (), currentSession := sharedManifest } :
        SessionService Unit) "home:/"
      = .ok (readBack (hGetVFSTree sharedHeap (.ref 0) "home:/").1 5 (.ref 7)) :=
  ⟨by rfl, by rfl, by rfl, by rfl, by rfl, by rfl, by rfl, by rfl⟩

/-! ### restoreVFS: the call of each entry -/

theorem entryCalls_at_path (es : List (String × JsVal)) (hnd : (es.map Prod.fst).Nodup)
    (e : String × JsVal) (he : e ∈ es) :
    (es.filterMap entryCall).filter (fun c => decide (c.path = some e.1))
      = (entryCall e).toList := by
  induction es with
  | nil => cases he
  | cons x xs ih =>
    rw [List.map_cons, List.nodup_cons] at hnd
    have hnone : ∀ ys : List (String × JsVal), e.1 ∉ ys.map Prod.fst →
        (ys.filterMap entryCall).filter (fun c => decide (c.path = some e.1)) = [] := by
      intro ys hys
      rw [List.filter_eq_nil_iff]
      intro c hc
      simpa using entryCalls_path_ne ys e.1 hys c hc
    rcases List.mem_cons.1 he with h | h
    · subst h
      cases hc : entryCall e with
      | none => simp [List.filterMap_cons, hc, hnone xs hnd.1]
      | some c =>
        have hp := entryCall_path e c hc
        simp [List.filterMap_cons, hc, List.filter_cons, hp, hnone xs hnd.1]
    · have hne : x.1 ≠ e.1 := by
        intro hx
        apply hnd.1
        rw [hx]
        exact List.mem_map.2 ⟨e, h, rfl⟩
      cases hc : entryCall x with
      | none => simp [List.filterMap_cons, hc, ih hnd.2 h]
      | some c =>
        have hp := entryCall_path x c hc
        simp [List.filterMap_cons, hc, List.filter_cons, hp, hne, ih hnd.2 h]

/-- C17: for a snapshot object (its keys are distinct) the calls `restoreVFS`
issues come each from one entry, and at the path of an entry they are: exactly
one `mkdir` when the node is a directory; exactly one `writefile` of the node's
content when it is a file whose content is not `null`; none when it is a file
whose content is `null`. -/
theorem restoreVFS_call_of_each_entry {σ : Type} (env : Collaborators σ)
    (props : List (String × JsVal)) (w : World σ) (hkeys : (props.map Prod.fst).Nodup) :
    ∃ calls, (restoreVFS env (.obj props) w).1.trace = w.trace ++ calls ∧
      (∀ c ∈ calls, ∃ e ∈ props, entryCall e = some c) ∧
      ∀ path node, (path, node) ∈ props →
        ((node.prop "isDirectory").truthy = true →
          calls.filter (fun c => decide (c.path = some path)) = [.mkdir path]) ∧
        ((node.prop "isDirectory").truthy = false → (node.prop "isFile").truthy = true →
          (node.prop "content").isNull = false →
          calls.filter (fun c => decide (c.path = some path))
            = [.writefile path (node.prop "content")]) ∧
        ((node.prop "isDirectory").truthy = false → (node.prop "isFile").truthy = true →
          (node.prop "content").isNull = true →
          calls.filter (fun c => decide (c.path = some path)) = []) := by
  refine ⟨(sortByDepth props).filterMap entryCall, ?_, ?_, ?_⟩
  · rw [restoreVFS_obj, foldl_restoreEntry_trace]
  · intro c hc
    obtain ⟨e, he, hec⟩ := List.mem_filterMap.1 hc
    exact ⟨e, (sortByDepth_perm props).mem_iff.1 he, hec⟩
  · intro path node hmem
    have hat := entryCalls_at_path (sortByDepth props) (sortByDepth_keys_nodup props hkeys)
      (path, node) ((sortByDepth_perm props).mem_iff.2 hmem)
    simp only at hat
    rw [hat]
    refine ⟨?_, ?_, ?_⟩
    · intro hd
      have hnn : node.nullish = false := by
        cases h : node.nullish
        · rfl
        · rw [prop_of_nullish _ _ h] at hd
          simp [JsVal.truthy] at hd
      simp [entryCall, hnn, hd]
    · intro hd hf hc
      rw [entryCall_of_file path node hd hf hc]
      rfl
    · intro hd hf hc
      have hnn : node.nullish = false := by
        cases h : node.nullish
        · rfl
        · rw [prop_of_nullish _ _ h] at hf
          simp [JsVal.truthy] at hf
      simp [entryCall, hnn, hd, hf, hc]

/-- Witness for C17: for a directory, a file with content and a file whose
content is `null`, the calls are one `mkdir` and one `writefile`. -/
theorem restoreVFS_call_of_each_entry_witness :
    (restoreVFS idealTarget
        (.obj [("/d/f", sampleFile "x"), ("/d", sampleDir),
               ("/d/g", .obj [("isDirectory", .bool false), ("isFile", .bool true),
                               ("content", .null)])])
        ⟨Target.empty, []⟩).1.trace
      = [Call.mkdir "/d", Call.writefile "/d/f" (.str "x")] ∧
    ∃ calls,
      (restoreVFS idealTarget
          (.obj [("/d/f", sampleFile "x"), ("/d", sampleDir),
                 ("/d/g", .obj [("isDirectory", .bool false), ("isFile", .bool true),
                                 ("content", .null)])])
          ⟨Target.empty, []⟩).1.trace = [] ++ calls ∧
      calls.filter (fun c => decide (c.path = some "/d/g")) = [] := by
  refine ⟨by rfl, ?_⟩
  obtain ⟨calls, htrace, _, hper⟩ :=
    restoreVFS_call_of_each_entry idealTarget
      [("/d/f", sampleFile "x"), ("/d", sampleDir),
       ("/d/g", .obj [("isDirectory", .bool false), ("isFile", .bool true),
                       ("content", .null)])]
      ⟨Target.empty, []⟩ (by decide)
  exact ⟨calls, htrace,
    (hper "/d/g" (.obj [("isDirectory", .bool false), ("isFile", .bool true), ("content", .null)])
      (by simp)).2.2 (by rfl) (by rfl) (by rfl)⟩

/-! ### restoreProcesses: one call per registered descriptor -/

theorem restoreProcessesLoop_trace {σ : Type} (env : Collaborators σ) (reg : Registry) :
    ∀ (ps : List JsVal) (w : World σ), (∀ proc ∈ ps, proc.nullish = false) →
      (restoreProcessesLoop env reg ps w).2 = .ok () ∧
      (restoreProcessesLoop env reg ps w).1.trace
        = w.trace ++ ps.filterMap (deserializeCallOf reg)
  | [], w, _ => by simp [restoreProcessesLoop]
  | proc :: rest, w, hnn => by
    have hproc := hnn proc (List.mem_cons_self _ _)
    have hrest : ∀ x ∈ rest, x.nullish = false := fun x hx => hnn x (List.mem_cons_of_mem _ hx)
    cases hs : (registryGet reg (proc.prop "type")).truthy
    · obtain ⟨ho, ht⟩ := restoreProcessesLoop_trace env reg rest w hrest
      simp [restoreProcessesLoop, JsVal.getProp, hproc, hs, ho, ht, List.filterMap_cons,
        deserializeCallOf]
    · obtain ⟨ho, ht⟩ := restoreProcessesLoop_trace env reg rest
        (deserializeBody env (registryGet reg (proc.prop "type")) proc w).1 hrest
      have hunf : restoreProcessesLoop env reg (proc :: rest) w
          = restoreProcessesLoop env reg rest
              (deserializeBody env (registryGet reg (proc.prop "type")) proc w).1 := by
        simp [restoreProcessesLoop, JsVal.getProp, hproc, hs]
      have hb : (deserializeBody env (registryGet reg (proc.prop "type")) proc w).1.trace
          = w.trace ++ (deserializeCallOf reg proc).toList := by
        cases hd : ((registryGet reg (proc.prop "type")).prop "deserialize").typeofFunction
        · simp [deserializeBody, deserializeCallOf, hs, hd]
        · simp [deserializeBody, deserializeCallOf, hs, hd, invoke]
      rw [hunf, ht, hb]
      refine ⟨ho, ?_⟩
      cases hc : deserializeCallOf reg proc <;> simp [List.filterMap_cons, hc]

/-- C18: for a sequence of descriptors (objects), whatever `deserialize` calls
fail, `restoreProcesses` completes without raising, and the calls it issues are
exactly, in manifest order, one `deserialize(context, windowState, appState)`
for each descriptor whose type has a registered serializer, on that serializer,
and none for a descriptor whose type is not registered. -/
theorem restoreProcesses_one_call_per_registered {σ : Type} (env : Collaborators σ)
    (reg : Registry) (ps : List JsVal) (w : World σ)
    (hdesc : ∀ proc ∈ ps, proc.nullish = false) :
    (restoreProcesses env reg (.arr ps) w).2 = .ok () ∧
    (restoreProcesses env reg (.arr ps) w).1.trace
      = w.trace ++ ps.filterMap (deserializeCallOf reg) ∧
    (∀ proc t s, proc.prop "type" = .str t → lookup t reg = some s →
      (s.prop "deserialize").typeofFunction = true →
      deserializeCallOf reg proc
        = some (.deserialize s (proc.prop "windowState") (proc.prop "appState"))) ∧
    (∀ proc, registryGet reg (proc.prop "type") = .undefined →
      deserializeCallOf reg proc = none) := by
  refine ⟨?_, ?_, ?_, ?_⟩
  · exact (restoreProcessesLoop_trace env reg ps w hdesc).1
  · exact (restoreProcessesLoop_trace env reg ps w hdesc).2
  · intro proc t s ht hl hd
    have hreg : registryGet reg (proc.prop "type") = s := by simp [registryGet, ht, hl]
    simp [deserializeCallOf, hreg, hd, truthy_of_deserialize_fn s hd]
  · intro proc hu
    simp [deserializeCallOf, hu, JsVal.truthy]

/-- Witness for C18: with a serializer registered for `editor` only and every
`deserialize` call failing, restoring an editor, a paint and a second editor
descriptor completes and calls `deserialize` for the two editors, in order. -/
theorem restoreProcesses_one_call_per_registered_witness :
    (restoreProcesses (flakyTarget failsDeserialize) sampleRegistry
        (.arr [sampleProcess "editor" "A", sampleProcess "paint" "P",
               sampleProcess "editor" "B"]) ⟨Target.empty, []⟩).2 = .ok () ∧
    (restoreProcesses (flakyTarget failsDeserialize) sampleRegistry
        (.arr [sampleProcess "editor" "A", sampleProcess "paint" "P",
               sampleProcess "editor" "B"]) ⟨Target.empty, []⟩).1.trace
      = [] ++ [sampleProcess "editor" "A", sampleProcess "paint" "P",
               sampleProcess "editor" "B"].filterMap (deserializeCallOf sampleRegistry) ∧
    [sampleProcess "editor" "A", sampleProcess "paint" "P",
        sampleProcess "editor" "B"].filterMap (deserializeCallOf sampleRegistry)
      = [Call.deserialize (.obj [("serialize", .fn 1), ("deserialize", .fn 2)])
            (.obj [("title", .str "A")]) (.obj [("text", .str "A")]),
         Call.deserialize (.obj [("serialize", .fn 1), ("deserialize", .fn 2)])
            (.obj [("title", .str "B")]) (.obj [("text", .str "B")])] :=
  ⟨(restoreProcesses_one_call_per_registered (flakyTarget failsDeserialize) sampleRegistry
      [sampleProcess "editor" "A", sampleProcess "paint" "P", sampleProcess "editor" "B"]
      ⟨Target.empty, []⟩
      (by intro proc hp; simp at hp; rcases hp with h | h | h <;> subst h <;> rfl)).1,
   (restoreProcesses_one_call_per_registered (flakyTarget failsDeserialize) sampleRegistry
      [sampleProcess "editor" "A", sampleProcess "paint" "P", sampleProcess "editor" "B"]
      ⟨Target.empty, []⟩
      (by intro proc hp; simp at hp; rcases hp with h | h | h <;> subst h <;> rfl)).2.1,
   by rfl⟩

/-! ### restoreSession: a failing settings write -/

/-- C19: when `settings.set("theme", ..)` fails, `restoreSession` raises that
failure: the directory has been created, but the second setting is never
written and no process is restored, although a serializer is registered for
the manifest's process. With no failure the same manifest gives four calls. -/
theorem restoreSession_settings_failure_aborts :
    (restoreSession (flakyTarget failsTheme) sampleRegistry settingsManifest
        ⟨Target.empty, []⟩).2 = .error (.error "collaborator failure") ∧
    (restoreSession (flakyTarget failsTheme) sampleRegistry settingsManifest
        ⟨Target.empty, []⟩).1.trace
      = [Call.mkdir "/a", Call.settingsSet "theme" (.str "dark")] ∧
    (restoreSession idealTarget sampleRegistry settingsManifest ⟨Target.empty, []⟩).2
      = .ok () ∧
    (restoreSession idealTarget sampleRegistry settingsManifest ⟨Target.empty, []⟩).1.trace
      = [Call.mkdir "/a", Call.settingsSet "theme" (.str "dark"),
         Call.settingsSet "lang" (.str "en"),
         Call.deserialize (.obj [("serialize", .fn 1), ("deserialize", .fn 2)])
           (.obj []) (.obj [])] :=
  ⟨by rfl, by rfl, by rfl, by rfl⟩

/-! ### captureProcesses: one descriptor per window -/

theorem truthy_of_method (s : JsVal) (k : String) (hk : k ≠ "length")
    (hi : arrayIndex k = none) (h : (s.prop k).typeofFunction = true) : s.truthy = true := by
  cases s with
  | obj props => rfl
  | fn i => rfl
  | arr items => simp [JsVal.prop, hk, hi, JsVal.typeofFunction] at h
  | str x => simp [JsVal.prop, hk, hi, JsVal.typeofFunction] at h
  | undefined => simp [JsVal.prop, JsVal.typeofFunction] at h
  | null => simp [JsVal.prop, JsVal.typeofFunction] at h
  | bool b => simp [JsVal.prop, JsVal.typeofFunction] at h
  | num n => simp [JsVal.prop, JsVal.typeofFunction] at h

theorem captureProcessesLoop_spec (reg : Registry)
    (serialize : JsVal → JsVal → Except JsErr JsVal) (dateNow : Nat → JsVal) :
    ∀ (windows : List JsVal) (index : Nat),
      (∀ win ∈ windows, ∃ ws, serializeWindowState win = .ok ws) →
      ∃ ps, captureProcessesLoop reg serialize dateNow index windows = .ok ps ∧
        ps.length = windows.length ∧
        ∀ i win, windows[i]? = some win →
          ∃ ws, serializeWindowState win = .ok ws ∧
            ps[i]? = some (createProcessDescriptor (appTypeOf win) ws
              (captureAppState reg serialize win) (dateNow (index + i)))
  | [], _, _ => ⟨[], rfl, rfl, fun i win h => by simp at h⟩
  | win :: rest, index, hstate => by
    obtain ⟨ws, hws⟩ := hstate win (List.mem_cons_self _ _)
    obtain ⟨ps, hps, hlen, hget⟩ := captureProcessesLoop_spec reg serialize dateNow rest
      (index + 1) (fun x hx => hstate x (List.mem_cons_of_mem _ hx))
    refine ⟨createProcessDescriptor (appTypeOf win) ws (captureAppState reg serialize win)
      (dateNow index) :: ps, ?_, ?_, ?_⟩
    · simp only [captureProcessesLoop, hws, hps]
    · simp [hlen]
    · intro i w hi
      cases i with
      | zero =>
        simp only [List.getElem?_cons_zero, Option.some.injEq] at hi
        subst hi
        exact ⟨ws, hws, by simp⟩
      | succ j =>
        simp only [List.getElem?_cons_succ] at hi
        obtain ⟨ws', hws', hp⟩ := hget j w hi
        refine ⟨ws', hws', ?_⟩
        simp only [List.getElem?_cons_succ]
        rw [hp]
        congr 3
        omega

theorem serializeWindowState_of_state (win : JsVal) (hwin : win.nullish = false)
    (hstate : (win.prop "state").nullish = false) :
    serializeWindowState win
      = .ok (.obj [("id", win.prop "id"), ("title", (win.prop "state").prop "title"),
                   ("position", (win.prop "state").prop "position"),
                   ("dimension", (win.prop "state").prop "dimension"),
                   ("maximized", (win.prop "state").prop "maximized"),
                   ("minimized", (win.prop "state").prop "minimized"),
                   ("zIndex", (win.prop "state").prop "zIndex")]) := by
  simp only [serializeWindowState, JsVal.getProp, hwin, hstate, Bool.false_eq_true, if_false]

/-- C16: when every open window has a state to read, `captureProcesses` returns
one descriptor per window, in enumeration order: descriptor `i` is
`{type, windowState, appState, timestamp}` with the window state `{id, title,
position, dimension, maximized, minimized, zIndex}` read from window `i`, the
window's app-type tag as `type` (`generic` when the tag is absent), and as
`appState` the result of `serialize(window)` when a serializer is registered
for that type and does not raise, and `{}` when none is registered or
`serialize` raises. -/
theorem captureProcesses_one_descriptor_per_window (reg : Registry)
    (serialize : JsVal → JsVal → Except JsErr JsVal) (dateNow : Nat → JsVal)
    (windows : List JsVal)
    (hstate : ∀ win ∈ windows, win.nullish = false ∧ (win.prop "state").nullish = false) :
    (∃ ps, captureProcessesLoop reg serialize dateNow 0 windows = .ok ps ∧
      ps.length = windows.length ∧
      ∀ i win, windows[i]? = some win →
        ps[i]? = some (JsVal.obj
          [("type", appTypeOf win),
           ("windowState",
             .obj [("id", win.prop "id"), ("title", (win.prop "state").prop "title"),
                   ("position", (win.prop "state").prop "position"),
                   ("dimension", (win.prop "state").prop "dimension"),
                   ("maximized", (win.prop "state").prop "maximized"),
                   ("minimized", (win.prop "state").prop "minimized"),
                   ("zIndex", (win.prop "state").prop "zIndex")]),
           ("appState", captureAppState reg serialize win),
           ("timestamp", dateNow i)])) ∧
    (∀ win, ((win.prop "attributes").optProp "appType").truthy = true →
      appTypeOf win = (win.prop "attributes").prop "appType") ∧
    (∀ win, ((win.prop "attributes").optProp "appType").truthy = false →
      appTypeOf win = .str "generic") ∧
    (∀ win t s appState, appTypeOf win = .str t → lookup t reg = some s →
      (s.prop "serialize").typeofFunction = true → serialize s win = .ok appState →
      captureAppState reg serialize win = appState) ∧
    (∀ win t s e, appTypeOf win = .str t → lookup t reg = some s →
      serialize s win = .error e → captureAppState reg serialize win = .obj []) ∧
    (∀ win, registryGet reg (appTypeOf win) = .undefined →
      captureAppState reg serialize win = .obj []) := by
  refine ⟨?_, ?_, ?_, ?_, ?_, ?_⟩
  · obtain ⟨ps, hps, hlen, hget⟩ :=
      captureProcessesLoop_spec reg serialize dateNow windows 0
        (fun win hw => ⟨_, serializeWindowState_of_state win (hstate win hw).1
          (hstate win hw).2⟩)
    refine ⟨ps, hps, hlen, ?_⟩
    intro i win hi
    obtain ⟨ws, hws, hp⟩ := hget i win hi
    have hmem : win ∈ windows := List.mem_iff_getElem?.2 ⟨i, hi⟩
    rw [serializeWindowState_of_state win (hstate win hmem).1 (hstate win hmem).2] at hws
    simp only [Except.ok.injEq] at hws
    subst hws
    simpa [createProcessDescriptor] using hp
  · intro win h
    simp only [JsVal.optProp] at h
    simp only [appTypeOf, h, if_true]
  · intro win h
    simp only [JsVal.optProp] at h
    simp only [appTypeOf, h, Bool.false_eq_true, if_false]
  · intro win t s appState ht hl hs hser
    have hreg : registryGet reg (appTypeOf win) = s := by simp [registryGet, ht, hl]
    have htr : s.truthy = true :=
      truthy_of_method s "serialize" (by decide) (by rfl) hs
    simp [captureAppState, hreg, htr, hs, hser]
  · intro win t s e ht hl hser
    have hreg : registryGet reg (appTypeOf win) = s := by simp [registryGet, ht, hl]
    simp only [captureAppState, hreg, hser]
    split
    · split <;> rfl
    · rfl
  · intro win hu
    simp [captureAppState, hu, JsVal.truthy]

/-- Witness for C16: of an editor window and an untagged window, both are
captured, in that order: the first with the serializer's state, the second as
`generic` with `{}`. -/
theorem captureProcesses_one_descriptor_per_window_witness :
    captureProcessesLoop sampleRegistry (fun _ _ => .ok (.obj [("text", .str "hi")]))
        (fun i => .num i) 0 sampleWindows
      = .ok [.obj [("type", .str "editor"),
                   ("windowState",
                     .obj [("id", .str "w1"), ("title", .str "Notes"),
                           ("position", .undefined), ("dimension", .undefined),
                           ("maximized", .undefined), ("minimized", .undefined),
                           ("zIndex", .undefined)]),
                   ("appState", .obj [("text", .str "hi")]), ("timestamp", .num 0)],
             .obj [("type", .str "generic"),
                   ("windowState",
                     .obj [("id", .str "w2"), ("title", .str "About"),
                           ("position", .undefined), ("dimension", .undefined),
                           ("maximized", .undefined), ("minimized", .undefined),
                           ("zIndex", .undefined)]),
                   ("appState", .obj []), ("timestamp", .num 1)]] ∧
    ∃ ps, captureProcessesLoop sampleRegistry (fun _ _ => .ok (.obj [("text", .str "hi")]))
        (fun i => .num i) 0 sampleWindows = .ok ps ∧ ps.length = sampleWindows.length ∧
      ps[1]? = some (JsVal.obj [("type", .str "generic"),
                   ("windowState",
                     .obj [("id", .str "w2"), ("title", .str "About"),
                           ("position", .undefined), ("dimension", .undefined),
                           ("maximized", .undefined), ("minimized", .undefined),
                           ("zIndex", .undefined)]),
                   ("appState", .obj []), ("timestamp", .num 1)]) := by
  refine ⟨by rfl, ?_⟩
  obtain ⟨ps, hps, hlen, hget⟩ :=
    (captureProcesses_one_descriptor_per_window sampleRegistry
      (fun _ _ => .ok (.obj [("text", .str "hi")])) (fun i => .num i) sampleWindows
      (by
        intro win hw
        simp only [sampleWindows, List.mem_cons, List.mem_singleton, List.not_mem_nil,
          or_false] at hw
        rcases hw with h | h <;> subst h <;> exact ⟨rfl, rfl⟩)).1
  refine ⟨ps, hps, hlen, ?_⟩
  rw [hget 1 (.obj [("id", .str "w2"), ("state", .obj [("title", .str "About")])]) (by rfl)]
  rfl


/-! ### captureVFS: the traversal returns -/

theorem traverseEntries_returns
    (recur : String → List (String × JsVal) → Option (List (String × JsVal)))
    (vfs : VfsSource) :
    ∀ (entries : List Stat) (snapshot : List (String × JsVal)),
      (∀ e ∈ entries, e.isDirectory.truthy = true → ∀ s, ∃ s', recur e.path s = some s') →
      ∃ r, traverseEntries recur vfs entries snapshot = some r
  | [], snapshot, _ => ⟨_, rfl⟩
  | entry :: rest, snapshot, h => by
    have hrest : ∀ e ∈ rest, e.isDirectory.truthy = true → ∀ s, ∃ s', recur e.path s = some s' :=
      fun e he => h e (List.mem_cons_of_mem _ he)
    unfold traverseEntries
    cases hd : entry.isDirectory.truthy
    · simp only [Bool.false_eq_true, if_false]
      cases hf : entry.isFile.truthy
      · simp only [Bool.false_eq_true, if_false]
        exact traverseEntries_returns recur vfs rest snapshot hrest
      · simp only [if_true]
        cases hr : vfs.readfile entry.path with
        | error e => exact ⟨_, rfl⟩
        | ok content => exact traverseEntries_returns recur vfs rest _ hrest
    · simp only [if_true]
      obtain ⟨s', hs'⟩ := h entry (List.mem_cons_self _ _) hd
        (setProp snapshot entry.path (serializeVFSNode entry))
      rw [hs']
      exact traverseEntries_returns recur vfs rest s' hrest

theorem traverseDirectory_returns (vfs : VfsSource) (rank : String → Nat)
    (hrank : ∀ p entries, vfs.readdir p = .ok entries →
      ∀ e ∈ entries, e.isDirectory.truthy = true → rank e.path < rank p) :
    ∀ (fuel : Nat) (path : String) (snapshot : List (String × JsVal)), rank path < fuel →
      ∃ s', traverseDirectory vfs fuel path snapshot = some s'
  | 0, _, _, h => absurd h (Nat.not_lt_zero _)
  | fuel + 1, path, snapshot, h => by
    unfold traverseDirectory
    cases hr : vfs.readdir path with
    | error e => exact ⟨_, rfl⟩
    | ok entries =>
      simp only
      obtain ⟨r, hr'⟩ := traverseEntries_returns (traverseDirectory vfs fuel) vfs entries snapshot
        (fun e he hd s => traverseDirectory_returns vfs rank hrank fuel e.path s
          (by have := hrank path entries hr e he hd; omega))
      rw [hr']
      exact ⟨_, rfl⟩

theorem traverseEntries_congr
    (recur recur' : String → List (String × JsVal) → Option (List (String × JsVal)))
    (vfs : VfsSource)
    (h : ∀ p s s', recur p s = some s' → recur' p s = some s') :
    ∀ (entries : List Stat) (snapshot : List (String × JsVal)) r,
      traverseEntries recur vfs entries snapshot = some r →
      traverseEntries recur' vfs entries snapshot = some r
  | [], _, _, hr => hr
  | entry :: rest, snapshot, r, hr => by
    unfold traverseEntries at hr ⊢
    cases hd : entry.isDirectory.truthy
    · rw [hd] at hr
      simp only [Bool.false_eq_true, if_false] at hr ⊢
      cases hf : entry.isFile.truthy
      · rw [hf] at hr
        simp only [Bool.false_eq_true, if_false] at hr ⊢
        exact traverseEntries_congr recur recur' vfs h rest snapshot r hr
      · rw [hf] at hr
        simp only [if_true] at hr ⊢
        cases hrd : vfs.readfile entry.path with
        | error e => rw [hrd] at hr; exact hr
        | ok content =>
          rw [hrd] at hr
          exact traverseEntries_congr recur recur' vfs h rest _ r hr
    · rw [hd] at hr
      simp only [if_true] at hr ⊢
      cases hrec : recur entry.path (setProp snapshot entry.path (serializeVFSNode entry)) with
      | none => rw [hrec] at hr; cases hr
      | some s1 =>
        rw [hrec] at hr
        rw [h _ _ _ hrec]
        exact traverseEntries_congr recur recur' vfs h rest s1 r hr

theorem traverseDirectory_fuel_succ (vfs : VfsSource) :
    ∀ (fuel : Nat) (path : String) (snapshot s' : List (String × JsVal)),
      traverseDirectory vfs fuel path snapshot = some s' →
      traverseDirectory vfs (fuel + 1) path snapshot = some s'
  | 0, _, _, _, h => by simp [traverseDirectory] at h
  | fuel + 1, path, snapshot, s', h => by
    unfold traverseDirectory at h ⊢
    cases hr : vfs.readdir path with
    | error e => rw [hr] at h; exact h
    | ok entries =>
      rw [hr] at h
      simp only at h ⊢
      cases ht : traverseEntries (traverseDirectory vfs fuel) vfs entries snapshot with
      | none => rw [ht] at h; cases h
      | some r =>
        rw [ht] at h
        rw [traverseEntries_congr (traverseDirectory vfs fuel) (traverseDirectory vfs (fuel + 1))
          vfs (fun p s s1 hs => traverseDirectory_fuel_succ vfs fuel p s s1 hs) entries snapshot r
          ht]
        exact h

theorem traverseDirectory_fuel_mono (vfs : VfsSource) (fuel fuel' : Nat) (hle : fuel ≤ fuel')
    (path : String) (snapshot s' : List (String × JsVal))
    (h : traverseDirectory vfs fuel path snapshot = some s') :
    traverseDirectory vfs fuel' path snapshot = some s' := by
  induction hle with
  | refl => exact h
  | step _ ih => exact traverseDirectory_fuel_succ vfs _ path snapshot s' ih

/-- C14: for a VFS whose directory nesting is finite (`rank` strictly decreases
from a listed directory to the directories it lists), and for every root path,
`captureVFS` returns a snapshot mapping without raising, whichever listing and
read calls fail; the snapshot does not depend on the bound given to the
traversal; and when the listing of the root itself fails the snapshot is `{}`. -/
theorem captureVFS_returns_a_snapshot (vfs : VfsSource) (rank : String → Nat)
    (hrank : ∀ p entries, vfs.readdir p = .ok entries →
      ∀ e ∈ entries, e.isDirectory.truthy = true → rank e.path < rank p)
    (rootPath : String) :
    (∃ snapshot, ∀ fuel, rank rootPath < fuel →
      captureVFSSnapshot vfs fuel rootPath = some (.obj snapshot)) ∧
    ((∃ e, vfs.readdir rootPath = .error e) → ∀ fuel,
      captureVFSSnapshot vfs (fuel + 1) rootPath = some (.obj [])) := by
  refine ⟨?_, ?_⟩
  · obtain ⟨s', hs'⟩ := traverseDirectory_returns vfs rank hrank (rank rootPath + 1) rootPath []
      (Nat.lt_succ_self _)
    refine ⟨s', fun fuel hf => ?_⟩
    simp [captureVFSSnapshot,
      traverseDirectory_fuel_mono vfs (rank rootPath + 1) fuel hf rootPath [] s' hs']
  · rintro ⟨e, he⟩ fuel
    simp [captureVFSSnapshot, traverseDirectory, he]

theorem sampleRank_decreases :
    ∀ p entries, sampleCaptureEnv.vfs.readdir p = .ok entries →
      ∀ e ∈ entries, e.isDirectory.truthy = true → sampleRank e.path < sampleRank p := by
  intro p entries hp e he hd
  simp only [sampleCaptureEnv] at hp
  split at hp
  · rename_i h
    simp only [Except.ok.injEq] at hp
    subst hp
    simp only [List.mem_cons, List.mem_singleton, List.not_mem_nil, or_false] at he
    rcases he with h1 | h1
    · subst h1; subst h; decide
    · subst h1; simp [sampleStat, JsVal.truthy] at hd
  · split at hp
    · simp only [Except.ok.injEq] at hp
      subst hp
      simp only [List.mem_singleton] at he
      subst he
      simp [sampleStat, JsVal.truthy] at hd
    · cases hp

/-- Witness for C14: the sample source, in which reading `home:/raw.bin` fails,
is captured as the directory `home:/docs` and the file in it; and a root whose
listing fails is captured as `{}`. -/
theorem captureVFS_returns_a_snapshot_witness :
    (∃ snapshot, ∀ fuel, sampleRank "home:/" < fuel →
      captureVFSSnapshot sampleCaptureEnv.vfs fuel "home:/" = some (.obj snapshot)) ∧
    captureVFSSnapshot sampleCaptureEnv.vfs 3 "home:/"
      = some (.obj [("home:/docs", serializeVFSNode (sampleStat "home:/docs" true)),
                    ("home:/docs/n.txt",
                      serializeVFSNode (sampleStat "home:/docs/n.txt" false) (.str "hello"))]) ∧
    captureVFSSnapshot sampleCaptureEnv.vfs 1 "tmp:/" = some (.obj []) :=
  ⟨(captureVFS_returns_a_snapshot sampleCaptureEnv.vfs sampleRank sampleRank_decreases
      "home:/").1,
   by rfl,
   (captureVFS_returns_a_snapshot sampleCaptureEnv.vfs sampleRank sampleRank_decreases
      "tmp:/").2 ⟨_, rfl⟩ 0⟩

/-! ### captureVFS: pre-order -/

theorem recordAll_cons (snapshot : List (String × JsVal)) (e : String × JsVal)
    (l : List (String × JsVal)) :
    recordAll snapshot (e :: l) = recordAll (setProp snapshot e.1 e.2) l := rfl

theorem recordAll_append (snapshot l1 l2 : List (String × JsVal)) :
    recordAll snapshot (l1 ++ l2) = recordAll (recordAll snapshot l1) l2 := by
  simp [recordAll, List.foldl_append]

theorem traverseEntries_eq_visit
    (recur : String → List (String × JsVal) → Option (List (String × JsVal)))
    (recur' : String → Option (List (String × JsVal))) (vfs : VfsSource)
    (h : ∀ p s, recur p s = (recur' p).map (recordAll s)) :
    ∀ (entries : List Stat) (snapshot : List (String × JsVal)),
      traverseEntries recur vfs entries snapshot
        = (visitEntries recur' vfs entries).map (fun r => (recordAll snapshot r.1, r.2))
  | [], snapshot => rfl
  | entry :: rest, snapshot => by
    unfold traverseEntries visitEntries
    cases hd : entry.isDirectory.truthy
    · simp only [Bool.false_eq_true, if_false]
      cases hf : entry.isFile.truthy
      · simp only [Bool.false_eq_true, if_false]
        exact traverseEntries_eq_visit recur recur' vfs h rest snapshot
      · simp only [if_true]
        cases hr : vfs.readfile entry.path with
        | error e => rfl
        | ok content =>
          simp only
          rw [traverseEntries_eq_visit recur recur' vfs h rest _]
          cases visitEntries recur' vfs rest with
          | none => rfl
          | some r => rfl
    · simp only [if_true]
      rw [h]
      cases hu : recur' entry.path with
      | none => rfl
      | some under =>
        simp only [Option.map_some']
        rw [traverseEntries_eq_visit recur recur' vfs h rest _]
        cases visitEntries recur' vfs rest with
        | none => rfl
        | some r =>
          simp only [Option.map_some', recordAll_cons, recordAll_append]

theorem traverseDirectory_eq_visit (vfs : VfsSource) :
    ∀ (fuel : Nat) (path : String) (snapshot : List (String × JsVal)),
      traverseDirectory vfs fuel path snapshot
        = (visitDirectory vfs fuel path).map (recordAll snapshot)
  | 0, _, _ => rfl
  | fuel + 1, path, snapshot => by
    unfold traverseDirectory visitDirectory
    cases hr : vfs.readdir path with
    | error e => rfl
    | ok entries =>
      simp only
      rw [traverseEntries_eq_visit (traverseDirectory vfs fuel) (visitDirectory vfs fuel) vfs
        (fun p s => traverseDirectory_eq_visit vfs fuel p s) entries snapshot]
      cases visitEntries (visitDirectory vfs fuel) vfs entries with
      | none => rfl
      | some r => rfl

theorem insertNew_eq_append (k : String) (v : JsVal) (hk : arrayIndex k = none) :
    ∀ props : List (String × JsVal), insertNew k v props = props ++ [(k, v)]
  | [] => rfl
  | (k', v') :: rest => by
    simp only [insertNew, hk, List.cons_append, insertNew_eq_append k v hk rest]

theorem recordAll_eq_append :
    ∀ (visited snapshot : List (String × JsVal)),
      ((snapshot ++ visited).map Prod.fst).Nodup →
      (∀ e ∈ visited, arrayIndex e.1 = none) →
      recordAll snapshot visited = snapshot ++ visited
  | [], snapshot, _, _ => by simp [recordAll]
  | e :: rest, snapshot, hnd, hidx => by
    have hnone : lookup e.1 snapshot = none := by
      rw [lookup_eq_none_iff]
      intro hmem
      rw [List.map_append, List.nodup_append] at hnd
      exact hnd.2.2 hmem (by simp)
    have hset : setProp snapshot e.1 e.2 = snapshot ++ [e] := by
      simp only [setProp, hnone]
      exact insertNew_eq_append e.1 e.2 (hidx e (List.mem_cons_self _ _)) snapshot
    rw [recordAll_cons, hset,
      recordAll_eq_append rest (snapshot ++ [e]) (by simpa using hnd)
        (fun x hx => hidx x (List.mem_cons_of_mem _ hx))]
    simp

theorem visitEntries_dir (recur : String → Option (List (String × JsVal))) (vfs : VfsSource)
    (entry : Stat) (rest : List Stat) (hd : entry.isDirectory.truthy = true) :
    visitEntries recur vfs (entry :: rest)
      = (recur entry.path).bind (fun under =>
          (visitEntries recur vfs rest).map (fun r =>
            ((entry.path, serializeVFSNode entry) :: (under ++ r.1), r.2))) := by
  rw [visitEntries]
  simp only [hd, if_true]
  cases recur entry.path with
  | none => rfl
  | some under =>
    cases visitEntries recur vfs rest with
    | none => rfl
    | some r => rfl

theorem visitEntries_file (recur : String → Option (List (String × JsVal))) (vfs : VfsSource)
    (entry : Stat) (rest : List Stat) (content : JsVal)
    (hd : entry.isDirectory.truthy = false) (hf : entry.isFile.truthy = true)
    (hr : vfs.readfile entry.path = .ok content) :
    visitEntries recur vfs (entry :: rest)
      = (visitEntries recur vfs rest).map (fun r =>
          ((entry.path, serializeVFSNode entry content) :: r.1, r.2)) := by
  rw [visitEntries]
  simp only [hd, hf, hr, Bool.false_eq_true, if_false, if_true]
  cases visitEntries recur vfs rest with
  | none => rfl
  | some r => rfl

theorem visitEntries_unreadable (recur : String → Option (List (String × JsVal)))
    (vfs : VfsSource) (entry : Stat) (rest : List Stat) (e : JsErr)
    (hd : entry.isDirectory.truthy = false) (hf : entry.isFile.truthy = true)
    (hr : vfs.readfile entry.path = .error e) :
    visitEntries recur vfs (entry :: rest) = some ([], .error e) := by
  rw [visitEntries]
  simp only [hd, hf, hr, Bool.false_eq_true, if_false, if_true]

theorem visitEntries_other (recur : String → Option (List (String × JsVal)))
    (vfs : VfsSource) (entry : Stat) (rest : List Stat)
    (hd : entry.isDirectory.truthy = false) (hf : entry.isFile.truthy = false) :
    visitEntries recur vfs (entry :: rest) = visitEntries recur vfs rest := by
  rw [visitEntries]
  simp only [hd, hf, Bool.false_eq_true, if_false]

theorem visitEntries_append (recur : String → Option (List (String × JsVal)))
    (vfs : VfsSource) (l : List Stat) :
    ∀ (pre : List Stat) (before : List (String × JsVal)),
      visitEntries recur vfs pre = some (before, .ok ()) →
      visitEntries recur vfs (pre ++ l)
        = (visitEntries recur vfs l).map (fun r => (before ++ r.1, r.2))
  | [], before, h => by
    rw [visitEntries] at h
    simp only [Option.some.injEq, Prod.mk.injEq] at h
    rw [← h.1, List.nil_append]
    cases visitEntries recur vfs l with
    | none => rfl
    | some r => simp
  | entry :: rest, before, h => by
    rw [List.cons_append]
    cases hd : entry.isDirectory.truthy
    · cases hf : entry.isFile.truthy
      · rw [visitEntries_other recur vfs entry rest hd hf] at h
        rw [visitEntries_other recur vfs entry (rest ++ l) hd hf]
        exact visitEntries_append recur vfs l rest before h
      · cases hr : vfs.readfile entry.path with
        | error e =>
          rw [visitEntries_unreadable recur vfs entry rest e hd hf hr] at h
          simp at h
        | ok content =>
          rw [visitEntries_file recur vfs entry rest content hd hf hr] at h
          rw [visitEntries_file recur vfs entry (rest ++ l) content hd hf hr]
          cases hv : visitEntries recur vfs rest with
          | none => rw [hv] at h; cases h
          | some r =>
            obtain ⟨later, o⟩ := r
            rw [hv] at h
            simp only [Option.map_some', Option.some.injEq, Prod.mk.injEq] at h
            obtain ⟨h1, h2⟩ := h
            subst h2
            rw [visitEntries_append recur vfs l rest later hv]
            cases visitEntries recur vfs l with
            | none => rfl
            | some r2 => simp [← h1]
    · rw [visitEntries_dir recur vfs entry rest hd] at h
      rw [visitEntries_dir recur vfs entry (rest ++ l) hd]
      cases hu : recur entry.path with
      | none => rw [hu] at h; cases h
      | some under =>
        rw [hu] at h
        simp only [Option.some_bind] at h ⊢
        cases hv : visitEntries recur vfs rest with
        | none => rw [hv] at h; cases h
        | some r =>
          obtain ⟨later, o⟩ := r
          rw [hv] at h
          simp only [Option.map_some', Option.some.injEq, Prod.mk.injEq] at h
          obtain ⟨h1, h2⟩ := h
          subst h2
          rw [visitEntries_append recur vfs l rest later hv]
          cases visitEntries recur vfs l with
          | none => rfl
          | some r2 => simp [← h1]

/-- C15 fails as stated at one value: when the read of `home:/u.txt` resolves to
`undefined`, the node recorded for it has the content `null`, not what the read
returned: the parameter of `serializeVFSNode` is declared `content = null`. -/
theorem captureVFS_undefined_read_recorded_as_null :
    undefinedSource.readfile "home:/u.txt" = .ok .undefined ∧
    captureVFSSnapshot undefinedSource 2 "home:/"
      = some (.obj [("home:/u.txt",
          .obj [("path", .str "home:/u.txt"),
                ("filename", (sampleStat "home:/u.txt" false).filename),
                ("mime", (sampleStat "home:/u.txt" false).mime),
                ("size", (sampleStat "home:/u.txt" false).size),
                ("isDirectory", (sampleStat "home:/u.txt" false).isDirectory),
                ("isFile", (sampleStat "home:/u.txt" false).isFile),
                ("mtime", (sampleStat "home:/u.txt" false).mtime),
                ("content", .null)])]) :=
  ⟨by rfl, by rfl⟩

/-- C15 as amended: the snapshot `captureVFS` returns is the sequence of
visited nodes recorded one by one, and equals that sequence when the visited
paths are distinct and none is an array index (the only keys an object moves to
the front). The visited sequence is a pre-order: a listing contributes, for a
directory entry, its node with `null` content, then the nodes under it, then
the nodes of the later entries; for a file entry, its node with exactly the
content `readfile` returned, then the nodes of the later entries. The one value
not recorded as returned is `undefined`, which the default of the parameter
`content = null` turns into `null`. -/
theorem captureVFS_records_in_preorder (vfs : VfsSource) :
    (∀ fuel root snapshot, traverseDirectory vfs fuel root [] = some snapshot →
      ∃ visited, visitDirectory vfs fuel root = some visited ∧
        snapshot = recordAll [] visited ∧
        ((visited.map Prod.fst).Nodup → (∀ e ∈ visited, arrayIndex e.1 = none) →
          snapshot = visited)) ∧
    (∀ fuel path entries, vfs.readdir path = .ok entries →
      visitDirectory vfs (fuel + 1) path
        = (visitEntries (visitDirectory vfs fuel) vfs entries).map (fun r => r.1)) ∧
    (∀ recur pre entry rest before under later o,
      visitEntries recur vfs pre = some (before, .ok ()) →
      entry.isDirectory.truthy = true → recur entry.path = some under →
      visitEntries recur vfs rest = some (later, o) →
      visitEntries recur vfs (pre ++ entry :: rest)
          = some (before ++ (entry.path, serializeVFSNode entry) :: (under ++ later), o) ∧
        (serializeVFSNode entry).prop "content" = .null) ∧
    (∀ recur pre entry rest before content later o,
      visitEntries recur vfs pre = some (before, .ok ()) →
      entry.isDirectory.truthy = false → entry.isFile.truthy = true →
      vfs.readfile entry.path = .ok content →
      visitEntries recur vfs rest = some (later, o) →
      visitEntries recur vfs (pre ++ entry :: rest)
          = some (before ++ (entry.path, serializeVFSNode entry content) :: later, o) ∧
        (content ≠ .undefined → (serializeVFSNode entry content).prop "content" = content) ∧
        (content = .undefined → (serializeVFSNode entry content).prop "content" = .null)) := by
  refine ⟨?_, ?_, ?_, ?_⟩
  · intro fuel root snapshot h
    rw [traverseDirectory_eq_visit] at h
    cases hv : visitDirectory vfs fuel root with
    | none => rw [hv] at h; cases h
    | some visited =>
      rw [hv] at h
      simp only [Option.map_some', Option.some.injEq] at h
      refine ⟨visited, rfl, h.symm, fun hnd hidx => ?_⟩
      rw [← h, recordAll_eq_append visited [] (by simpa using hnd) hidx]
      simp
  · intro fuel path entries hr
    rw [visitDirectory]
    simp only [hr]
    cases visitEntries (visitDirectory vfs fuel) vfs entries with
    | none => rfl
    | some r => rfl
  · intro recur pre entry rest before under later o hpre hd hu hrest
    refine ⟨?_, by rfl⟩
    rw [visitEntries_append recur vfs (entry :: rest) pre before hpre,
      visitEntries_dir recur vfs entry rest hd, hu, Option.some_bind, hrest]
    rfl
  · intro recur pre entry rest before content later o hpre hd hf hr hrest
    refine ⟨?_, ?_, ?_⟩
    · rw [visitEntries_append recur vfs (entry :: rest) pre before hpre,
        visitEntries_file recur vfs entry rest content hd hf hr, hrest]
      rfl
    · intro hc
      have h : (serializeVFSNode entry content).prop "content" = content.withDefault .null := by
        rfl
      rw [h]
      cases content <;> first | rfl | exact absurd rfl hc
    · intro hc
      subst hc
      rfl

/-- Witness for C15: on the sample source the snapshot is the directory
`home:/docs` followed by the file in it, whose content is the text read. -/
theorem captureVFS_records_in_preorder_witness :
    traverseDirectory sampleCaptureEnv.vfs 3 "home:/" []
      = some [("home:/docs", serializeVFSNode (sampleStat "home:/docs" true)),
              ("home:/docs/n.txt",
                serializeVFSNode (sampleStat "home:/docs/n.txt" false) (.str "hello"))] ∧
    (serializeVFSNode (sampleStat "home:/docs/n.txt" false) (.str "hello")).prop "content"
      = .str "hello" ∧
    ∃ visited, visitDirectory sampleCaptureEnv.vfs 3 "home:/" = some visited ∧
      [("home:/docs", serializeVFSNode (sampleStat "home:/docs" true)),
       ("home:/docs/n.txt",
         serializeVFSNode (sampleStat "home:/docs/n.txt" false) (.str "hello"))] = visited := by
  have h : traverseDirectory sampleCaptureEnv.vfs 3 "home:/" []
      = some [("home:/docs", serializeVFSNode (sampleStat "home:/docs" true)),
              ("home:/docs/n.txt",
                serializeVFSNode (sampleStat "home:/docs/n.txt" false) (.str "hello"))] := by
    rfl
  refine ⟨h, ?_, ?_⟩
  · exact ((captureVFS_records_in_preorder sampleCaptureEnv.vfs).2.2.2 (fun _ => none) []
      (sampleStat "home:/docs/n.txt" false) [] [] (.str "hello") [] (.ok ())
      (by rfl) (by rfl) (by rfl) (by rfl) (by rfl)).2.1 (by simp)
  obtain ⟨visited, hv, _, hwf⟩ :=
    (captureVFS_records_in_preorder sampleCaptureEnv.vfs).1 3 "home:/" _ h
  have hvis : visitDirectory sampleCaptureEnv.vfs 3 "home:/"
      = some [("home:/docs", serializeVFSNode (sampleStat "home:/docs" true)),
              ("home:/docs/n.txt",
                serializeVFSNode (sampleStat "home:/docs/n.txt" false) (.str "hello"))] := by
    rfl
  rw [hvis] at hv
  simp only [Option.some.injEq] at hv
  subst hv
  exact ⟨_, hvis, hwf (by decide) (by
    intro e he
    simp only [List.mem_cons, List.mem_singleton, List.not_mem_nil, or_false] at he
    rcases he with h1 | h1 <;> subst h1 <;> rfl)⟩

/-! ### captureVFS: what a failure costs -/

/-- C13 fails as stated. When only the read of `home:/a.txt` fails, the snapshot
is empty: `home:/b.txt`, listed after it and readable, is omitted too, though a
capture without the failure records both. And when the listing of the directory
`home:/d` fails, the node of `home:/d` itself is not omitted. -/
theorem captureVFS_failure_not_exact :
    traverseDirectory (siblingSource false) 2 "home:/" []
      = some [("home:/a.txt", serializeVFSNode (sampleStat "home:/a.txt" false) (.str "A")),
              ("home:/b.txt", serializeVFSNode (sampleStat "home:/b.txt" false) (.str "B"))] ∧
    (siblingSource true).readfile "home:/b.txt" = .ok (.str "B") ∧
    traverseDirectory (siblingSource true) 2 "home:/" [] = some [] ∧
    (∃ e, lockedSource.readdir "home:/d" = .error e) ∧
    traverseDirectory lockedSource 2 "home:/" []
      = some [("home:/d", serializeVFSNode (sampleStat "home:/d" true)),
              ("home:/c.txt", serializeVFSNode (sampleStat "home:/c.txt" false) (.str "C"))] :=
  ⟨by rfl, by rfl, by rfl, ⟨_, rfl⟩, by rfl⟩

theorem traverseEntries_dir
    (recur : String → List (String × JsVal) → Option (List (String × JsVal)))
    (vfs : VfsSource) (entry : Stat) (rest : List Stat) (snapshot : List (String × JsVal))
    (hd : entry.isDirectory.truthy = true) :
    traverseEntries recur vfs (entry :: rest) snapshot
      = (recur entry.path (setProp snapshot entry.path (serializeVFSNode entry))).bind
          (fun s => traverseEntries recur vfs rest s) := by
  rw [traverseEntries]
  simp only [hd, if_true]
  cases recur entry.path (setProp snapshot entry.path (serializeVFSNode entry)) <;> rfl

theorem traverseEntries_file
    (recur : String → List (String × JsVal) → Option (List (String × JsVal)))
    (vfs : VfsSource) (entry : Stat) (rest : List Stat) (snapshot : List (String × JsVal))
    (content : JsVal) (hd : entry.isDirectory.truthy = false)
    (hf : entry.isFile.truthy = true) (hr : vfs.readfile entry.path = .ok content) :
    traverseEntries recur vfs (entry :: rest) snapshot
      = traverseEntries recur vfs rest
          (setProp snapshot entry.path (serializeVFSNode entry content)) := by
  rw [traverseEntries]
  simp only [hd, hf, hr, Bool.false_eq_true, if_false, if_true]

theorem traverseEntries_unreadable
    (recur : String → List (String × JsVal) → Option (List (String × JsVal)))
    (vfs : VfsSource) (entry : Stat) (rest : List Stat) (snapshot : List (String × JsVal))
    (e : JsErr) (hd : entry.isDirectory.truthy = false)
    (hf : entry.isFile.truthy = true) (hr : vfs.readfile entry.path = .error e) :
    traverseEntries recur vfs (entry :: rest) snapshot = some (snapshot, .error e) := by
  rw [traverseEntries]
  simp only [hd, hf, hr, Bool.false_eq_true, if_false, if_true]

theorem traverseEntries_other
    (recur : String → List (String × JsVal) → Option (List (String × JsVal)))
    (vfs : VfsSource) (entry : Stat) (rest : List Stat) (snapshot : List (String × JsVal))
    (hd : entry.isDirectory.truthy = false) (hf : entry.isFile.truthy = false) :
    traverseEntries recur vfs (entry :: rest) snapshot
      = traverseEntries recur vfs rest snapshot := by
  rw [traverseEntries]
  simp only [hd, hf, Bool.false_eq_true, if_false]

theorem traverseEntries_append
    (recur : String → List (String × JsVal) → Option (List (String × JsVal)))
    (vfs : VfsSource) (l : List Stat) :
    ∀ (pre : List Stat) (snapshot s1 : List (String × JsVal)),
      traverseEntries recur vfs pre snapshot = some (s1, .ok ()) →
      traverseEntries recur vfs (pre ++ l) snapshot = traverseEntries recur vfs l s1
  | [], snapshot, s1, h => by
    rw [traverseEntries] at h
    simp only [Option.some.injEq, Prod.mk.injEq] at h
    rw [← h.1, List.nil_append]
  | entry :: rest, snapshot, s1, h => by
    rw [List.cons_append]
    cases hd : entry.isDirectory.truthy
    · cases hf : entry.isFile.truthy
      · rw [traverseEntries_other recur vfs entry rest snapshot hd hf] at h
        rw [traverseEntries_other recur vfs entry (rest ++ l) snapshot hd hf]
        exact traverseEntries_append recur vfs l rest snapshot s1 h
      · cases hr : vfs.readfile entry.path with
        | error e =>
          rw [traverseEntries_unreadable recur vfs entry rest snapshot e hd hf hr] at h
          simp at h
        | ok content =>
          rw [traverseEntries_file recur vfs entry rest snapshot content hd hf hr] at h
          rw [traverseEntries_file recur vfs entry (rest ++ l) snapshot content hd hf hr]
          exact traverseEntries_append recur vfs l rest _ s1 h
    · rw [traverseEntries_dir recur vfs entry rest snapshot hd] at h
      rw [traverseEntries_dir recur vfs entry (rest ++ l) snapshot hd]
      cases hu : recur entry.path (setProp snapshot entry.path (serializeVFSNode entry)) with
      | none => rw [hu] at h; cases h
      | some s =>
        rw [hu] at h
        simp only [Option.some_bind] at h ⊢
        exact traverseEntries_append recur vfs l rest s s1 h

/-- C13 as amended: a failure is caught by the traversal of the directory in
which it occurs. When the listing of a directory fails, its traversal returns
the snapshot as it was, so the directory's own node, recorded before, is kept,
nothing is recorded under it, and the enclosing listing goes on with the next
entry. When the read of a file fails, every node recorded so far is kept and
that read records nothing at the file's path. -/
theorem captureVFS_failure_is_local (vfs : VfsSource) :
    (∀ fuel path snapshot e, vfs.readdir path = .error e →
      traverseDirectory vfs (fuel + 1) path snapshot = some snapshot) ∧
    (∀ fuel entry rest snapshot e, entry.isDirectory.truthy = true →
      vfs.readdir entry.path = .error e →
      traverseEntries (traverseDirectory vfs (fuel + 1)) vfs (entry :: rest) snapshot
        = traverseEntries (traverseDirectory vfs (fuel + 1)) vfs rest
            (setProp snapshot entry.path (serializeVFSNode entry))) ∧
    (∀ recur pre entry rest snapshot s1 e,
      traverseEntries recur vfs pre snapshot = some (s1, .ok ()) →
      entry.isDirectory.truthy = false → entry.isFile.truthy = true →
      vfs.readfile entry.path = .error e →
      ∃ s2 o, traverseEntries recur vfs (pre ++ entry :: rest) snapshot = some (s2, o) ∧
        (∀ k v, lookup k s1 = some v → lookup k s2 = some v) ∧
        lookup entry.path s2 = lookup entry.path s1) := by
  refine ⟨?_, ?_, ?_⟩
  · intro fuel path snapshot e he
    simp [traverseDirectory, he]
  · intro fuel entry rest snapshot e hd he
    rw [traverseEntries_dir _ vfs entry rest snapshot hd]
    simp [traverseDirectory, he]
  · intro recur pre entry rest snapshot s1 e hpre hd hf hr
    refine ⟨s1, .error e, ?_, fun _ _ h => h, rfl⟩
    rw [traverseEntries_append recur vfs (entry :: rest) pre snapshot s1 hpre,
      traverseEntries_unreadable recur vfs entry rest s1 e hd hf hr]

/-- Witness for C13 as amended: the directory `home:/d` cannot be listed, and
its traversal returns the snapshot it was given; the read of `home:/a.txt`
fails, and the listing that contains it returns without a node at that path. -/
theorem captureVFS_failure_is_local_witness :
    traverseDirectory lockedSource 1 "home:/d"
        [("home:/d", serializeVFSNode (sampleStat "home:/d" true))]
      = some [("home:/d", serializeVFSNode (sampleStat "home:/d" true))] ∧
    ∃ s2 o, traverseEntries (traverseDirectory (siblingSource true) 1) (siblingSource true)
        ([] ++ sampleStat "home:/a.txt" false :: [sampleStat "home:/b.txt" false]) []
        = some (s2, o) ∧
      (∀ k v, lookup k [] = some v → lookup k s2 = some v) ∧
      lookup (sampleStat "home:/a.txt" false).path s2
        = lookup (sampleStat "home:/a.txt" false).path [] :=
  ⟨(captureVFS_failure_is_local lockedSource).1 0 "home:/d" _ (.error "EACCES") rfl,
   (captureVFS_failure_is_local (siblingSource true)).2.2
     (traverseDirectory (siblingSource true) 1) [] (sampleStat "home:/a.txt" false)
     [sampleStat "home:/b.txt" false] [] [] (.error "EIO") rfl (by rfl) (by rfl) (by rfl)⟩

/-- A key that is an array index is enumerated before the other keys, whatever
the order of recording: this is why the paths of C15 must not be array
indices. -/
theorem recordAll_moves_array_index_first :
    recordAll [] [("b", .str "x"), ("1", .str "y")] = [("1", .str "y"), ("b", .str "x")] := by
  rfl

/-! ### Numeric property keys -/

theorem digitChar_spec (d : Nat) (h : d < 10) :
    (Nat.digitChar d).isDigit = true ∧ (Nat.digitChar d).toNat - 48 = d ∧
      (Nat.digitChar d = '0' → d = 0) := by
  interval_cases d <;> decide

theorem parseDigits_append (l1 l2 : List Char) :
    ∀ acc, parseDigits (l1 ++ l2) acc = (parseDigits l1 acc).bind (fun a => parseDigits l2 a) := by
  induction l1 with
  | nil => intro acc; rfl
  | cons c cs ih =>
    intro acc
    simp only [List.cons_append, parseDigits]
    split
    · exact ih _
    · rfl

theorem toDigitsCore_spec :
    ∀ (fuel n : Nat) (ds : List Char), n < fuel →
      ∃ l, Nat.toDigitsCore 10 fuel n ds = l ++ ds ∧
        (∀ acc, parseDigits l acc = some (acc * 10 ^ l.length + n)) ∧
        (∃ c cs, l = c :: cs ∧ (cs ≠ [] → c ≠ '0'))
  | 0, _, _, h => absurd h (Nat.not_lt_zero _)
  | fuel + 1, n, ds, h => by
    obtain ⟨hdig, hval, hzero⟩ := digitChar_spec (n % 10) (Nat.mod_lt _ (by decide))
    rw [Nat.toDigitsCore]
    by_cases hn : n / 10 = 0
    · simp only [hn, if_true]
      refine ⟨[Nat.digitChar (n % 10)], rfl, ?_, ⟨_, [], rfl, fun h => absurd rfl h⟩⟩
      intro acc
      have hmod : n % 10 = n := Nat.mod_eq_of_lt (by omega)
      rw [hmod] at hdig hval
      simp [parseDigits, hdig, hval, hmod]
    · simp only [hn, if_false]
      obtain ⟨l', hl', hparse, c, cs, hc, hhead⟩ :=
        toDigitsCore_spec fuel (n / 10) (Nat.digitChar (n % 10) :: ds) (by omega)
      refine ⟨l' ++ [Nat.digitChar (n % 10)], by rw [hl']; simp, ?_, ?_⟩
      · intro acc
        rw [parseDigits_append, hparse]
        simp only [Option.some_bind, parseDigits, hdig, if_true, hval, List.length_append,
          List.length_singleton, Option.some.injEq]
        rw [pow_succ]
        have := Nat.div_add_mod n 10
        nlinarith [this]
      · refine ⟨c, cs ++ [Nat.digitChar (n % 10)], by rw [hc]; simp, fun _ => ?_⟩
        by_cases hcs : cs = []
        · subst hcs
          subst hc
          intro h0
          have h1 := hparse 0
          simp only [parseDigits, h0] at h1
          simp at h1
          exact hn h1.symm
        · exact hhead hcs

theorem arrayIndex_toString_nat (n : Nat) :
    arrayIndex (toString n) = if n ≤ 4294967294 then some n else none := by
  obtain ⟨l, hl, hparse, c, cs, hc, hhead⟩ := toDigitsCore_spec (n + 1) n [] (Nat.lt_succ_self n)
  have hlist : (toString n).toList = l := by
    show Nat.toDigits 10 n = l
    rw [Nat.toDigits, hl, List.append_nil]
  have h0 := hparse 0
  simp only [Nat.zero_mul, Nat.zero_add] at h0
  unfold arrayIndex
  rw [hlist, hc]
  rw [hc] at h0
  cases cs with
  | nil =>
    simp only [parseDigits] at h0
    split at h0
    · rename_i hd
      simp only [Option.some.injEq] at h0
      have hlt : n ≤ 9 := by
        rw [← h0]
        have hd' := hd
        simp only [Char.isDigit, Bool.and_eq_true, decide_eq_true_eq] at hd'
        have : c.toNat ≤ 57 := hd'.2
        omega
      simp [hd, h0]
      omega
    · cases h0
  | cons c2 cs2 =>
    have hne := hhead (by simp)
    simp only [hne, if_false, h0]

theorem toString_nat_ne_length (n : Nat) : toString n ≠ "length" := by
  intro h
  obtain ⟨l, hl, hparse, _⟩ := toDigitsCore_spec (n + 1) n [] (Nat.lt_succ_self n)
  have hlist : (toString n).toList = l := by
    show Nat.toDigits 10 n = l
    rw [Nat.toDigits, hl, List.append_nil]
  have h0 := hparse 0
  have hnone : parseDigits "length".toList 0 = none := by decide
  rw [← hlist, h, hnone] at h0
  cases h0

theorem arrayIndex_negative (m : Nat) : arrayIndex (toString (Int.negSucc m)) = none := by
  have h : (toString (Int.negSucc m)).toList = '-' :: (toString (m + 1)).toList := by
    show ("-" ++ toString (m + 1)).toList = _
    simp [String.toList, String.data_append]
  unfold arrayIndex
  rw [h]
  obtain ⟨l, hl, hparse, c, cs, hc, hhead⟩ :=
    toDigitsCore_spec (m + 1 + 1) (m + 1) [] (Nat.lt_succ_self _)
  have hlist : (toString (m + 1)).toList = l := by
    show Nat.toDigits 10 (m + 1) = l
    rw [Nat.toDigits, hl, List.append_nil]
  rw [hlist, hc]
  simp [parseDigits]

theorem toString_negative_ne_length (m : Nat) : toString (Int.negSucc m) ≠ "length" := by
  intro h
  have h1 : (toString (Int.negSucc m)).toList = '-' :: (toString (m + 1)).toList := by
    show ("-" ++ toString (m + 1)).toList = _
    simp [String.toList, String.data_append]
  rw [h] at h1
  simp at h1

theorem prop_arr_index (ps : List JsVal) (n : Nat) (hlen : ps.length < 4294967296) :
    (JsVal.arr ps).prop (indexKey (some (Int.ofNat n))) = ps.getD n .undefined := by
  have hk : indexKey (some (Int.ofNat n)) = toString n := rfl
  rw [hk]
  simp only [JsVal.prop, toString_nat_ne_length n, if_false, arrayIndex_toString_nat]
  by_cases hn : n ≤ 4294967294
  · simp [hn]
  · have hout : ps.length ≤ n := by omega
    simp [hn, List.getElem?_eq_none hout]

theorem prop_arr_negative (ps : List JsVal) (m : Nat) :
    (JsVal.arr ps).prop (indexKey (some (Int.negSucc m))) = .undefined := by
  have hk : indexKey (some (Int.negSucc m)) = toString (Int.negSucc m) := rfl
  rw [hk]
  simp only [JsVal.prop, toString_negative_ne_length m, if_false, arrayIndex_negative]

theorem prop_arr_nan (ps : List JsVal) : (JsVal.arr ps).prop (indexKey none) = .undefined := by
  rfl

/-! ### getProcessDetail -/

/-- C28: with an active manifest whose `processes` is an array of descriptors
(objects), `getProcessDetail(i)` returns the descriptor at position `i` for
every `0 ≤ i < length`, and returns `null`, without raising, for every other
index (negative, `≥ length`, or `NaN`). -/
theorem getProcessDetail_in_and_out_of_range {δ : Type} (svc : SessionService δ)
    (ps : List JsVal)
    (hactive : svc.currentSession.truthy = true)
    (hprocs : svc.currentSession.prop "processes" = .arr ps)
    (hlen : ps.length < 4294967296)
    (hdesc : ∀ p ∈ ps, p.truthy = true) :
    (∀ (i : Nat) (p : JsVal), ps[i]? = some p →
      getProcessDetail svc (some (Int.ofNat i)) = .ok p) ∧
    (∀ i : Nat, ps.length ≤ i → getProcessDetail svc (some (Int.ofNat i)) = .ok .null) ∧
    (∀ m : Nat, getProcessDetail svc (some (Int.negSucc m)) = .ok .null) ∧
    getProcessDetail svc none = .ok .null := by
  have hunf : ∀ idx, getProcessDetail svc idx
      = .ok (((JsVal.arr ps).prop (indexKey idx)).orElse .null) := by
    intro idx
    simp only [getProcessDetail, hactive, hprocs]
    rfl
  refine ⟨?_, ?_, ?_, ?_⟩
  · intro i p hp
    rw [hunf, prop_arr_index ps i hlen]
    have hmem : p ∈ ps := List.mem_iff_getElem?.2 ⟨i, hp⟩
    have hget : ps.getD i .undefined = p := by
      simp [List.getD_eq_getElem?_getD, hp]
    rw [hget]
    simp [JsVal.orElse, hdesc p hmem]
  · intro i hi
    rw [hunf, prop_arr_index ps i hlen, List.getD_eq_default _ _ hi]
    rfl
  · intro m
    rw [hunf, prop_arr_negative]
    rfl
  · rw [hunf, prop_arr_nan]
    rfl

/-- Witness for C28: with the two descriptors `A` and `B` active, index 1 gives
`B`, and the indices 2 and -1 give `null`. -/
theorem getProcessDetail_in_and_out_of_range_witness :
    getProcessDetail
        ({ sessionsDir := "sessions", disk := (),
           currentSession := .obj [("processes",
             .arr [sampleProcess "editor" "A", sampleProcess "paint" "B"])] } :
          SessionService Unit) (some 1) = .ok (sampleProcess "paint" "B") ∧
    getProcessDetail
        ({ sessionsDir := "sessions", disk := (),
           currentSession := .obj [("processes",
             .arr [sampleProcess "editor" "A", sampleProcess "paint" "B"])] } :
          SessionService Unit) (some 2) = .ok .null ∧
    getProcessDetail
        ({ sessionsDir := "sessions", disk := (),
           currentSession := .obj [("processes",
             .arr [sampleProcess "editor" "A", sampleProcess "paint" "B"])] } :
          SessionService Unit) (some (-1)) = .ok .null := by
  have h := getProcessDetail_in_and_out_of_range
      ({ sessionsDir := "sessions", disk := (),
         currentSession := .obj [("processes",
           .arr [sampleProcess "editor" "A", sampleProcess "paint" "B"])] } :
        SessionService Unit)
      [sampleProcess "editor" "A", sampleProcess "paint" "B"] (by rfl) (by rfl) (by decide)
      (by intro p hp; simp at hp; rcases hp with h | h <;> subst h <;> rfl)
  exact ⟨h.1 1 _ (by rfl), h.2.1 2 (by decide), h.2.2.1 0⟩

/-! ### loadSession -/

/-- C21 fails as stated: a stored record that is well-formed JSON but that
`validate` rejects (version `0.0.1`; the number `5`, which is not an object) is
loaded without an error and replaces the active manifest. -/
theorem loadSession_accepts_rejected_record :
    validateSessionManifest staleManifest = .invalid (.unsupportedVersion (.str "0.0.1")) ∧
    (loadSession recordPlatform "old" recordService).2 = .ok staleManifest ∧
    (loadSession recordPlatform "old" recordService).1.currentSession = staleManifest ∧
    validateSessionManifest (.num 5) = .invalid .invalidManifestObject ∧
    (loadSession recordPlatform "five" recordService).2 = .ok (.num 5) ∧
    (loadSession recordPlatform "five" recordService).1.currentSession = .num 5 :=
  ⟨by rfl, by rfl, by rfl, by rfl, by rfl, by rfl⟩

/-- C21 as amended: `loadSession(id)` raises, and leaves the active manifest as
it was, whenever the record of `id` cannot be read or is not well-formed JSON;
a record that parses is returned and becomes the active manifest, whether or
not `validate` accepts it. -/
theorem loadSession_fails_only_when_unreadable {δ τ : Type} (pf : Platform δ τ)
    (sessionId : String) (svc : SessionService δ) :
    (∀ e, pf.readFile (pf.join svc.sessionsDir (sessionId ++ ".json")) svc.disk = .error e →
      loadSession pf sessionId svc = (svc, .error e)) ∧
    (∀ data e, pf.readFile (pf.join svc.sessionsDir (sessionId ++ ".json")) svc.disk = .ok data →
      pf.parse data = .error e → loadSession pf sessionId svc = (svc, .error e)) ∧
    (∀ data m, pf.readFile (pf.join svc.sessionsDir (sessionId ++ ".json")) svc.disk = .ok data →
      pf.parse data = .ok m →
      loadSession pf sessionId svc = ({ svc with currentSession := m }, .ok m)) := by
  refine ⟨?_, ?_, ?_⟩
  · intro e hr
    simp [loadSession, hr]
  · intro data e hr hp
    simp [loadSession, hr, hp]
  · intro data m hr hp
    simp [loadSession, hr, hp]

/-- Witness for C21 as amended: the record `bad` is not JSON, loading it raises
and the active manifest stays; the record `old` parses and becomes active;
there is no record `ghost`. -/
theorem loadSession_fails_only_when_unreadable_witness :
    loadSession recordPlatform "ghost" recordService
      = (recordService,
          .error (.error "ENOENT: no such file or directory, open sessions/ghost.json")) ∧
    loadSession recordPlatform "bad" recordService
      = (recordService, .error (.error "SyntaxError: Unexpected token in JSON")) ∧
    loadSession recordPlatform "old" recordService
      = ({ recordService with currentSession := staleManifest }, .ok staleManifest) :=
  ⟨(loadSession_fails_only_when_unreadable recordPlatform "ghost" recordService).1 _ (by rfl),
   (loadSession_fails_only_when_unreadable recordPlatform "bad" recordService).2.1 none _
     (by rfl) (by rfl),
   (loadSession_fails_only_when_unreadable recordPlatform "old" recordService).2.2
     (some staleManifest) staleManifest (by rfl) (by rfl)⟩

/-! ### Saving, then loading -/

theorem memoryPlatform_lawful : memoryPlatform.Lawful where
  read_written := by
    intro path data disk _
    simp [memoryPlatform, lookup_mapSet_same]
  read_other := by
    intro path other data disk hne
    simp [memoryPlatform, lookup_mapSet_other path other data disk hne]

/-- C22: on a platform whose file system reads back what was written and keeps
the other files, for every id and every manifest `m` that JSON represents
(`parse (stringify m) = m`), after a successful `saveSession(id, m)`
`loadSession(id)` returns `m`, whatever the disk held before, and loading any id
stored in another file returns what it returned before the save. -/
theorem save_then_load_round_trip {δ τ : Type} (pf : Platform δ τ) (hlaw : pf.Lawful)
    (sessionId : String) (m : JsVal) (svc : SessionService δ) (data : τ)
    (hs : pf.stringify m = .ok data) (hp : pf.parse data = .ok m)
    (hw : (pf.writeFile (pf.join svc.sessionsDir (sessionId ++ ".json")) data svc.disk).2
      = .ok ()) :
    (∃ r, (saveSession pf sessionId m svc).2 = .ok r) ∧
    (loadSession pf sessionId (saveSession pf sessionId m svc).1).2 = .ok m ∧
    (∀ other, pf.join svc.sessionsDir (other ++ ".json")
        ≠ pf.join svc.sessionsDir (sessionId ++ ".json") →
      (loadSession pf other (saveSession pf sessionId m svc).1).2
        = (loadSession pf other svc).2) := by
  rw [saveSession_of_written pf sessionId m svc data hs hw]
  refine ⟨⟨_, rfl⟩, ?_, ?_⟩
  · simp [loadSession, hlaw.read_written _ _ _ hw, hp]
  · intro other hne
    simp only [loadSession, hlaw.read_other _ _ data svc.disk hne]
    cases pf.readFile (pf.join svc.sessionsDir (other ++ ".json")) svc.disk with
    | error e => rfl
    | ok d =>
      simp only
      cases pf.parse d <;> rfl

/-- Witness for C22: on the in-memory platform, saving the current manifest
under `a`, where the stale one was stored, and loading `a` returns the current
manifest; the record stored under `b` still loads as before. -/
theorem save_then_load_round_trip_witness :
    (loadSession memoryPlatform "a"
        (saveSession memoryPlatform "a" currentManifest
          { sessionsDir := "sessions", currentSession := .null,
            disk := [("sessions/a.json", staleManifest),
                     ("sessions/b.json", settingsManifest)] }).1).2 = .ok currentManifest ∧
    (loadSession memoryPlatform "b"
        (saveSession memoryPlatform "a" currentManifest
          { sessionsDir := "sessions", currentSession := .null,
            disk := [("sessions/a.json", staleManifest),
                     ("sessions/b.json", settingsManifest)] }).1).2 = .ok settingsManifest := by
  have h := save_then_load_round_trip memoryPlatform memoryPlatform_lawful "a" currentManifest
    { sessionsDir := "sessions", currentSession := .null,
      disk := [("sessions/a.json", staleManifest), ("sessions/b.json", settingsManifest)] }
    currentManifest (by rfl) (by rfl) (by rfl)
  refine ⟨h.2.1, ?_⟩
  rw [h.2.2 "b" (by decide)]
  rfl

/-! ### listSessions -/

/-- C23: a manifest saved under the id `a.json.bak` is listed under the id
`a.bak.json`: `file.replace('.json', '')` removes the first `.json` of the
file name `a.json.bak.json`, not its extension. An id without `.json` in it,
like `s1`, is listed as saved. -/
theorem listSessions_id_differs_from_saved_id :
    listSessions memoryPlatform
        (saveSession memoryPlatform "a.json.bak" (createSessionManifest (.str "t0"))
          (SessionService.initial "sessions" [])).1
      = .ok (.arr [.obj [("id", .str "a.bak.json"), ("timestamp", .str "t0"),
                          ("metadata", .obj [])]]) ∧
    listSessions memoryPlatform
        (saveSession memoryPlatform "s1" (createSessionManifest (.str "t0"))
          (SessionService.initial "sessions" [])).1
      = .ok (.arr [.obj [("id", .str "s1"), ("timestamp", .str "t0"),
                          ("metadata", .obj [])]]) :=
  ⟨by rfl, by rfl⟩

/-! ### getVFSTree: the prefix filter -/

theorem treeLoop_filter (rootPath : String) (hroot : rootPath ≠ "/") :
    ∀ (es : List (String × JsVal)) (tree : JsVal),
      treeLoop rootPath es tree
        = treeLoop rootPath (es.filter (fun e => jsStartsWith e.1 rootPath)) tree
  | [], _ => rfl
  | (path, node) :: rest, tree => by
    have hr : (rootPath == "/") = false := by simpa using hroot
    cases hs : jsStartsWith path rootPath
    · simp only [treeLoop, hs, hr, Bool.or_false, Bool.false_eq_true, if_false,
        List.filter_cons_of_neg, not_false_eq_true]
      exact treeLoop_filter rootPath hroot rest tree
    · rw [List.filter_cons_of_pos (by simpa using hs)]
      simp only [treeLoop, hs, Bool.true_or, if_true]
      cases insertParts node (pathParts path) tree with
      | error e => rfl
      | ok tree' => exact treeLoop_filter rootPath hroot rest tree'

theorem treeLoop_root :
    ∀ (es : List (String × JsVal)) (tree : JsVal),
      treeLoop "/" es tree
        = es.foldlM (fun t e => insertParts e.2 (pathParts e.1) t) tree
  | [], _ => rfl
  | (path, node) :: rest, tree => by
    simp only [treeLoop, beq_self_eq_true, Bool.or_true, if_true, List.foldlM_cons]
    cases insertParts node (pathParts path) tree with
    | error e => rfl
    | ok tree' => exact treeLoop_root rest tree'

/-- C24: for an active manifest with vfs entries `es` and a `rootPath` other
than `/`, `getVFSTree(rootPath)` equals `getVFSTree(rootPath)` of any active
manifest whose vfs entries are those of `es` whose path starts with `rootPath`;
for the root `/` every entry is inserted, in order. -/
theorem getVFSTree_prefix_filter {δ : Type} (svc : SessionService δ) (rootPath : String)
    (es : List (String × JsVal))
    (hactive : svc.currentSession.truthy = true)
    (hvfs : (svc.currentSession.prop "vfs").entries = .ok es) :
    (∀ restricted : SessionService δ, rootPath ≠ "/" →
      restricted.currentSession.truthy = true →
      (restricted.currentSession.prop "vfs").entries
        = .ok (es.filter (fun e => jsStartsWith e.1 rootPath)) →
      getVFSTree svc rootPath = getVFSTree restricted rootPath) ∧
    (rootPath = "/" →
      getVFSTree svc rootPath
        = es.foldlM (fun t e => insertParts e.2 (pathParts e.1) t) (.obj [])) := by
  refine ⟨?_, ?_⟩
  · intro restricted hroot hact hres
    simp only [getVFSTree, hactive, hact, hvfs, hres, Bool.not_true, Bool.false_eq_true,
      if_false]
    rw [treeLoop_filter rootPath hroot es, treeLoop_filter rootPath hroot (es.filter _),
      List.filter_filter]
  · intro hroot
    subst hroot
    simp only [getVFSTree, hactive, hvfs, Bool.not_true, Bool.false_eq_true, if_false]
    exact treeLoop_root es _

/-- Witness for C24: with the paths `home:/a.txt` and `home:/dir/b.txt` and the
root `home:/dir`, the tree is that of the vfs holding `home:/dir/b.txt` alone,
which has no key `a.txt`. -/
theorem getVFSTree_prefix_filter_witness :
    getVFSTree treeService "home:/dir" = getVFSTree dirOnlyService "home:/dir" ∧
    getVFSTree treeService "home:/dir"
      = .ok (.obj [("home:", .obj [("dir", .obj [("b.txt", sampleLeaf "B")])])]) :=
  ⟨(getVFSTree_prefix_filter treeService "home:/dir"
      [("home:/a.txt", sampleTextFile "A"), ("home:/dir/b.txt", sampleTextFile "B")]
      (by rfl) (by rfl)).1 dirOnlyService (by decide) (by rfl) (by rfl),
   by rfl⟩

/-! ### inspectSession -/

theorem num_orElse_zero (n : Nat) :
    (JsVal.num (Int.ofNat n)).orElse (.num 0) = .num (Int.ofNat n) := by
  cases n with
  | zero => rfl
  | succ k =>
    have h : (Int.ofNat (k + 1) != 0) = true := by
      simp only [bne_iff_ne, ne_eq]
      exact Int.ofNat_ne_zero.2 (Nat.succ_ne_zero k)
    simp only [JsVal.orElse, JsVal.truthy, h, if_true]

/-- C25: with an active manifest whose `processes` is the sequence `ps` and
whose `vfs` is a mapping with entries `es`, `inspectSession()` returns the
manifest's version, timestamp and metadata, `processCount` = the length of
`ps`, `fileCount` = the number of keys of the vfs, and `processes` = `ps`. -/
theorem inspectSession_reports_counts {δ : Type} (svc : SessionService δ)
    (ps : List JsVal) (es : List (String × JsVal))
    (hactive : svc.currentSession.truthy = true)
    (hprocs : svc.currentSession.prop "processes" = .arr ps)
    (hvfs : svc.currentSession.prop "vfs" = .obj es) :
    inspectSession svc
      = .ok (.obj [("version", svc.currentSession.prop "version"),
                   ("timestamp", svc.currentSession.prop "timestamp"),
                   ("metadata", svc.currentSession.prop "metadata"),
                   ("processCount", .num (Int.ofNat ps.length)),
                   ("fileCount", .num (Int.ofNat es.length)),
                   ("processes", .arr ps)]) := by
  have hcount : ((JsVal.arr ps).optProp "length").orElse (.num 0)
      = .num (Int.ofNat ps.length) := by
    have h : (JsVal.arr ps).optProp "length" = .num (Int.ofNat ps.length) := by
      simp [JsVal.optProp, JsVal.nullish, JsVal.prop]
    rw [h, num_orElse_zero]
  simp only [inspectSession, hactive, hprocs, hvfs, hcount, Bool.not_true, Bool.false_eq_true,
    if_false]
  simp [JsVal.orElse, JsVal.truthy, keyCount, JsVal.entries]

/-- Witness for C25: the sample manifest has three processes and two vfs
nodes. -/
theorem inspectSession_reports_counts_witness :
    inspectSession inspectedService
      = .ok (.obj [("version", .str "1.0.0"), ("timestamp", .str "t0"), ("metadata", .obj []),
                   ("processCount", .num 3), ("fileCount", .num 2),
                   ("processes", .arr [sampleProcess "editor" "A", sampleProcess "paint" "B",
                     .obj [("type", .str "editor"), ("appState", .obj [])]])]) :=
  inspectSession_reports_counts inspectedService
    [sampleProcess "editor" "A", sampleProcess "paint" "B",
      .obj [("type", .str "editor"), ("appState", .obj [])]]
    [("home:/docs", sampleFolder), ("home:/docs/a.txt", sampleTextFile "A")]
    (by rfl) (by rfl) (by rfl)

/-! ### inspectVFS -/

theorem mem_of_lookup_eq_some (k : String) (v : JsVal) :
    ∀ props : List (String × JsVal), lookup k props = some v → (k, v) ∈ props
  | [], h => by simp [lookup] at h
  | (k', v') :: rest, h => by
    by_cases hk : k' = k
    · subst hk
      simp [lookup] at h
      simp [h]
    · simp only [lookup] at h
      rw [if_neg (by simpa using hk)] at h
      exact List.mem_cons_of_mem _ (mem_of_lookup_eq_some k v rest h)

theorem mapThrowing_listing :
    ∀ es : List (String × JsVal), (∀ e ∈ es, e.2.nullish = false) →
      mapThrowing vfsListingRecord es
        = .ok (es.map (fun e =>
            .obj [("path", .str e.1),
                  ("type", .str (if (e.2.prop "isDirectory").truthy then "directory"
                                 else "file")),
                  ("size", e.2.prop "size"), ("mime", e.2.prop "mime")]))
  | [], _ => rfl
  | e :: rest, h => by
    have he := h e (List.mem_cons_self _ _)
    have ih := mapThrowing_listing rest (fun x hx => h x (List.mem_cons_of_mem _ hx))
    simp only [mapThrowing, vfsListingRecord, JsVal.getProp, he, ih, Bool.false_eq_true,
      if_false, List.map_cons]

/-- C26 fails as stated: the empty string is not a key of the vfs, yet
`inspectVFS("")` returns the listing of every node, not `null`: the guard
`if (filePath)` takes the empty path for an absent one. -/
theorem inspectVFS_empty_path_lists :
    lookup "" [("home:/docs", sampleFolder), ("home:/docs/a.txt", sampleTextFile "A")] = none ∧
    inspectedService.currentSession.prop "vfs"
      = .obj [("home:/docs", sampleFolder), ("home:/docs/a.txt", sampleTextFile "A")] ∧
    inspectVFS inspectedService (some "")
      = .ok (.arr [.obj [("path", .str "home:/docs"), ("type", .str "directory"),
                         ("size", .num 0), ("mime", .null)],
                   .obj [("path", .str "home:/docs/a.txt"), ("type", .str "file"),
                         ("size", .num 1), ("mime", .str "text/plain")]]) :=
  ⟨by rfl, by rfl, by rfl⟩

/-- C26 as amended: with an active manifest whose vfs is a mapping of node
objects, `inspectVFS()` returns one `{path, type, size, mime}` record per node,
in mapping order, with type `directory` exactly when the node's `isDirectory`
is truthy and `file` otherwise, and no content; the empty path is treated as no
path; for a non-empty path `p` that is not the name of a member objects inherit,
`inspectVFS(p)` returns the raw node when `p` is a key and `null` when it is
not. -/
theorem inspectVFS_listing_and_lookup {δ : Type} (svc : SessionService δ)
    (es : List (String × JsVal))
    (hactive : svc.currentSession.truthy = true)
    (hvfs : svc.currentSession.prop "vfs" = .obj es)
    (hnodes : ∀ e ∈ es, ∃ pr, e.2 = .obj pr) :
    inspectVFS svc none
      = .ok (.arr (es.map (fun e =>
          .obj [("path", .str e.1),
                ("type", .str (if (e.2.prop "isDirectory").truthy then "directory"
                               else "file")),
                ("size", e.2.prop "size"), ("mime", e.2.prop "mime")]))) ∧
    inspectVFS svc (some "") = inspectVFS svc none ∧
    (∀ p node, p ≠ "" → p ∉ objectPrototypeKeys → lookup p es = some node →
      inspectVFS svc (some p) = .ok node) ∧
    (∀ p, p ≠ "" → p ∉ objectPrototypeKeys → p ∉ es.map Prod.fst →
      inspectVFS svc (some p) = .ok .null) := by
  have hnn : ∀ e ∈ es, e.2.nullish = false := by
    intro e he
    obtain ⟨pr, hpr⟩ := hnodes e he
    rw [hpr]
    rfl
  refine ⟨?_, ?_, ?_, ?_⟩
  · simp only [inspectVFS, hactive, givenArg, hvfs, JsVal.entries, mapThrowing_listing es hnn,
      Bool.not_true, Bool.false_eq_true, if_false]
  · simp [inspectVFS, givenArg]
  · intro p node hp _ hl
    have hg : givenArg (some p) = some p := by simp [givenArg, hp]
    obtain ⟨pr, hpr⟩ := hnodes (p, node) (mem_of_lookup_eq_some p node es hl)
    simp only at hpr
    subst hpr
    have hget : (svc.currentSession.prop "vfs").getProp p = .ok (.obj pr) := by
      rw [hvfs]
      simp [JsVal.getProp, JsVal.nullish, JsVal.prop, hl]
    simp only [inspectVFS, hactive, hg, hget, Bool.not_true, Bool.false_eq_true, if_false]
    rfl
  · intro p hp _ hl
    have hg : givenArg (some p) = some p := by simp [givenArg, hp]
    have hnone := (lookup_eq_none_iff p es).2 hl
    have hget : (svc.currentSession.prop "vfs").getProp p = .ok .undefined := by
      rw [hvfs]
      simp [JsVal.getProp, JsVal.nullish, JsVal.prop, hnone]
    simp only [inspectVFS, hactive, hg, hget, Bool.not_true, Bool.false_eq_true, if_false]
    rfl

/-- Witness for C26 as amended: the path `home:/docs/a.txt` gives the raw file
node with its content, and the path `home:/nope` gives `null`. -/
theorem inspectVFS_listing_and_lookup_witness :
    inspectVFS inspectedService (some "home:/docs/a.txt") = .ok (sampleTextFile "A") ∧
    inspectVFS inspectedService (some "home:/nope") = .ok .null := by
  have h := inspectVFS_listing_and_lookup inspectedService
    [("home:/docs", sampleFolder), ("home:/docs/a.txt", sampleTextFile "A")]
    (by rfl) (by rfl)
    (by
      intro e he
      simp at he
      rcases he with h | h <;> subst h
      · exact ⟨_, rfl⟩
      · exact ⟨_, rfl⟩)
  exact ⟨h.2.2.1 "home:/docs/a.txt" _ (by decide) (by decide) (by rfl),
    h.2.2.2 "home:/nope" (by decide) (by decide) (by decide)⟩

/-! ### inspectProcesses -/

theorem keyCount_orElse (v : JsVal) : ∃ n, keyCount (v.orElse (.obj [])) = .ok n := by
  unfold JsVal.orElse
  split
  · cases v <;> simp_all [JsVal.truthy, keyCount, JsVal.entries]
  · exact ⟨0, rfl⟩

theorem filterByType_eq_filter (t : String) :
    ∀ ps : List JsVal, (∀ p ∈ ps, p.nullish = false) →
      filterByType t ps = .ok (ps.filter (fun p => (p.prop "type").strictEqStr t))
  | [], _ => rfl
  | p :: rest, h => by
    have hp := h p (List.mem_cons_self _ _)
    have ih := filterByType_eq_filter t rest (fun x hx => h x (List.mem_cons_of_mem _ hx))
    simp only [filterByType, JsVal.getProp, hp, ih, Bool.false_eq_true, if_false]
    cases hc : (p.prop "type").strictEqStr t
    · simp [List.filter_cons, hc]
    · simp [List.filter_cons, hc]

theorem summarize_spec :
    ∀ ps : List JsVal, (∀ p ∈ ps, p.nullish = false) →
      ∃ ss, summarize ps = .ok ss ∧
        List.Forall₂ (fun p s =>
          ∃ n, keyCount ((p.prop "appState").orElse (.obj [])) = .ok n ∧
            s = .obj [("type", p.prop "type"),
                      ("title", (p.prop "windowState").optProp "title"),
                      ("timestamp", p.prop "timestamp"),
                      ("hasAppState", .bool (decide (n > 0)))]) ps ss
  | [], _ => ⟨[], rfl, List.Forall₂.nil⟩
  | p :: rest, h => by
    have hp := h p (List.mem_cons_self _ _)
    obtain ⟨ss, hss, hall⟩ := summarize_spec rest (fun x hx => h x (List.mem_cons_of_mem _ hx))
    obtain ⟨n, hn⟩ := keyCount_orElse (p.prop "appState")
    refine ⟨_ :: ss, ?_, List.Forall₂.cons ⟨n, hn, rfl⟩ hall⟩
    simp only [summarize, processSummary, JsVal.getProp, hp, hn, hss, Bool.false_eq_true,
      if_false]

/-- C27 fails as stated: no process of the sample manifest has the type `""`,
so the descriptors of that type are none, yet `inspectProcesses("")` returns
the three summaries: the guard `if (processType)` takes the empty type for an
absent one. -/
theorem inspectProcesses_empty_type_summarizes :
    [sampleProcess "editor" "A", sampleProcess "paint" "B",
        JsVal.obj [("type", .str "editor"), ("appState", .obj [])]].filter
      (fun p => (p.prop "type").strictEqStr "") = [] ∧
    inspectProcesses inspectedService (some "")
      = .ok (.arr [.obj [("type", .str "editor"), ("title", .str "A"), ("timestamp", .num 0),
                         ("hasAppState", .bool true)],
                   .obj [("type", .str "paint"), ("title", .str "B"), ("timestamp", .num 0),
                         ("hasAppState", .bool true)],
                   .obj [("type", .str "editor"), ("title", .undefined),
                         ("timestamp", .undefined), ("hasAppState", .bool false)]]) :=
  ⟨by rfl, by rfl⟩

/-- C27 as amended: with an active manifest whose `processes` is a sequence of
descriptors, none `null` or `undefined`, `inspectProcesses()` returns one
`{type, title, timestamp, hasAppState}` summary per process, in order and of the
same length, with `hasAppState` true exactly when `appState || {}` has at least
one key; the empty type is treated as no type; for a non-empty `t`,
`inspectProcesses(t)` returns exactly the descriptors whose type equals `t`,
unmodified and in order. -/
theorem inspectProcesses_summaries_and_filter {δ : Type} (svc : SessionService δ)
    (ps : List JsVal)
    (hactive : svc.currentSession.truthy = true)
    (hprocs : svc.currentSession.prop "processes" = .arr ps)
    (hdesc : ∀ p ∈ ps, p.nullish = false) :
    (∃ ss, inspectProcesses svc none = .ok (.arr ss) ∧ ss.length = ps.length ∧
      List.Forall₂ (fun p s =>
        ∃ n, keyCount ((p.prop "appState").orElse (.obj [])) = .ok n ∧
          s = .obj [("type", p.prop "type"),
                    ("title", (p.prop "windowState").optProp "title"),
                    ("timestamp", p.prop "timestamp"),
                    ("hasAppState", .bool (decide (n > 0)))]) ps ss) ∧
    inspectProcesses svc (some "") = inspectProcesses svc none ∧
    (∀ t, t ≠ "" →
      inspectProcesses svc (some t)
        = .ok (.arr (ps.filter (fun p => (p.prop "type").strictEqStr t)))) := by
  have hor : (svc.currentSession.prop "processes").orElse (.arr []) = .arr ps := by
    rw [hprocs]
    rfl
  refine ⟨?_, ?_, ?_⟩
  · obtain ⟨ss, hss, hall⟩ := summarize_spec ps hdesc
    refine ⟨ss, ?_, hall.length_eq.symm, hall⟩
    simp only [inspectProcesses, hactive, hor, givenArg, hss, Bool.not_true,
      Bool.false_eq_true, if_false]
  · simp [inspectProcesses, givenArg]
  · intro t ht
    have hg : givenArg (some t) = some t := by simp [givenArg, ht]
    simp only [inspectProcesses, hactive, hor, hg, filterByType_eq_filter t ps hdesc,
      Bool.not_true, Bool.false_eq_true, if_false]

/-- Witness for C27 as amended: of the three sample processes, the type
`editor` selects the first and the third, unmodified. -/
theorem inspectProcesses_summaries_and_filter_witness :
    inspectProcesses inspectedService (some "editor")
      = .ok (.arr [sampleProcess "editor" "A",
                   .obj [("type", .str "editor"), ("appState", .obj [])]]) := by
  have h := inspectProcesses_summaries_and_filter inspectedService
    [sampleProcess "editor" "A", sampleProcess "paint" "B",
      .obj [("type", .str "editor"), ("appState", .obj [])]]
    (by rfl) (by rfl)
    (by
      intro p hp
      simp at hp
      rcases hp with h | h | h <;> subst h <;> rfl)
  rw [h.2.2 "editor" (by decide)]
  rfl

/-! ### getVFSTree on a vfs in capture order -/

theorem walk_append : ∀ (p q : List String) (T : JsVal),
    walk T (p ++ q) = (walk T p).bind (fun v => walk v q)
  | [], q, T => by simp [walk_nil]
  | k :: ks, q, T => by
    cases T with
    | obj props =>
      simp only [List.cons_append, walk]
      cases lookup k props with
      | none => rfl
      | some c => exact walk_append ks q c
    | _ => simp [walk]

theorem comparable_snoc (pa pe : List String) (f : String)
    (h : Comparable (pa ++ [f]) pe) : (∃ t, pe = pa ++ f :: t) ∨ (∃ t, pa = pe ++ t) := by
  rcases h with ⟨t, ht⟩ | ⟨t, ht⟩
  · exact Or.inl ⟨t, by simp [ht]⟩
  · rcases List.eq_nil_or_concat t with h | ⟨t', x, h⟩
    · subst h
      exact Or.inl ⟨[], by simpa using ht.symm⟩
    · subst h
      have h2 : pa ++ [f] = (pe ++ t') ++ [x] := by
        rw [ht, List.concat_eq_append, List.append_assoc]
      exact Or.inr ⟨t', (List.append_inj' h2 rfl).1⟩

theorem treeLeaf_eq (node leaf : JsVal) (h : treeLeaf node = .ok leaf) :
    leaf = .obj [("type", .str (if (node.prop "isDirectory").truthy then "directory"
                                else "file")),
                 ("mime", node.prop "mime"), ("size", node.prop "size"),
                 ("content", node.prop "content")] := by
  cases hn : node.nullish
  · simp only [treeLeaf, JsVal.getProp, hn, Bool.false_eq_true, if_false,
      Except.ok.injEq] at h
    exact h.symm
  · simp [treeLeaf, JsVal.getProp, hn] at h

theorem treeLeaf_keys (node leaf : JsVal) (h : treeLeaf node = .ok leaf) (k : String)
    (ks : List String) (v : JsVal) (hw : walk leaf (k :: ks) = some v) : k ∈ leafFields := by
  rw [treeLeaf_eq node leaf h] at hw
  by_contra hk
  have hn := (lookup_eq_none_iff k
    [("type", .str (if (node.prop "isDirectory").truthy then "directory" else "file")),
     ("mime", node.prop "mime"), ("size", node.prop "size"),
     ("content", node.prop "content")]).2 (by simpa [leafFields] using hk)
  simp [walk, hn] at hw

theorem treeLoop_ordered_spec (rootPath : String) :
    ∀ (es : List (String × JsVal)) (props : List (String × JsVal))
      (done : List (String × JsVal)),
      (∀ a ∈ done, ∃ leaf, treeLeaf a.2 = .ok leaf ∧
        ∀ f ∈ leafFields, walk (.obj props) (pathParts a.1 ++ [f]) = walk leaf [f]) →
      (∀ p v, walk (.obj props) p = some v →
        (∃ pr, v = .obj pr) ∨
          ∃ a ∈ done, ∃ f ∈ leafFields, ∃ t, p = pathParts a.1 ++ f :: t) →
      (∀ e ∈ es, e.2.nullish = false) →
      (∀ e ∈ es, pathParts e.1 ≠ []) →
      (∀ e ∈ es, (jsStartsWith e.1 rootPath || rootPath == "/") = true) →
      es.Pairwise (fun a b => SafeOrder (pathParts a.1) (pathParts b.1)) →
      (∀ a ∈ done, ∀ e ∈ es, SafeOrder (pathParts a.1) (pathParts e.1)) →
      ∃ pr', treeLoop rootPath es (.obj props) = .ok (.obj pr') ∧
        ∀ a ∈ done ++ es, ∃ leaf, treeLeaf a.2 = .ok leaf ∧
          ∀ f ∈ leafFields, walk (.obj pr') (pathParts a.1 ++ [f]) = walk leaf [f]
  | [], props, done, h1, _, _, _, _, _, _ => ⟨props, rfl, by simpa using h1⟩
  | e :: rest, props, done, h1, h2, hnodes, hne, hroot, hpw, hdone => by
    have hnode := hnodes e (List.mem_cons_self _ _)
    obtain ⟨leaf, hleaf⟩ := treeLeaf_of_not_nullish e.2 hnode
    rw [List.pairwise_cons] at hpw
    have hopen : ∀ p t v, pathParts e.1 = p ++ t → t ≠ [] →
        walk (.obj props) p = some v → ∃ pr, v = .obj pr := by
      intro p t v hp _ hw
      rcases h2 p v hw with h | ⟨a, ha, f, hf, t', ht'⟩
      · exact h
      · exact absurd ⟨t' ++ t, by rw [hp, ht']; simp⟩
          ((hdone a ha e (List.mem_cons_self _ _)).2 f hf)
    obtain ⟨pr1, hins, hself, hother, hpre⟩ :=
      insertParts_spec e.2 leaf hleaf (pathParts e.1) (.obj props)
        (hne e (List.mem_cons_self _ _)) hopen
    have h1' : ∀ a ∈ done ++ [e], ∃ leaf, treeLeaf a.2 = .ok leaf ∧
        ∀ f ∈ leafFields, walk (.obj pr1) (pathParts a.1 ++ [f]) = walk leaf [f] := by
      intro a ha
      rcases List.mem_append.1 ha with h | h
      · obtain ⟨la, hla, hfields⟩ := h1 a h
        refine ⟨la, hla, fun f hf => ?_⟩
        have hnc : ¬ Comparable (pathParts a.1 ++ [f]) (pathParts e.1) := by
          intro hc
          rcases comparable_snoc _ _ _ hc with hx | hx
          · exact (hdone a h e (List.mem_cons_self _ _)).2 f hf hx
          · exact (hdone a h e (List.mem_cons_self _ _)).1 hx
        rw [hother _ hnc]
        exact hfields f hf
      · rw [List.mem_singleton.1 h]
        refine ⟨leaf, hleaf, fun f _ => ?_⟩
        rw [walk_append, hself]
        rfl
    have h2' : ∀ p v, walk (.obj pr1) p = some v →
        (∃ pr, v = .obj pr) ∨
          ∃ a ∈ done ++ [e], ∃ f ∈ leafFields, ∃ t, p = pathParts a.1 ++ f :: t := by
      intro p v hw
      by_cases hx : ∃ t, p = pathParts e.1 ++ t
      · obtain ⟨t, ht⟩ := hx
        cases t with
        | nil =>
          rw [ht, List.append_nil, hself] at hw
          exact Or.inl ⟨_, (Option.some.inj hw).symm.trans (treeLeaf_eq e.2 leaf hleaf)⟩
        | cons k t' =>
          rw [ht, walk_append, hself] at hw
          exact Or.inr ⟨e, by simp, k, treeLeaf_keys e.2 leaf hleaf k t' v hw, t', ht⟩
      · by_cases hy : ∃ t, pathParts e.1 = p ++ t
        · obtain ⟨t, ht⟩ := hy
          have htne : t ≠ [] := by
            intro h
            apply hx
            exact ⟨[], by rw [ht, h]; simp⟩
          obtain ⟨pr, hpr⟩ := hpre p t ht htne
          rw [hpr] at hw
          exact Or.inl ⟨pr, (Option.some.inj hw).symm⟩
        · have hnc : ¬ Comparable p (pathParts e.1) := by
            rintro (h | h)
            · exact hy h
            · exact hx h
          rw [hother p hnc] at hw
          rcases h2 p v hw with h | ⟨a, ha, f, hf, t, ht⟩
          · exact Or.inl h
          · exact Or.inr ⟨a, List.mem_append_left _ ha, f, hf, t, ht⟩
    have hdone' : ∀ a ∈ done ++ [e], ∀ x ∈ rest,
        SafeOrder (pathParts a.1) (pathParts x.1) := by
      intro a ha x hx
      rcases List.mem_append.1 ha with h | h
      · exact hdone a h x (List.mem_cons_of_mem _ hx)
      · rw [List.mem_singleton.1 h]
        exact hpw.1 x hx
    obtain ⟨pr', hloop, hres⟩ :=
      treeLoop_ordered_spec rootPath rest pr1 (done ++ [e]) h1' h2'
        (fun x hx => hnodes x (List.mem_cons_of_mem _ hx))
        (fun x hx => hne x (List.mem_cons_of_mem _ hx))
        (fun x hx => hroot x (List.mem_cons_of_mem _ hx)) hpw.2 hdone'
    refine ⟨pr', ?_, ?_⟩
    · obtain ⟨path, node⟩ := e
      have hr := hroot (path, node) (List.mem_cons_self _ _)
      simp only at hr hins
      simp only [treeLoop, hr, if_true]
      rw [hins]
      exact hloop
    · simpa [List.append_assoc] using hres

theorem walk_single (x : JsVal) (f : String) (v : JsVal) (h : walk x [f] = some v) :
    ∃ o, x = .obj o ∧ lookup f o = some v := by
  cases x with
  | obj o =>
    refine ⟨o, rfl, ?_⟩
    simp only [walk] at h
    cases hl : lookup f o with
    | none => rw [hl] at h; cases h
    | some c =>
      rw [hl] at h
      simp only [walk_nil] at h
      rw [← Option.some.inj h]
  | _ => simp [walk] at h

theorem treeLoop_ok_of_ordered (rootPath : String) (es : List (String × JsVal))
    (hnodes : ∀ e ∈ es, e.2.nullish = false)
    (hne : ∀ e ∈ es, pathParts e.1 ≠ [])
    (hroot : ∀ e ∈ es, (jsStartsWith e.1 rootPath || rootPath == "/") = true)
    (hpw : es.Pairwise (fun a b => SafeOrder (pathParts a.1) (pathParts b.1))) :
    ∃ pr', treeLoop rootPath es (.obj []) = .ok (.obj pr') ∧
      ∀ a ∈ es, ∃ leaf, treeLeaf a.2 = .ok leaf ∧
        ∀ f ∈ leafFields, walk (.obj pr') (pathParts a.1 ++ [f]) = walk leaf [f] := by
  obtain ⟨pr', hloop, hres⟩ :=
    treeLoop_ordered_spec rootPath es [] []
      (fun a ha => absurd ha (List.not_mem_nil a))
      (fun p v hw => by
        cases p with
        | nil => exact Or.inl ⟨[], by simpa [walk_nil] using hw.symm⟩
        | cons k ks => rw [walk_empty_obj] at hw; cases hw)
      hnodes hne hroot hpw (fun a ha => absurd ha (List.not_mem_nil a))
  exact ⟨pr', hloop, by simpa using hres⟩

/-- On a vfs whose order keeps the leaves apart and whose segments do not bear
the name of a member that objects inherit, every node is found by walking its
segments, and the object found there carries the node's own type, mime, size
and content. -/
theorem getVFSTree_keeps_node_data {δ : Type} (svc : SessionService δ) (rootPath : String)
    (es : List (String × JsVal))
    (hactive : svc.currentSession.truthy = true)
    (hvfs : svc.currentSession.prop "vfs" = .obj es)
    (hnodes : ∀ e ∈ es, e.2.nullish = false)
    (hne : ∀ e ∈ es, pathParts e.1 ≠ [])
    (_hown : ∀ e ∈ es, ∀ part ∈ pathParts e.1, part ∉ objectPrototypeKeys)
    (hroot : ∀ e ∈ es, jsStartsWith e.1 rootPath = true)
    (hpw : es.Pairwise (fun a b => SafeOrder (pathParts a.1) (pathParts b.1))) :
    ∃ tree, getVFSTree svc rootPath = .ok tree ∧
      ∀ e ∈ es, ∃ o, walk tree (pathParts e.1) = some (.obj o) ∧
        lookup "type" o
          = some (.str (if (e.2.prop "isDirectory").truthy then "directory" else "file")) ∧
        lookup "mime" o = some (e.2.prop "mime") ∧
        lookup "size" o = some (e.2.prop "size") ∧
        lookup "content" o = some (e.2.prop "content") := by
  obtain ⟨pr', hloop, hres⟩ :=
    treeLoop_ok_of_ordered rootPath es hnodes hne
      (fun e he => by rw [hroot e he]; rfl) hpw
  refine ⟨.obj pr', ?_, ?_⟩
  · simp [getVFSTree, hactive, hvfs, JsVal.entries, hloop]
  · intro e he
    obtain ⟨leaf, hleaf, hfields⟩ := hres e he
    have hshape := treeLeaf_eq e.2 leaf hleaf
    subst hshape
    have field : ∀ f ∈ leafFields, ∀ v,
        walk (JsVal.obj
          [("type", .str (if (e.2.prop "isDirectory").truthy then "directory" else "file")),
           ("mime", e.2.prop "mime"), ("size", e.2.prop "size"),
           ("content", e.2.prop "content")]) [f] = some v →
        ∃ x, walk (.obj pr') (pathParts e.1) = some x ∧ walk x [f] = some v := by
      intro f hf v hv
      have h := hfields f hf
      rw [walk_append, hv] at h
      cases hx : walk (.obj pr') (pathParts e.1) with
      | none => rw [hx] at h; cases h
      | some x => rw [hx] at h; exact ⟨x, rfl, h⟩
    obtain ⟨x, hx, ht⟩ := field "type" (by simp [leafFields]) _ (by rfl)
    obtain ⟨o, ho, hlt⟩ := walk_single x "type" _ ht
    subst ho
    refine ⟨o, hx, hlt, ?_, ?_, ?_⟩
    · obtain ⟨y, hy, hm⟩ := field "mime" (by simp [leafFields]) (e.2.prop "mime")
        (by simp [walk, lookup])
      rw [hx] at hy
      rw [← Option.some.inj hy] at hm
      obtain ⟨o2, ho2, hl⟩ := walk_single _ "mime" _ hm
      rw [JsVal.obj.injEq] at ho2
      rw [ho2]
      exact hl
    · obtain ⟨y, hy, hm⟩ := field "size" (by simp [leafFields]) (e.2.prop "size")
        (by simp [walk, lookup])
      rw [hx] at hy
      rw [← Option.some.inj hy] at hm
      obtain ⟨o2, ho2, hl⟩ := walk_single _ "size" _ hm
      rw [JsVal.obj.injEq] at ho2
      rw [ho2]
      exact hl
    · obtain ⟨y, hy, hm⟩ := field "content" (by simp [leafFields]) (e.2.prop "content")
        (by simp [walk, lookup])
      rw [hx] at hy
      rw [← Option.some.inj hy] at hm
      obtain ⟨o2, ho2, hl⟩ := walk_single _ "content" _ hm
      rw [JsVal.obj.injEq] at ho2
      rw [ho2]
      exact hl

/-- C30: the sample vfs is in capture order (the directory `home:/d` precedes
the file `home:/d/type` in it) and `home:/` prefixes both paths, yet the object
found by walking `home:`, `d` does not carry the directory's own type: its
`type` is the leaf of the file named `type`, stored by `current[part] = leaf`
into the object that also holds the directory's fields. -/
theorem getVFSTree_child_overwrites_parent_type :
    shadowedService.currentSession.prop "vfs"
      = .obj [("home:/d", sampleFolder), ("home:/d/type", sampleTextFile "T")] ∧
    pathParts "home:/d" = ["home:", "d"] ∧
    pathParts "home:/d/type" = ["home:", "d", "type"] ∧
    getVFSTree shadowedService "home:/"
      = .ok (.obj [("home:", .obj [("d",
          .obj [("type", sampleLeaf "T"), ("mime", .null), ("size", .num 0),
                ("content", .null)])])]) ∧
    walk (.obj [("home:", .obj [("d",
          .obj [("type", sampleLeaf "T"), ("mime", .null), ("size", .num 0),
                ("content", .null)])])]) ["home:", "d", "type"] = some (sampleLeaf "T") :=
  ⟨by rfl, by decide, by decide, by rfl, by rfl⟩

/-! ### Validation and inspection -/

/-- C29 fails as stated: `validate` accepts a manifest whose only vfs node and
only process descriptor are `null` (it checks the two containers, not what is in
them), and with that manifest active the listing of `inspectVFS`, the tree of
`getVFSTree` and both forms of `inspectProcesses` raise a `TypeError`. -/
theorem validated_manifest_inspection_raises :
    validateSessionManifest shallowManifest = .valid ∧
    inspectVFS shallowService none
      = .error (.typeError "Cannot read properties of null or undefined (reading isDirectory)") ∧
    getVFSTree shallowService "home:/"
      = .error (.typeError "Cannot read properties of null or undefined (reading isDirectory)") ∧
    inspectProcesses shallowService none
      = .error (.typeError "Cannot read properties of null or undefined (reading type)") ∧
    inspectProcesses shallowService (some "editor")
      = .error (.typeError "Cannot read properties of null or undefined (reading type)") :=
  ⟨by rfl, by rfl, by rfl, by rfl, by rfl⟩

/-- C29 as amended: for every manifest that `validate` accepts, whose vfs is a
mapping of node objects and whose process descriptors are objects, once it is
the active manifest `inspectSession`, `inspectVFS` with and without a path,
`inspectProcesses` with and without a type and `getProcessDetail` for any index
return without raising; `getVFSTree` returns without raising for any root when
every path has a segment, no segment bears the name of a member that objects
inherit (`constructor`, `toString`, ...), and the order of the vfs keeps the
leaves apart. -/
theorem inspection_safe_for_object_nodes {δ : Type} (svc : SessionService δ)
    (es : List (String × JsVal))
    (hvalid : validateSessionManifest svc.currentSession = .valid)
    (hvfs : svc.currentSession.prop "vfs" = .obj es)
    (hnodes : ∀ e ∈ es, ∃ pr, e.2 = .obj pr)
    (hdesc : ∀ ps, svc.currentSession.prop "processes" = .arr ps →
      ∀ p ∈ ps, ∃ pr, p = .obj pr) :
    (∃ r, inspectSession svc = .ok r) ∧
    (∀ filePath, ∃ r, inspectVFS svc filePath = .ok r) ∧
    (∀ processType, ∃ r, inspectProcesses svc processType = .ok r) ∧
    (∀ processIndex, ∃ r, getProcessDetail svc processIndex = .ok r) ∧
    (∀ rootPath, (∀ e ∈ es, pathParts e.1 ≠ []) →
      (∀ e ∈ es, ∀ part ∈ pathParts e.1, part ∉ objectPrototypeKeys) →
      es.Pairwise (fun a b => SafeOrder (pathParts a.1) (pathParts b.1)) →
      ∃ r, getVFSTree svc rootPath = .ok r) := by
  obtain ⟨hactive, _, _, harr, _⟩ := (validate_valid_iff svc.currentSession).1 hvalid
  obtain ⟨ps, hprocs⟩ := (isArray_iff _).1 harr
  have hnn : ∀ e ∈ es, e.2.nullish = false := by
    intro e he
    obtain ⟨pr, hpr⟩ := hnodes e he
    rw [hpr]
    rfl
  have hpn : ∀ p ∈ ps, p.nullish = false := by
    intro p hp
    obtain ⟨pr, hpr⟩ := hdesc ps hprocs p hp
    rw [hpr]
    rfl
  have hor : (svc.currentSession.prop "processes").orElse (.arr []) = .arr ps := by
    rw [hprocs]
    rfl
  have hvor : (svc.currentSession.prop "vfs").orElse (.obj []) = .obj es := by
    rw [hvfs]
    rfl
  refine ⟨?_, ?_, ?_, ?_, ?_⟩
  · simp only [inspectSession, hactive, hvor, keyCount, JsVal.entries, Bool.not_true,
      Bool.false_eq_true, if_false]
    exact ⟨_, rfl⟩
  · intro filePath
    cases hg : givenArg filePath with
    | none =>
      simp only [inspectVFS, hactive, hg, hvfs, JsVal.entries, mapThrowing_listing es hnn,
        Bool.not_true, Bool.false_eq_true, if_false]
      exact ⟨_, rfl⟩
    | some p =>
      have hget : (svc.currentSession.prop "vfs").getProp p
          = .ok ((JsVal.obj es).prop p) := by
        rw [hvfs]
        rfl
      simp only [inspectVFS, hactive, hg, hget, Bool.not_true, Bool.false_eq_true, if_false]
      exact ⟨_, rfl⟩
  · intro processType
    cases hg : givenArg processType with
    | none =>
      obtain ⟨ss, hss, _⟩ := summarize_spec ps hpn
      simp only [inspectProcesses, hactive, hor, hg, hss, Bool.not_true, Bool.false_eq_true,
        if_false]
      exact ⟨_, rfl⟩
    | some t =>
      simp only [inspectProcesses, hactive, hor, hg, filterByType_eq_filter t ps hpn,
        Bool.not_true, Bool.false_eq_true, if_false]
      exact ⟨_, rfl⟩
  · intro processIndex
    unfold getProcessDetail
    split
    · exact ⟨_, rfl⟩
    · exact ⟨_, rfl⟩
  · intro rootPath hne _ hpw
    simp only [getVFSTree, hactive, hvfs, JsVal.entries, Bool.not_true, Bool.false_eq_true,
      if_false]
    by_cases hroot : rootPath = "/"
    · obtain ⟨pr', hloop, _⟩ := treeLoop_ok_of_ordered rootPath es hnn hne
        (fun e _ => by simp [hroot]) hpw
      exact ⟨_, hloop⟩
    · rw [treeLoop_filter rootPath hroot es]
      obtain ⟨pr', hloop, _⟩ := treeLoop_ok_of_ordered rootPath
        (es.filter (fun e => jsStartsWith e.1 rootPath))
        (fun e he => hnn e (List.mem_filter.1 he).1)
        (fun e he => hne e (List.mem_filter.1 he).1)
        (fun e he => by rw [(List.mem_filter.1 he).2]; rfl)
        (hpw.sublist (List.filter_sublist _))
      exact ⟨_, hloop⟩

/-- Witness for C29 as amended: the sample manifest, a directory followed by a
file in it and three descriptor objects, is accepted by `validate`; the tree of
`getVFSTree("home:/")` and the listing of `inspectVFS()` are returned. -/
theorem inspection_safe_for_object_nodes_witness :
    validateSessionManifest inspectedService.currentSession = .valid ∧
    (∃ r, getVFSTree inspectedService "home:/" = .ok r) ∧
    (∃ r, inspectVFS inspectedService none = .ok r) ∧
    (∃ r, inspectProcesses inspectedService none = .ok r) := by
  have hp1 : pathParts "home:/docs" = ["home:", "docs"] := by decide
  have hp2 : pathParts "home:/docs/a.txt" = ["home:", "docs", "a.txt"] := by decide
  have h := inspection_safe_for_object_nodes inspectedService
    [("home:/docs", sampleFolder), ("home:/docs/a.txt", sampleTextFile "A")]
    (by rfl) (by rfl)
    (by
      intro e he
      simp at he
      rcases he with h | h <;> subst h
      · exact ⟨_, rfl⟩
      · exact ⟨_, rfl⟩)
    (by
      intro ps hps p hp
      have heq : JsVal.arr [sampleProcess "editor" "A", sampleProcess "paint" "B",
          .obj [("type", .str "editor"), ("appState", .obj [])]] = .arr ps := hps
      rw [JsVal.arr.injEq] at heq
      subst heq
      simp at hp
      rcases hp with h | h | h <;> subst h
      · exact ⟨_, rfl⟩
      · exact ⟨_, rfl⟩
      · exact ⟨_, rfl⟩)
  refine ⟨by rfl, h.2.2.2.2 "home:/" ?_ ?_ ?_, h.2.1 none, h.2.2.1 none⟩
  · intro e he
    simp at he
    rcases he with h | h <;> subst h
    · simp [hp1]
    · simp [hp2]
  · intro e he
    simp at he
    rcases he with h | h <;> subst h <;> decide
  · simp [SafeOrder, leafFields, hp1, hp2]

end OsjsSession
